import Mathlib

/-! DockScope: metrics derivation, fleet summary, stats streaming, container actions and
container listing.

A model of `statsToMetrics` and `round2` (internal/infrastructure/docker/stats_stream.go),
of `GetSystemSummary.Execute` (internal/usecase/get_system_summary.go), of
`StreamContainerStats.Execute` (internal/usecase/stream_container_stats.go) running against
the goroutine of `StatsStreamer.StreamStats`, of `ExecuteContainerAction.Execute`
(internal/usecase/execute_container_action.go) with `ContainerController.ExecuteAction`
(internal/infrastructure/docker/container_actions.go), and of `ListContainers.Execute`
(internal/usecase/list_containers.go), followed by the properties proved of them.

Numbers follow Go: uint64 arithmetic is taken modulo 2^64, and a float64 is the rational
it denotes, every float64 operation rounding its exact result to the nearest float64,
ties to even.
-/

namespace DockScope

/-! ## Go numeric model -/

/-- Nearest integer to a rational, a tie going to the even neighbour. -/
def roundHalfEven (q : ℚ) : ℤ :=
  if q - ⌊q⌋ < 1 / 2 then ⌊q⌋
  else if 1 / 2 < q - ⌊q⌋ then ⌊q⌋ + 1
  else if ⌊q⌋ % 2 = 0 then ⌊q⌋ else ⌊q⌋ + 1

/-- Exponent of the unit in the last place of the binary64 format at magnitude `q`:
53 significant bits, smallest normal exponent -1022. -/
def ulpExp (q : ℚ) : ℤ := max (Int.log 2 |q|) (-1022) - 52

/-- Rounding of an exact result to a float64 value (round to nearest, ties to even).
A finite float64 is the rational it denotes. The exponent is not bounded above: overflow
to infinity is not modelled, and `statsToMetrics`, whose divisions are guarded and whose
operands come from 64-bit integers, stays far below 2^1024. -/
def f64round (q : ℚ) : ℚ := roundHalfEven (q / 2 ^ ulpExp q) * 2 ^ ulpExp q

/-- Go `a + b` on float64. -/
def f64add (a b : ℚ) : ℚ := f64round (a + b)

/-- Go `a * b` on float64. -/
def f64mul (a b : ℚ) : ℚ := f64round (a * b)

/-- Go `a / b` on float64, for a non-zero divisor. -/
def f64div (a b : ℚ) : ℚ := f64round (a / b)

/-- Go `float64(n)` for an unsigned or signed integer `n`. -/
def f64ofInt (n : ℤ) : ℚ := f64round n

/-- Go `a - b` on uint64: the difference modulo 2^64. -/
def u64sub (a b : ℕ) : ℕ := (a % 2 ^ 64 + (2 ^ 64 - b % 2 ^ 64)) % 2 ^ 64

/-- Go `a + b` on uint64: the sum modulo 2^64. -/
def u64add (a b : ℕ) : ℕ := (a + b) % 2 ^ 64

/-- What the Go specification leaves to the implementation in the code modelled here:
whether `x*y + z` is fused into one rounding, and the value of a float64 to int
conversion whose result does not fit the 64-bit `int`. -/
structure GoTarget where
  fusesMulAdd : Bool
  intOutOfRange : ℚ → ℤ

/-- The amd64 target: no fusing, and an out-of-range conversion gives the least int64. -/
def amd64 : GoTarget := ⟨false, fun _ => -2 ^ 63⟩

/-- The arm64 target: fused multiply-add, and an out-of-range conversion saturates. -/
def arm64 : GoTarget := ⟨true, fun x => if x < 0 then -2 ^ 63 else 2 ^ 63 - 1⟩

/-- Truncation toward zero. -/
def truncate (x : ℚ) : ℤ := if 0 ≤ x then ⌊x⌋ else ⌈x⌉

/-- Go `int(x)` for a float64 `x` on a 64-bit target. -/
def f64toInt (t : GoTarget) (x : ℚ) : ℤ :=
  if -2 ^ 63 ≤ truncate x ∧ truncate x < 2 ^ 63 then truncate x else t.intOutOfRange x

/-- Go `x*y + z` on float64. -/
def f64mulAdd (t : GoTarget) (x y z : ℚ) : ℚ :=
  if t.fusesMulAdd then f64round (x * y + z) else f64add (f64mul x y) z

/-- `round2` of stats_stream.go: `float64(int(v*100+0.5)) / 100`. -/
def round2 (t : GoTarget) (v : ℚ) : ℚ :=
  f64div (f64ofInt (f64toInt t (f64mulAdd t v 100 (1 / 2)))) 100

/-- `types.CPUUsage` of the docker API: the cumulative CPU time of the container, a
uint64. -/
structure CPUUsage where
  TotalUsage : ℕ

/-- `types.CPUStats` of the docker API, with the fields `statsToMetrics` reads:
`SystemUsage` is the cumulative CPU time of the host (uint64), `OnlineCPUs` a uint32. -/
structure CPUStats where
  CPUUsage : CPUUsage
  SystemUsage : ℕ
  OnlineCPUs : ℕ

/-- `types.MemoryStats` of the docker API, with the fields `statsToMetrics` reads, both
uint64. -/
structure MemoryStats where
  Usage : ℕ
  Limit : ℕ

/-- `types.StatsJSON` of the docker API, with the fields `statsToMetrics` reads; `Read` is
the timestamp of the sample. -/
structure StatsJSON where
  Read : ℤ
  PreCPUStats : CPUStats
  MemoryStats : MemoryStats
  CPUStats : CPUStats

/-- `domain.ContainerMetrics`. -/
structure ContainerMetrics where
  CPUPercentage : ℚ
  MemoryUsage : ℕ
  MemoryLimit : ℕ
  MemoryPercent : ℚ
  Timestamp : ℤ
deriving DecidableEq

/-- The CPU percentage computed by `statsToMetrics` before rounding. -/
def cpuPercent (raw : StatsJSON) : ℚ :=
  let systemDelta := f64ofInt (u64sub raw.CPUStats.SystemUsage raw.PreCPUStats.SystemUsage)
  if systemDelta > 0 then
    let cpuDelta :=
      f64ofInt (u64sub raw.CPUStats.CPUUsage.TotalUsage raw.PreCPUStats.CPUUsage.TotalUsage)
    let p := f64mul (f64div cpuDelta systemDelta) 100
    if raw.CPUStats.OnlineCPUs > 0 then f64div p (f64ofInt raw.CPUStats.OnlineCPUs) else p
  else 0

/-- The memory percentage computed by `statsToMetrics` before rounding. -/
def memPercent (raw : StatsJSON) : ℚ :=
  if raw.MemoryStats.Limit > 0 then
    f64mul (f64div (f64ofInt raw.MemoryStats.Usage) (f64ofInt raw.MemoryStats.Limit)) 100
  else 0

/-- `statsToMetrics` of stats_stream.go. -/
def statsToMetrics (t : GoTarget) (raw : StatsJSON) : ContainerMetrics :=
  { CPUPercentage := round2 t (cpuPercent raw)
    MemoryUsage := raw.MemoryStats.Usage
    MemoryLimit := raw.MemoryStats.Limit
    MemoryPercent := round2 t (memPercent raw)
    Timestamp := raw.Read }

/-! ## Summary use case -/

/-- Go `string`: a sequence of bytes. -/
abbrev GoString := List UInt8

/-- The bytes of a string literal. -/
def str (s : String) : GoString := s.toUTF8.data.toList

/-- Go `error` value, identified by its message. -/
abbrev GoError := String

/-- `domain.Container`, with the fields the summary reads. -/
structure Container where
  ID : GoString
  Names : List GoString
  State : GoString
deriving DecidableEq

/-- `domain.Image`; the summary only counts images. -/
structure Image where
  ID : GoString
deriving DecidableEq

/-- `domain.Volume`; the summary only counts volumes. -/
structure Volume where
  Name : GoString
deriving DecidableEq

/-- `ContainerMemoryEntry` of get_system_summary.go. -/
structure ContainerMemoryEntry where
  ID : GoString
  Name : GoString
  MemoryUsage : ℕ
  MemoryPercent : ℚ
deriving DecidableEq

/-- `ContainerMetricsEntry` of get_system_summary.go. -/
structure ContainerMetricsEntry where
  ID : GoString
  Name : GoString
  CPUPercentage : ℚ
  MemoryUsage : ℕ
  MemoryLimit : ℕ
  MemoryPercent : ℚ
deriving DecidableEq

/-- `GetSystemSummaryOutput` of get_system_summary.go. -/
structure GetSystemSummaryOutput where
  ContainersTotal : ℕ
  ContainersRunning : ℕ
  ContainersStopped : ℕ
  CPUPercentTotal : ℚ
  MemoryUsageBytes : ℕ
  MemoryLimitBytes : ℕ
  ImagesCount : ℕ
  VolumesCount : ℕ
  TopContainersByMemory : List ContainerMemoryEntry
  ContainerMetrics : List ContainerMetricsEntry
deriving DecidableEq

/-- `topContainersByMemoryN` of get_system_summary.go. -/
def topContainersByMemoryN : ℕ := 10

/-- The use case with its collaborators, each given by what its call returns; a Go
result `(v, err)` is the pair of `v` and the optional error. `containers` is
`ListActive(ctx, all)`, `stats` is `Snapshot(ctx, containerID)`, `sysInfo` is
`GetMemTotal(ctx)`. -/
structure GetSystemSummary where
  containers : Bool → List Container × Option GoError
  images : List Image × Option GoError
  volumes : List Volume × Option GoError
  stats : GoString → Option ContainerMetrics × Option GoError
  sysInfo : ℕ × Option GoError

/-- `containerDisplayName` of get_system_summary.go; 47 is the byte of the slash. -/
def containerDisplayName (c : Container) : GoString :=
  match c.Names with
  | (b :: rest) :: _ => if b = 47 then rest else b :: rest
  | _ => if 12 ≤ c.ID.length then c.ID.take 12 else c.ID

/-- The local type `result` of `Execute`: what one fan-out worker sends on the channel. -/
structure result where
  c : Container
  m : Option ContainerMetrics
  err : Option GoError
deriving DecidableEq

/-- The loop over `containers` in `Execute`: running count, stopped count and the
running containers in list order. -/
def partitionByState (containers : List Container) : ℕ × ℕ × List Container :=
  containers.foldl
    (fun acc c =>
      if c.State = str "running" then (acc.1 + 1, acc.2.1, acc.2.2 ++ [c])
      else (acc.1, acc.2.1 + 1, acc.2.2))
    (0, 0, [])

/-- The variables the loop over the channel updates. -/
structure Collected where
  totalCPU : ℚ
  totalMem : ℕ
  metricsWithMem : List (Container × ContainerMetrics)
  containerMetrics : List ContainerMetricsEntry
deriving DecidableEq

/-- The entry `Execute` appends to `ContainerMetrics` for one snapshot. -/
def metricsEntry (p : Container × ContainerMetrics) : ContainerMetricsEntry :=
  { ID := p.1.ID
    Name := containerDisplayName p.1
    CPUPercentage := p.2.CPUPercentage
    MemoryUsage := p.2.MemoryUsage
    MemoryLimit := p.2.MemoryLimit
    MemoryPercent := p.2.MemoryPercent }

/-- One iteration of `for r := range ch` in `Execute`. -/
def collectStep (acc : Collected) (r : result) : Collected :=
  match r.err, r.m with
  | some _, _ => acc
  | none, none => acc
  | none, some m =>
    { totalCPU := f64add acc.totalCPU m.CPUPercentage
      totalMem := u64add acc.totalMem m.MemoryUsage
      metricsWithMem := acc.metricsWithMem ++ [(r.c, m)]
      containerMetrics := acc.containerMetrics ++ [metricsEntry (r.c, m)] }

/-- The loop `for r := range ch` over the results in the order the channel delivers them. -/
def collect (arrived : List result) : Collected :=
  arrived.foldl collectStep ⟨0, 0, [], []⟩

/-- The body of the inner sorting loop: swap positions `i` and `j` when the later
entry uses more memory. -/
def swapIfGreater (a : List (Container × ContainerMetrics)) (i j : ℕ) :
    List (Container × ContainerMetrics) :=
  match a[i]?, a[j]? with
  | some x, some y => if y.2.MemoryUsage > x.2.MemoryUsage then (a.set i y).set j x else a
  | _, _ => a

/-- The inner loop `for j := i + 1; j < len; j++`, with the number of iterations left. -/
def sortInner (i : ℕ) : ℕ → ℕ → List (Container × ContainerMetrics) →
    List (Container × ContainerMetrics)
  | 0, _, a => a
  | n + 1, j, a => sortInner i n (j + 1) (swapIfGreater a i j)

/-- The outer loop `for i := 0; i < len; i++`, with the number of iterations left. -/
def sortOuter : ℕ → ℕ → List (Container × ContainerMetrics) →
    List (Container × ContainerMetrics)
  | 0, _, a => a
  | n + 1, i, a => sortOuter n (i + 1) (sortInner i (a.length - (i + 1)) (i + 1) a)

/-- The two nested loops of `Execute` that order `metricsWithMem` by memory usage. -/
def sortByMemoryUsage (a : List (Container × ContainerMetrics)) :
    List (Container × ContainerMetrics) :=
  sortOuter a.length 0 a

/-- The entry `Execute` appends to `TopContainersByMemory` for one ranked container. -/
def memoryEntry (limit : ℕ) (p : Container × ContainerMetrics) : ContainerMemoryEntry :=
  { ID := p.1.ID
    Name := containerDisplayName p.1
    MemoryUsage := p.2.MemoryUsage
    MemoryPercent :=
      if limit > 0 then f64mul (f64div (f64ofInt p.2.MemoryUsage) (f64ofInt limit)) 100
      else 0 }

/-- The last loop of `Execute`: entries for the first `topContainersByMemoryN` ranked
containers. -/
def topEntries (limit : ℕ) (ranked : List (Container × ContainerMetrics)) :
    List ContainerMemoryEntry :=
  (ranked.take topContainersByMemoryN).map (memoryEntry limit)

/-- The value of `memTotal` after the host-memory call: zero when the call fails. -/
def memTotalOf (uc : GetSystemSummary) : ℕ :=
  match uc.sysInfo with
  | (_, some _) => 0
  | (n, none) => n

/-- The memory limit of the summary: `memTotal`, replaced by the summed usage when it is
zero and the sum is not. -/
def limitOf (memTotal totalMem : ℕ) : ℕ :=
  if memTotal = 0 ∧ totalMem > 0 then totalMem else memTotal

/-- What a run of `Execute` produces: the returned summary or error, and the container
ids passed to `stats.Snapshot`. -/
structure Outcome where
  result : Except GoError GetSystemSummaryOutput
  snapshotCalls : List GoString

/-- `GetSystemSummary.Execute`. The fan-out workers send their results on the channel
in an order the scheduler chooses: `sched` maps the results in launch order to the
order of arrival (`IsSchedule` below says that it reorders and nothing else). -/
def GetSystemSummary.Execute (uc : GetSystemSummary) (sched : List result → List result) :
    Outcome :=
  match uc.containers true with
  | (_, some err) => ⟨.error err, []⟩
  | (containers, none) =>
  match uc.images with
  | (_, some err) => ⟨.error err, []⟩
  | (images, none) =>
  match uc.volumes with
  | (_, some err) => ⟨.error err, []⟩
  | (volumes, none) =>
  let memTotal := memTotalOf uc
  let counts := partitionByState containers
  let running := counts.2.2
  if running.length = 0 then
    ⟨.ok
      { ContainersTotal := containers.length
        ContainersRunning := counts.1
        ContainersStopped := counts.2.1
        CPUPercentTotal := 0
        MemoryUsageBytes := 0
        MemoryLimitBytes := memTotal
        ImagesCount := images.length
        VolumesCount := volumes.length
        TopContainersByMemory := []
        ContainerMetrics := [] }, []⟩
  else
    let launched := running.map (fun c => (⟨c, (uc.stats c.ID).1, (uc.stats c.ID).2⟩ : result))
    let acc := collect (sched launched)
    let limit := limitOf memTotal acc.totalMem
    ⟨.ok
      { ContainersTotal := containers.length
        ContainersRunning := counts.1
        ContainersStopped := counts.2.1
        CPUPercentTotal := acc.totalCPU
        MemoryUsageBytes := acc.totalMem
        MemoryLimitBytes := limit
        ImagesCount := images.length
        VolumesCount := volumes.length
        TopContainersByMemory := topEntries limit (sortByMemoryUsage acc.metricsWithMem)
        ContainerMetrics := acc.containerMetrics }, running.map (fun c => c.ID)⟩

/-- A scheduler: the results arrive in some order, each exactly once. -/
def IsSchedule (sched : List result → List result) : Prop := ∀ l, (sched l).Perm l

/-- The running containers of a list: those whose state is exactly "running". -/
def runningOf (containers : List Container) : List Container :=
  containers.filter (fun c => c.State = str "running")

/-- A successful snapshot: no error and a metrics value. -/
def snapshotOf (uc : GetSystemSummary) (c : Container) : Option ContainerMetrics :=
  match uc.stats c.ID with
  | (some m, none) => some m
  | _ => none

/-- The results the loop over the channel keeps: no error and a metrics value. -/
def kept (arrived : List result) : List (Container × ContainerMetrics) :=
  arrived.filterMap (fun r =>
    match r.err, r.m with
    | none, some m => some (r.c, m)
    | _, _ => none)

/-- The successfully snapshotted running containers with their snapshots, in list order. -/
def snapshotted (uc : GetSystemSummary) (containers : List Container) :
    List (Container × ContainerMetrics) :=
  (runningOf containers).filterMap (fun c => (snapshotOf uc c).map (fun m => (c, m)))

/-! ## Specification-side definitions and sample inputs -/

/-- The CPU percentage of the specification, from the counter differences taken as
integers: zero when the host difference is not positive, else the rounded share of the
host difference, divided by the CPU count when that is known. -/
def specCPUPercentage (t : GoTarget) (cpuDelta systemDelta : ℤ) (onlineCPUs : ℕ) : ℚ :=
  if systemDelta > 0 then
    if onlineCPUs > 0 then
      round2 t (f64div (f64mul (f64div (f64ofInt cpuDelta) (f64ofInt systemDelta)) 100)
        (f64ofInt onlineCPUs))
    else round2 t (f64mul (f64div (f64ofInt cpuDelta) (f64ofInt systemDelta)) 100)
  else 0

/-- A sample taken after both counters were reset: the host counter went from 1000 to
500, the container counter from 200 to 100, on one CPU. -/
def hostResetSample : StatsJSON :=
  { Read := 0
    PreCPUStats := { CPUUsage := { TotalUsage := 200 }, SystemUsage := 1000, OnlineCPUs := 1 }
    MemoryStats := { Usage := 0, Limit := 0 }
    CPUStats := { CPUUsage := { TotalUsage := 100 }, SystemUsage := 500, OnlineCPUs := 1 } }

/-- A sample taken after the container counter was reset: the host counter advanced from
0 to 2^30, the container counter went from 200 to 100, on 4 CPUs. -/
def containerResetSample : StatsJSON :=
  { Read := 0
    PreCPUStats := { CPUUsage := { TotalUsage := 200 }, SystemUsage := 0, OnlineCPUs := 4 }
    MemoryStats := { Usage := 0, Limit := 0 }
    CPUStats := { CPUUsage := { TotalUsage := 100 }, SystemUsage := 1073741824, OnlineCPUs := 4 } }

/-- A sample with the given memory usage and limit and idle CPU counters. -/
def memorySample (usage limit : ℕ) : StatsJSON :=
  { Read := 0
    PreCPUStats := { CPUUsage := { TotalUsage := 0 }, SystemUsage := 0, OnlineCPUs := 0 }
    MemoryStats := { Usage := usage, Limit := limit }
    CPUStats := { CPUUsage := { TotalUsage := 0 }, SystemUsage := 0, OnlineCPUs := 0 } }

/-- The example of the specification, built on the input of
`TestGetSystemSummary_Counts`: one running and one exited container, one image, one
volume, host memory 2048, every snapshot reporting cpu 1.5 and 100 bytes used of 2048. -/
def countsFleet : GetSystemSummary :=
  { containers := fun _ =>
      ([⟨str "1", [str "/a"], str "running"⟩, ⟨str "2", [str "/b"], str "exited"⟩], none)
    images := ([⟨str "img1"⟩], none)
    volumes := ([⟨str "v1"⟩], none)
    stats := fun _ => (some ⟨3 / 2, 100, 2048, 0, 0⟩, none)
    sysInfo := (2048, none) }

/-- Three running containers, the snapshot of "b" failing, and one exited container; the
host reports 4096 bytes of memory. -/
def mixedFleet : GetSystemSummary :=
  { containers := fun _ =>
      ([⟨str "a", [str "/web"], str "running"⟩, ⟨str "b", [str "/db"], str "running"⟩,
        ⟨str "c", [], str "running"⟩, ⟨str "d", [], str "exited"⟩], none)
    images := ([⟨str "img1"⟩], none)
    volumes := ([], none)
    stats := fun id =>
      if id = str "a" then (some ⟨1, 300, 0, 0, 0⟩, none)
      else if id = str "b" then (none, some "timeout")
      else (some ⟨2, 700, 0, 0, 0⟩, none)
    sysInfo := (4096, none) }

/-- Two running containers with the same memory usage. -/
def tiedFleet : GetSystemSummary :=
  { containers := fun _ =>
      ([⟨str "a", [], str "running"⟩, ⟨str "b", [], str "running"⟩], none)
    images := ([], none)
    volumes := ([], none)
    stats := fun _ => (some ⟨0, 100, 0, 0, 0⟩, none)
    sysInfo := (0, none) }

/-- Two running containers using 2^63 and 2^63 + 5 bytes, the host-memory call failing. -/
def wrappingFleet : GetSystemSummary :=
  { containers := fun _ =>
      ([⟨str "a", [], str "running"⟩, ⟨str "b", [], str "running"⟩], none)
    images := ([], none)
    volumes := ([], none)
    stats := fun id =>
      if id = str "a" then (some ⟨0, 9223372036854775808, 0, 0, 0⟩, none)
      else (some ⟨0, 9223372036854775813, 0, 0, 0⟩, none)
    sysInfo := (0, some "unavailable") }

/-- The input of `TestGetSystemSummary_Empty` with one exited container added: nothing
runs, the host reports 1 GiB. -/
def idleFleet : GetSystemSummary :=
  { containers := fun _ => ([⟨str "x", [], str "exited"⟩], none)
    images := ([], none)
    volumes := ([], none)
    stats := fun _ => (some ⟨1, 1, 1, 1, 0⟩, none)
    sysInfo := (1073741824, none) }

/-! ## Sample inputs for the list calls -/

/-- Containers in the states running, exited, paused, created, the empty state and
"Running", with two images and one volume. -/
def statesFleet : GetSystemSummary :=
  { containers := fun _ =>
      ([⟨str "a", [], str "running"⟩, ⟨str "b", [], str "exited"⟩,
        ⟨str "c", [], str "paused"⟩, ⟨str "d", [], str "created"⟩,
        ⟨str "e", [], str ""⟩, ⟨str "f", [], str "Running"⟩], none)
    images := ([⟨str "img1"⟩, ⟨str "img2"⟩], none)
    volumes := ([⟨str "v1"⟩], none)
    stats := fun _ => (none, some "unavailable")
    sysInfo := (0, some "unavailable") }

/-- The input of `TestGetSystemSummary_ContainerRepoError`: the container repository
fails with DeadlineExceeded. -/
def deadlineFleet : GetSystemSummary :=
  { containers := fun _ => ([], some "context deadline exceeded")
    images := ([], none)
    volumes := ([], none)
    stats := fun _ => (none, none)
    sysInfo := (0, none) }

/-- The image repository fails, and so does the volume repository after it. -/
def imageErrorFleet : GetSystemSummary :=
  { containers := fun _ => ([⟨str "a", [], str "running"⟩], none)
    images := ([], some "images unavailable")
    volumes := ([], some "volumes unavailable")
    stats := fun _ => (none, none)
    sysInfo := (0, none) }

/-- Only the volume repository fails. -/
def volumeErrorFleet : GetSystemSummary :=
  { containers := fun _ => ([⟨str "a", [], str "running"⟩], none)
    images := ([], none)
    volumes := ([], some "volumes unavailable")
    stats := fun _ => (none, none)
    sysInfo := (0, none) }

/-! ## Streaming the stats of one container -/

/-- What one `dec.Decode(&raw)` of `StreamStats` yields: a sample, the end of the stream
(`io.EOF`), or another error. -/
inductive DecodeResult where
  | sample (raw : StatsJSON)
  | eof
  | fail (e : GoError)

/-- The surroundings of one run of `StreamContainerStats.Execute` over
`StatsStreamer.StreamStats`: the error of `cli.ContainerStats` if opening the feed fails,
the result of the k-th `Decode` (counting the samples decoded before it), the result of
`sink.WriteJSON` given all samples written so far, the last one being written now, and the
value of `ctx.Err()` once the context is cancelled. -/
structure StreamEnv where
  target : GoTarget
  openErr : Option GoError
  feed : ℕ → DecodeResult
  sink : List ContainerMetrics → Option GoError
  ctxErr : GoError

/-- Where the goroutine of `StreamStats` stands: before `cli.ContainerStats`, at the
`ctx.Done()` check at the top of the loop, before `Decode`, in the select that sends `m`
on `outCh`, before the deferred `close(errCh)`, before the deferred `close(outCh)`, or
finished. -/
inductive ProducerPC where
  | opening
  | checking
  | decoding
  | sending (m : ContainerMetrics)
  | closingErr
  | closingOut
  | done
deriving DecidableEq

/-- Where `Execute` stands: in the select of its first loop (`errChNil = false`) or of its
second loop (`errChNil = true`), inside `sink.WriteJSON(m)` (`late` records whether the
context was already cancelled when the select received `m`), or returned. -/
inductive ConsumerPC where
  | selecting (errChNil : Bool)
  | writing (errChNil : Bool) (m : ContainerMetrics) (late : Bool)
  | returned (err : Option GoError)
deriving DecidableEq

/-- One call of `sink.WriteJSON`: the sample, and whether the select that received it ran
after the context was cancelled. -/
structure Delivery where
  m : ContainerMetrics
  late : Bool
deriving DecidableEq

/-- The state of a run: the two program counters, the number of samples decoded, the
content and closedness of `errCh` (capacity 1) and `outCh` (capacity 8), whether the
context is cancelled, and the calls of the sink so far. -/
structure StreamState where
  producer : ProducerPC
  decoded : ℕ
  errBuf : Option GoError
  errClosed : Bool
  outBuf : List ContainerMetrics
  outClosed : Bool
  cancelled : Bool
  consumer : ConsumerPC
  written : List Delivery
deriving DecidableEq

/-- What can happen next: the context is cancelled; the goroutine of `StreamStats` takes
its next step (in its sending select, the send); its sending select takes `ctx.Done()`;
the select of `Execute` takes `ctx.Done()`, `errCh` or `metricsCh`; `WriteJSON`
returns. -/
inductive Action where
  | cancel
  | producer
  | producerCtx
  | consumerCtx
  | consumerErr
  | consumerMetrics
  | consumerWrite
deriving DecidableEq

/-- The state when `Execute` has called `StreamStats` and the goroutine has been
launched. -/
def StreamState.init : StreamState :=
  { producer := .opening
    decoded := 0
    errBuf := none
    errClosed := false
    outBuf := []
    outClosed := false
    cancelled := false
    consumer := .selecting false
    written := [] }

/-- One step of the goroutine of `StreamStats`. -/
def producerStep (env : StreamEnv) (s : StreamState) : Option StreamState :=
  match s.producer with
  | .opening =>
    match env.openErr with
    | some e => some { s with errBuf := some e, producer := .closingErr }
    | none => some { s with producer := .checking }
  | .checking => some { s with producer := if s.cancelled then .closingErr else .decoding }
  | .decoding =>
    match env.feed s.decoded with
    | .sample raw =>
      some { s with decoded := s.decoded + 1, producer := .sending (statsToMetrics env.target raw) }
    | .eof => some { s with producer := .closingErr }
    | .fail e => some { s with errBuf := some e, producer := .closingErr }
  | .sending m =>
    if s.outBuf.length < 8 then some { s with outBuf := s.outBuf ++ [m], producer := .checking }
    else none
  | .closingErr => some { s with errClosed := true, producer := .closingOut }
  | .closingOut => some { s with outClosed := true, producer := .done }
  | .done => none

/-- One step of the run, `none` when the action cannot be taken in the state: a receive
needs a value or a closed channel, a send needs room, `ctx.Done()` needs a cancelled
context. -/
def step (env : StreamEnv) (a : Action) (s : StreamState) : Option StreamState :=
  match a with
  | .cancel => if s.cancelled then none else some { s with cancelled := true }
  | .producer => producerStep env s
  | .producerCtx =>
    match s.producer with
    | .sending _ => if s.cancelled then some { s with producer := .closingErr } else none
    | _ => none
  | .consumerCtx =>
    match s.consumer with
    | .selecting _ =>
      if s.cancelled then some { s with consumer := .returned (some env.ctxErr) } else none
    | _ => none
  | .consumerErr =>
    match s.consumer with
    | .selecting false =>
      match s.errBuf with
      | some e => some { s with errBuf := none, consumer := .returned (some e) }
      | none => if s.errClosed then some { s with consumer := .selecting true } else none
    | _ => none
  | .consumerMetrics =>
    match s.consumer with
    | .selecting l =>
      match s.outBuf with
      | m :: rest => some { s with outBuf := rest, consumer := .writing l m s.cancelled }
      | [] => if s.outClosed then some { s with consumer := .returned none } else none
    | _ => none
  | .consumerWrite =>
    match s.consumer with
    | .writing l m late =>
      match env.sink ((s.written ++ [Delivery.mk m late]).map Delivery.m) with
      | some e =>
        some { s with written := s.written ++ [Delivery.mk m late], consumer := .returned (some e) }
      | none =>
        some { s with written := s.written ++ [Delivery.mk m late], consumer := .selecting l }
    | _ => none

/-- The state after the actions of a schedule, `none` when one of them cannot be taken. -/
def run (env : StreamEnv) : List Action → StreamState → Option StreamState
  | [], s => some s
  | a :: rest, s =>
    match step env a s with
    | some s1 => run env rest s1
    | none => none

/-- A feed whose opening fails. -/
def brokenFeed : StreamEnv :=
  { target := amd64
    openErr := some "no such container"
    feed := fun _ => .eof
    sink := fun _ => none
    ctxErr := "context canceled" }

/-- A feed that delivers a sample with the given memory usage and limit on every
`Decode`. -/
def endlessFeed : StreamEnv :=
  { target := amd64
    openErr := none
    feed := fun k => .sample (memorySample k 1000)
    sink := fun _ => none
    ctxErr := "context canceled" }

/-- A feed whose first `Decode` fails with an error that is not the end of the stream. -/
def corruptFeed : StreamEnv :=
  { target := amd64
    openErr := none
    feed := fun _ => .fail "unexpected end of JSON input"
    sink := fun _ => none
    ctxErr := "context canceled" }

/-- The samples in the pipeline: written, being written, waiting in `outCh`, about to be
sent. -/
def pipeline (s : StreamState) : List ContainerMetrics :=
  s.written.map Delivery.m ++
    (match s.consumer with
      | .writing _ m _ => [m]
      | _ => []) ++
    s.outBuf ++
    (match s.producer with
      | .sending m => [m]
      | _ => [])

/-- Whether the goroutine of `StreamStats` has not yet left its loop. -/
def producerAlive (s : StreamState) : Bool :=
  match s.producer with
  | .opening => true
  | .checking => true
  | .decoding => true
  | .sending _ => true
  | _ => false

/-! ## Invariants of the stream -/

/-- The calls of the sink in a state: every failed call is the last one and `Execute` has
returned its error. -/
def SinkInv (env : StreamEnv) (s : StreamState) : Prop :=
  ∀ (i : ℕ) (e : GoError), i < s.written.length →
    env.sink ((s.written.take (i + 1)).map Delivery.m) = some e →
      i + 1 = s.written.length ∧ s.consumer = .returned (some e)

/-- The samples in the pipeline are the first decoded ones, in order, with none missing
while the goroutine of `StreamStats` is in its loop. -/
def PrefixInv (env : StreamEnv) (rs : List StatsJSON) (s : StreamState) : Prop :=
  pipeline s <+: (rs.take s.decoded).map (statsToMetrics env.target) ∧
    (producerAlive s = true →
      pipeline s = (rs.take s.decoded).map (statsToMetrics env.target))

/-- A bound on the steps the goroutine of `StreamStats` has left on a feed of `n` samples
followed by the end of the stream: three per sample still to decode, and its way out. -/
def producerRank (n : ℕ) (s : StreamState) : ℕ :=
  match s.producer with
  | .opening => 3 * (n - s.decoded) + 5
  | .checking => 3 * (n - s.decoded) + 4
  | .decoding => 3 * (n - s.decoded) + 3
  | .sending _ => 3 * (n - s.decoded) + 5
  | .closingErr => 2
  | .closingOut => 1
  | .done => 0

/-- A bound on the steps `Execute` has left when `n` samples are to be written: two per
sample still to write, one for the closed `errCh`, one to return. -/
def consumerRank (n : ℕ) (s : StreamState) : ℕ :=
  match s.consumer with
  | .selecting l => (if l then 0 else 1) + 2 * (n - s.written.length) + 1
  | .writing l _ _ => (if l then 0 else 1) + 2 * (n - s.written.length)
  | .returned _ => 0

/-- The state of a run without cancellation, decode error or sink failure over the
samples `rs`: nothing is lost from the pipeline, the goroutine leaves its loop only at the
end of the feed, `outCh` is closed exactly when it has finished, and `Execute` returns
only nil, with `outCh` closed and empty. -/
def GoodInv (env : StreamEnv) (rs : List StatsJSON) (s : StreamState) : Prop :=
  s.cancelled = false ∧ s.errBuf = none ∧
    pipeline s = (rs.take s.decoded).map (statsToMetrics env.target) ∧
    s.decoded ≤ rs.length ∧
    (producerAlive s = false → s.decoded = rs.length) ∧
    (s.outClosed = true ↔ s.producer = .done) ∧
    (∀ r, s.consumer = .returned r → r = none ∧ s.outClosed = true ∧ s.outBuf = [])

/-- A feed that yields the samples `rs` in order and then a clean end of stream. -/
def finiteFeed (rs : List StatsJSON) (k : ℕ) : DecodeResult :=
  match rs[k]? with
  | some raw => .sample raw
  | none => .eof

/-- Two samples, then the end of the stream; nothing fails. -/
def twoSamples : StreamEnv :=
  { target := amd64
    openErr := none
    feed := finiteFeed [memorySample 100 1000, memorySample 200 1000]
    sink := fun _ => none
    ctxErr := "context canceled" }

/-- The endless feed with a sink whose second call fails. -/
def flakySink : StreamEnv :=
  { endlessFeed with sink := fun l => if l.length = 2 then some "broken pipe" else none }

/-! ## Executing a container action -/

/-- `domain.ActionStart`. -/
def ActionStart : GoString := str "start"

/-- `domain.ActionStop`. -/
def ActionStop : GoString := str "stop"

/-- `domain.ActionRestart`. -/
def ActionRestart : GoString := str "restart"

/-- `domain.ActionPause`. -/
def ActionPause : GoString := str "pause"

/-- `domain.ActionUnpause`. -/
def ActionUnpause : GoString := str "unpause"

/-- The map `allowedActions` of execute_container_action.go, as its lookup: true at the five
keys, and false, the zero value, at every other string. -/
def allowedActions (a : GoString) : Bool :=
  decide (a = ActionStart) || decide (a = ActionStop) || decide (a = ActionRestart) ||
    decide (a = ActionPause) || decide (a = ActionUnpause)

/-- `ExecuteContainerActionInput`. -/
structure ExecuteContainerActionInput where
  ContainerID : GoString
  Action : GoString

/-- `ExecuteContainerAction`: the controller is what its `ExecuteAction` returns for a
container id and an action. -/
structure ExecuteContainerAction where
  ctrl : GoString → GoString → Option GoError

/-- What a run of `ExecuteContainerAction.Execute` gives: the returned error and the calls
made to the controller, each with its container id and action. -/
structure ActionOutcome where
  err : Option GoError
  calls : List (GoString × GoString)
deriving DecidableEq

/-- `ExecuteContainerAction.Execute` of execute_container_action.go. -/
def ExecuteContainerAction.Execute (uc : ExecuteContainerAction)
    (input : ExecuteContainerActionInput) : ActionOutcome :=
  if input.ContainerID = str "" then ⟨some "missing container id", []⟩
  else if !allowedActions input.Action then
    ⟨some "invalid action: must be one of start, stop, restart, pause, unpause", []⟩
  else
    match uc.ctrl input.ContainerID input.Action with
    | some err => ⟨some err, [(input.ContainerID, input.Action)]⟩
    | none => ⟨none, [(input.ContainerID, input.Action)]⟩

/-- The controller of the tests with `err` unset: every call succeeds. -/
def mockController : ExecuteContainerAction := ⟨fun _ _ => none⟩

/-- The controller of `TestExecuteContainerAction_ControllerError`. -/
def failingController : ExecuteContainerAction := ⟨fun _ _ => some "docker error"⟩

/-! ## Listing containers -/

/-- `ListContainersInput`. -/
structure ListContainersInput where
  All : Bool

/-- `ListContainers`: the repository is what its `ListActive` returns for the flag `all`,
a slice (`none` is the nil slice) and an error. -/
structure ListContainers where
  repo : Bool → Option (List Container) × Option GoError

/-- What a run of `ListContainers.Execute` gives: the returned slice and error, and the
flags passed to `ListActive`. -/
structure ListOutcome where
  list : Option (List Container)
  err : Option GoError
  calls : List Bool
deriving DecidableEq

/-- `ListContainers.Execute` of list_containers.go. -/
def ListContainers.Execute (uc : ListContainers) (input : ListContainersInput) :
    ListOutcome :=
  match uc.repo input.All with
  | (_, some err) => ⟨none, some err, [input.All]⟩
  | (list, none) => ⟨list, none, [input.All]⟩

/-- The repository of "returns list from repo" in `TestListContainers_Execute`. -/
def listingRepository : ListContainers :=
  ⟨fun _ => (some [⟨str "a", [], str "running"⟩, ⟨str "b", [], str "exited"⟩], none)⟩

/-- The repository of "propagates repo error" in `TestListContainers_Execute`. -/
def failingRepository : ListContainers := ⟨fun _ => (none, some "repo failed")⟩

/-- A repository that lists the stopped container only when asked for all, and that hands
back a slice along with its error when not. -/
def flagRepository : ListContainers :=
  ⟨fun all =>
    if all then (some [⟨str "a", [], str "running"⟩, ⟨str "b", [], str "exited"⟩], none)
    else (some [⟨str "a", [], str "running"⟩], some "daemon unreachable")⟩

/-! ## The docker controller -/

/-- The calls of the docker client made by `ContainerController.ExecuteAction`; stop and
restart carry the timeout in seconds. -/
inductive RuntimeCall where
  | ContainerStart
  | ContainerStop (timeoutSeconds : ℕ)
  | ContainerRestart (timeoutSeconds : ℕ)
  | ContainerPause
  | ContainerUnpause
deriving DecidableEq

/-- `ContainerController` of container_actions.go: the docker client is what it returns
for a call and a container id. -/
structure ContainerController where
  cli : RuntimeCall → GoString → Option GoError

/-- What a run of `ContainerController.ExecuteAction` gives: the returned error and the
calls made to the docker client. -/
structure ControllerOutcome where
  err : Option GoError
  calls : List (RuntimeCall × GoString)
deriving DecidableEq

/-- `ContainerController.ExecuteAction` of container_actions.go; the last branch is the
`default` of the switch. -/
def ContainerController.ExecuteAction (c : ContainerController)
    (containerID action : GoString) : ControllerOutcome :=
  let timeout := 10
  if action = ActionStart then
    ⟨c.cli .ContainerStart containerID, [(.ContainerStart, containerID)]⟩
  else if action = ActionStop then
    ⟨c.cli (.ContainerStop timeout) containerID, [(.ContainerStop timeout, containerID)]⟩
  else if action = ActionRestart then
    ⟨c.cli (.ContainerRestart timeout) containerID,
      [(.ContainerRestart timeout, containerID)]⟩
  else if action = ActionPause then
    ⟨c.cli .ContainerPause containerID, [(.ContainerPause, containerID)]⟩
  else if action = ActionUnpause then
    ⟨c.cli .ContainerUnpause containerID, [(.ContainerUnpause, containerID)]⟩
  else ⟨some "invalid action", []⟩

/-- `NewExecuteContainerAction` with the docker controller as its `ctrl`. -/
def NewExecuteContainerAction (c : ContainerController) : ExecuteContainerAction :=
  ⟨fun containerID action => (c.ExecuteAction containerID action).err⟩

/-- A docker client on which only pausing fails. -/
def pauseFailingController : ContainerController :=
  ⟨fun call _ => if call = .ContainerPause then some "cannot pause" else none⟩

/-! ## Rounding to float64 -/

theorem floor_le_roundHalfEven (q : ℚ) : ⌊q⌋ ≤ roundHalfEven q := by
  unfold roundHalfEven
  split_ifs <;> omega

theorem roundHalfEven_le_floor_add_one (q : ℚ) : roundHalfEven q ≤ ⌊q⌋ + 1 := by
  unfold roundHalfEven
  split_ifs <;> omega

theorem roundHalfEven_intCast (z : ℤ) : roundHalfEven (z : ℚ) = z := by
  unfold roundHalfEven
  simp

theorem roundHalfEven_le_of_le {q : ℚ} {z : ℤ} (h : q ≤ z) : roundHalfEven q ≤ z := by
  rcases eq_or_lt_of_le (Int.floor_le q) with hq | hq
  · rw [← hq, roundHalfEven_intCast]
    have h1 : (⌊q⌋ : ℚ) ≤ z := by rw [hq]; exact h
    exact_mod_cast h1
  · have h1 : (⌊q⌋ : ℚ) < z := lt_of_lt_of_le hq h
    have h2 : ⌊q⌋ < z := by exact_mod_cast h1
    have := roundHalfEven_le_floor_add_one q
    omega

theorem le_roundHalfEven_of_le {q : ℚ} {z : ℤ} (h : (z : ℚ) ≤ q) : z ≤ roundHalfEven q :=
  le_trans (Int.le_floor.mpr h) (floor_le_roundHalfEven q)

theorem roundHalfEven_mono {a b : ℚ} (h : a ≤ b) : roundHalfEven a ≤ roundHalfEven b := by
  rcases eq_or_lt_of_le (Int.floor_mono h) with hf | hf
  · unfold roundHalfEven
    rw [hf]
    split_ifs <;> first | omega | linarith
  · have h1 := roundHalfEven_le_floor_add_one a
    have h2 := floor_le_roundHalfEven b
    omega

theorem two_zpow_pos (k : ℤ) : (0 : ℚ) < 2 ^ k := zpow_pos (by norm_num) k

theorem f64round_zero : f64round 0 = 0 := by
  simp [f64round, roundHalfEven]

theorem roundHalfEven_eq_of_near {t : ℚ} {m : ℤ} (hlo : (m : ℚ) - 1 / 2 < t)
    (hhi : t < m + 1 / 2) : roundHalfEven t = m := by
  have h1 : (⌊t⌋ : ℚ) ≤ t := Int.floor_le t
  have h2 : t < ⌊t⌋ + 1 := Int.lt_floor_add_one t
  have h3 : ((m - 1 : ℤ) : ℚ) < ⌊t⌋ + 1 := by push_cast; linarith
  have h4 : (⌊t⌋ : ℚ) < ((m + 1 : ℤ) : ℚ) := by push_cast; linarith
  have h5 : m - 1 < ⌊t⌋ + 1 := by exact_mod_cast h3
  have h6 : ⌊t⌋ < m + 1 := by exact_mod_cast h4
  rcases (by omega : ⌊t⌋ = m ∨ ⌊t⌋ = m - 1) with hf | hf
  · unfold roundHalfEven
    rw [hf]
    rw [if_pos (by linarith)]
  · unfold roundHalfEven
    rw [hf]
    have h7 : ¬ (t - ((m - 1 : ℤ) : ℚ) < 1 / 2) := by push_cast; linarith
    have h8 : 1 / 2 < t - ((m - 1 : ℤ) : ℚ) := by push_cast; linarith
    rw [if_neg h7, if_pos h8]
    omega

theorem f64round_le_of_grid {q x : ℚ} {z : ℤ} (hx : x = z * 2 ^ ulpExp q) (h : q ≤ x) :
    f64round q ≤ x := by
  have hu := two_zpow_pos (ulpExp q)
  have h1 : q / 2 ^ ulpExp q ≤ z := by
    rw [div_le_iff₀ hu, ← hx]
    exact h
  have h2 : ((roundHalfEven (q / 2 ^ ulpExp q) : ℤ) : ℚ) ≤ z := by
    exact_mod_cast roundHalfEven_le_of_le h1
  unfold f64round
  rw [hx]
  exact mul_le_mul_of_nonneg_right h2 hu.le

theorem le_f64round_of_grid {q x : ℚ} {z : ℤ} (hx : x = z * 2 ^ ulpExp q) (h : x ≤ q) :
    x ≤ f64round q := by
  have hu := two_zpow_pos (ulpExp q)
  have h1 : (z : ℚ) ≤ q / 2 ^ ulpExp q := by
    rw [le_div_iff₀ hu, ← hx]
    exact h
  have h2 : (z : ℚ) ≤ ((roundHalfEven (q / 2 ^ ulpExp q) : ℤ) : ℚ) := by
    exact_mod_cast le_roundHalfEven_of_le h1
  unfold f64round
  rw [hx]
  exact mul_le_mul_of_nonneg_right h2 hu.le

theorem log_lt_of_abs_lt {q : ℚ} {e : ℤ} (hq : q ≠ 0) (h : |q| < 2 ^ e) :
    Int.log 2 |q| < e := by
  have h1 : |q| < ((2 : ℕ) : ℚ) ^ e := by simpa using h
  exact (Int.lt_zpow_iff_log_lt (by norm_num) (abs_pos.mpr hq)).mp h1

theorem le_log_of_le_abs {q : ℚ} {e : ℤ} (hq : q ≠ 0) (h : 2 ^ e ≤ |q|) :
    e ≤ Int.log 2 |q| := by
  have h1 : ((2 : ℕ) : ℚ) ^ e ≤ |q| := by simpa using h
  exact (Int.zpow_le_iff_le_log (by norm_num) (abs_pos.mpr hq)).mp h1

theorem ulpExp_le {q : ℚ} {k : ℤ} (hq : q ≠ 0) (hk : -1074 ≤ k) (h : |q| < 2 ^ (k + 53)) :
    ulpExp q ≤ k := by
  have h1 := log_lt_of_abs_lt hq h
  unfold ulpExp
  rcases max_cases (Int.log 2 |q|) (-1022) with ⟨h2, _⟩ | ⟨h2, _⟩ <;> rw [h2] <;> omega

theorem ulpExp_eq {q : ℚ} {e : ℤ} (he : -1022 ≤ e) (h1 : 2 ^ e ≤ |q|)
    (h2 : |q| < 2 ^ (e + 1)) : ulpExp q = e - 52 := by
  have hq : q ≠ 0 := by
    intro h0
    rw [h0, abs_zero] at h1
    exact absurd h1 (not_le.mpr (two_zpow_pos e))
  have h3 := log_lt_of_abs_lt hq h2
  have h4 := le_log_of_le_abs hq h1
  unfold ulpExp
  rw [max_eq_left (by omega)]
  omega

theorem on_grid (q : ℚ) (m : ℤ) {k : ℤ} (h : ulpExp q ≤ k) :
    ∃ z : ℤ, (m : ℚ) * 2 ^ k = z * 2 ^ ulpExp q := by
  refine ⟨m * 2 ^ (k - ulpExp q).toNat, ?_⟩
  have h1 : ((k - ulpExp q).toNat : ℤ) = k - ulpExp q := Int.toNat_of_nonneg (by omega)
  push_cast
  rw [mul_assoc, ← zpow_natCast, h1, ← zpow_add₀ (by norm_num : (2 : ℚ) ≠ 0)]
  congr 2
  omega

theorem abs_dyadic_lt {m k : ℤ} (hm : |m| < 2 ^ 53) : |(m : ℚ) * 2 ^ k| < 2 ^ (k + 53) := by
  have hu := two_zpow_pos k
  have h1 : |(m : ℚ)| < 2 ^ (53 : ℤ) := by exact_mod_cast hm
  rw [abs_mul, abs_of_pos hu, zpow_add₀ (by norm_num : (2 : ℚ) ≠ 0), mul_comm ((2 : ℚ) ^ k)]
  exact mul_lt_mul_of_pos_right h1 hu

theorem f64round_exact (m k : ℤ) (hm : |m| < 2 ^ 53) (hk : -1074 ≤ k) :
    f64round (m * 2 ^ k) = m * 2 ^ k := by
  by_cases h0 : (m : ℚ) * 2 ^ k = 0
  · rw [h0, f64round_zero]
  · obtain ⟨z, hz⟩ := on_grid (m * 2 ^ k) m (ulpExp_le h0 hk (abs_dyadic_lt hm))
    have hu := two_zpow_pos (ulpExp ((m : ℚ) * 2 ^ k))
    unfold f64round
    have h1 : (m : ℚ) * 2 ^ k / 2 ^ ulpExp ((m : ℚ) * 2 ^ k) = z := by
      rw [div_eq_iff hu.ne', ← hz]
    rw [h1, roundHalfEven_intCast, ← hz]

theorem f64round_nonneg {q : ℚ} (h : 0 ≤ q) : 0 ≤ f64round q := by
  have h1 : (0 : ℚ) = ((0 : ℤ) : ℚ) * 2 ^ ulpExp q := by simp
  exact le_f64round_of_grid h1 h

theorem f64round_le_of_le {q : ℚ} {m k : ℤ} (h0 : 0 ≤ q) (hm : m < 2 ^ 53) (hk : -1074 ≤ k)
    (h : q ≤ m * 2 ^ k) : f64round q ≤ m * 2 ^ k := by
  rcases eq_or_lt_of_le h0 with hq | hq
  · rw [← hq, f64round_zero]
    rw [← hq] at h
    exact h
  · have hu := two_zpow_pos k
    have h1 : (m : ℚ) < 2 ^ (53 : ℤ) := by exact_mod_cast hm
    have h2 : |q| < 2 ^ (k + 53) := by
      rw [abs_of_pos hq, zpow_add₀ (by norm_num : (2 : ℚ) ≠ 0), mul_comm ((2 : ℚ) ^ k)]
      exact lt_of_le_of_lt h (mul_lt_mul_of_pos_right h1 hu)
    obtain ⟨z, hz⟩ := on_grid q m (ulpExp_le hq.ne' hk h2)
    exact f64round_le_of_grid hz h

theorem f64round_mono {a b : ℚ} (h0 : 0 ≤ a) (h : a ≤ b) : f64round a ≤ f64round b := by
  rcases eq_or_lt_of_le h0 with ha | ha
  · rw [← ha, f64round_zero]
    exact f64round_nonneg (le_trans h0 h)
  · have hb : 0 < b := lt_of_lt_of_le ha h
    have hlog : Int.log 2 |a| ≤ Int.log 2 |b| := by
      rw [abs_of_pos ha, abs_of_pos hb]
      exact Int.log_mono_right ha h
    have hle : ulpExp a ≤ ulpExp b := by
      unfold ulpExp
      exact sub_le_sub_right (max_le_max hlog le_rfl) 52
    rcases eq_or_lt_of_le hle with he | he
    · have hu := two_zpow_pos (ulpExp b)
      unfold f64round
      rw [he]
      have h1 : a / 2 ^ ulpExp b ≤ b / 2 ^ ulpExp b := div_le_div_of_nonneg_right h hu.le
      have h2 : ((roundHalfEven (a / 2 ^ ulpExp b) : ℤ) : ℚ) ≤
          ((roundHalfEven (b / 2 ^ ulpExp b) : ℤ) : ℚ) := by
        exact_mod_cast roundHalfEven_mono h1
      exact mul_le_mul_of_nonneg_right h2 hu.le
    · have h1 : Int.log 2 |a| < Int.log 2 |b| ∧ ulpExp b = Int.log 2 |b| - 52 ∧
          -1022 ≤ Int.log 2 |b| := by
        unfold ulpExp at he ⊢
        rcases max_cases (Int.log 2 |a|) (-1022) with ⟨h2, _⟩ | ⟨h2, _⟩ <;>
          rcases max_cases (Int.log 2 |b|) (-1022) with ⟨h3, _⟩ | ⟨h3, _⟩ <;>
          rw [h2, h3] at he <;> rw [h3] <;> omega
      obtain ⟨h2, h3, h4⟩ := h1
      have h5 : a < 2 ^ (Int.log 2 |a| + 1) := by
        have := Int.lt_zpow_succ_log_self (by norm_num : 1 < 2) |a|
        rw [abs_of_pos ha] at this ⊢
        simpa using this
      have h6 : (2 : ℚ) ^ Int.log 2 |b| ≤ b := by
        have := Int.zpow_log_le_self (by norm_num : 1 < 2) (abs_pos.mpr hb.ne')
        rw [abs_of_pos hb] at this ⊢
        simpa using this
      have h7 : (2 : ℚ) ^ (Int.log 2 |a| + 1) ≤ 2 ^ Int.log 2 |b| :=
        zpow_le_zpow_right₀ (by norm_num) (by omega)
      have h8 : a ≤ ((1 : ℤ) : ℚ) * 2 ^ Int.log 2 |b| := by
        push_cast
        linarith
      have h9 := f64round_le_of_le h0 (by norm_num) (by omega) h8
      have h10 : ((1 : ℤ) : ℚ) * 2 ^ Int.log 2 |b| = ((2 ^ 52 : ℤ) : ℚ) * 2 ^ ulpExp b := by
        have h12 : ((2 ^ 52 : ℤ) : ℚ) = (2 : ℚ) ^ (52 : ℤ) := by norm_num
        rw [h3, h12, Int.cast_one, one_mul, ← zpow_add₀ (by norm_num : (2 : ℚ) ≠ 0)]
        congr 1
        omega
      have h11 : ((1 : ℤ) : ℚ) * 2 ^ Int.log 2 |b| ≤ b := by
        push_cast
        linarith
      exact le_trans h9 (le_f64round_of_grid h10 h11)

theorem f64round_eq_of_near {q : ℚ} (m k : ℤ) (hk : ulpExp q = k)
    (hlo : (m : ℚ) - 1 / 2 < q / 2 ^ k) (hhi : q / 2 ^ k < m + 1 / 2) :
    f64round q = m * 2 ^ k := by
  unfold f64round
  rw [hk, roundHalfEven_eq_of_near hlo hhi]

/-! ## The ranking loops -/

theorem swapIfGreater_append (pre mid rest : List (Container × ContainerMetrics))
    (x y : Container × ContainerMetrics) :
    swapIfGreater (pre ++ x :: (mid ++ y :: rest)) pre.length (pre.length + 1 + mid.length) =
      if y.2.MemoryUsage > x.2.MemoryUsage then pre ++ y :: (mid ++ x :: rest)
      else pre ++ x :: (mid ++ y :: rest) := by
  have h1 : (pre ++ x :: (mid ++ y :: rest))[pre.length]? = some x := by
    rw [List.getElem?_append_right (le_refl _)]
    simp
  have h2 : (pre ++ x :: (mid ++ y :: rest))[pre.length + 1 + mid.length]? = some y := by
    rw [List.getElem?_append_right (by omega)]
    have : pre.length + 1 + mid.length - pre.length = mid.length + 1 := by omega
    rw [this, List.getElem?_cons_succ, List.getElem?_append_right (le_refl _)]
    simp
  unfold swapIfGreater
  rw [h1, h2]
  simp only
  split_ifs with h
  · have h3 : (pre ++ x :: (mid ++ y :: rest)).set pre.length y =
        pre ++ y :: (mid ++ y :: rest) := by
      simp
    rw [h3]
    rw [List.set_append_right _ _ (by omega)]
    have : pre.length + 1 + mid.length - pre.length = mid.length + 1 := by omega
    rw [this, List.set_cons_succ, List.set_append_right _ _ (le_refl _)]
    simp
  · rfl

/-- The inner loop as a pass over the entries not yet compared: `x` is the entry at
position `i`, `mid` the entries already compared with it. -/
theorem sortInner_append (pre : List (Container × ContainerMetrics)) :
    ∀ (rest mid : List (Container × ContainerMetrics)) (x : Container × ContainerMetrics),
      ∃ (m : Container × ContainerMetrics) (tl : List (Container × ContainerMetrics)),
        sortInner pre.length rest.length (pre.length + 1 + mid.length)
            (pre ++ x :: (mid ++ rest)) = pre ++ m :: tl ∧
        (m :: tl).Perm (x :: (mid ++ rest)) ∧
        ((∀ z ∈ mid, z.2.MemoryUsage ≤ x.2.MemoryUsage) →
          ∀ z ∈ tl, z.2.MemoryUsage ≤ m.2.MemoryUsage) := by
  intro rest
  induction rest with
  | nil =>
    intro mid x
    refine ⟨x, mid, ?_, ?_, ?_⟩
    · simp [sortInner]
    · simp
    · intro h
      exact h
  | cons y rest ih =>
    intro mid x
    have hstep : sortInner pre.length (y :: rest).length (pre.length + 1 + mid.length)
        (pre ++ x :: (mid ++ y :: rest)) =
        sortInner pre.length rest.length (pre.length + 1 + mid.length + 1)
          (swapIfGreater (pre ++ x :: (mid ++ y :: rest)) pre.length
            (pre.length + 1 + mid.length)) := rfl
    rw [hstep, swapIfGreater_append]
    by_cases hyx : y.2.MemoryUsage > x.2.MemoryUsage
    · rw [if_pos hyx]
      obtain ⟨m, tl, h1, h2, h3⟩ := ih (mid ++ [x]) y
      refine ⟨m, tl, ?_, ?_, ?_⟩
      · have e1 : pre.length + 1 + mid.length + 1 = pre.length + 1 + (mid ++ [x]).length := by
          simp
          omega
        have e2 : mid ++ x :: rest = (mid ++ [x]) ++ rest := by simp
        rw [e1, e2]
        exact h1
      · refine h2.trans ?_
        have e3 : x :: (mid ++ y :: rest) = (x :: mid) ++ y :: rest := by simp
        have e4 : y :: ((mid ++ [x]) ++ rest) = y :: (mid ++ x :: rest) := by simp
        rw [e3, e4]
        refine (List.Perm.trans ?_ List.perm_middle.symm)
        refine List.Perm.cons y ?_
        have e5 : (x :: mid) ++ rest = x :: (mid ++ rest) := by simp
        rw [e5]
        exact List.perm_middle
      · intro hmid
        apply h3
        intro z hz
        rcases List.mem_append.mp hz with hz | hz
        · exact le_trans (hmid z hz) (le_of_lt hyx)
        · rw [List.mem_singleton.mp hz]
          exact le_of_lt hyx
    · rw [if_neg hyx]
      obtain ⟨m, tl, h1, h2, h3⟩ := ih (mid ++ [y]) x
      refine ⟨m, tl, ?_, ?_, ?_⟩
      · have e1 : pre.length + 1 + mid.length + 1 = pre.length + 1 + (mid ++ [y]).length := by
          simp
          omega
        have e2 : mid ++ y :: rest = (mid ++ [y]) ++ rest := by simp
        rw [e1, e2]
        exact h1
      · have e2 : mid ++ y :: rest = (mid ++ [y]) ++ rest := by simp
        rw [e2]
        exact h2
      · intro hmid
        apply h3
        intro z hz
        rcases List.mem_append.mp hz with hz | hz
        · exact hmid z hz
        · rw [List.mem_singleton.mp hz]
          exact not_lt.mp hyx

theorem sortOuter_append :
    ∀ (n : ℕ) (pre suffix : List (Container × ContainerMetrics)), suffix.length = n →
      ∃ s : List (Container × ContainerMetrics),
        sortOuter n pre.length (pre ++ suffix) = pre ++ s ∧ s.Perm suffix ∧
        s.Pairwise (fun a b => b.2.MemoryUsage ≤ a.2.MemoryUsage) := by
  intro n
  induction n with
  | zero =>
    intro pre suffix hlen
    refine ⟨[], ?_, ?_, List.Pairwise.nil⟩
    · rw [List.length_eq_zero.mp hlen]
      rfl
    · rw [List.length_eq_zero.mp hlen]
  | succ n ih =>
    intro pre suffix hlen
    obtain ⟨x, rest, rfl⟩ := List.exists_cons_of_length_eq_add_one hlen
    have hrest : rest.length = n := by simpa using hlen
    obtain ⟨m, tl, h1, h2, h3⟩ := sortInner_append pre rest [] x
    have hlen2 : (pre ++ x :: rest).length - (pre.length + 1) = rest.length := by
      simp only [List.length_append, List.length_cons]
      omega
    have hstep : sortOuter (n + 1) pre.length (pre ++ x :: rest) =
        sortOuter n (pre.length + 1)
          (sortInner pre.length ((pre ++ x :: rest).length - (pre.length + 1))
            (pre.length + 1) (pre ++ x :: rest)) := rfl
    have h1a : sortInner pre.length rest.length (pre.length + 1) (pre ++ x :: rest) =
        pre ++ m :: tl := by
      simpa using h1
    have h2a : (m :: tl).Perm (x :: rest) := by simpa using h2
    have htl : tl.length = n := by
      have := h2a.length_eq
      simp at this
      omega
    obtain ⟨s, h4, h5, h6⟩ := ih (pre ++ [m]) tl htl
    refine ⟨m :: s, ?_, ?_, ?_⟩
    · rw [hstep, hlen2, h1a]
      have e1 : pre.length + 1 = (pre ++ [m]).length := by simp
      have e2 : pre ++ m :: tl = (pre ++ [m]) ++ tl := by simp
      rw [e1, e2, h4]
      simp
    · exact (List.Perm.cons m h5).trans h2a
    · refine List.Pairwise.cons ?_ h6
      intro z hz
      exact h3 (by simp) z (h5.subset hz)

theorem sortByMemoryUsage_perm (a : List (Container × ContainerMetrics)) :
    (sortByMemoryUsage a).Perm a := by
  obtain ⟨s, h1, h2, _⟩ := sortOuter_append a.length [] a rfl
  have h : sortByMemoryUsage a = s := by simpa [sortByMemoryUsage] using h1
  rw [h]
  exact h2

theorem sortByMemoryUsage_sorted (a : List (Container × ContainerMetrics)) :
    (sortByMemoryUsage a).Pairwise (fun p q => q.2.MemoryUsage ≤ p.2.MemoryUsage) := by
  obtain ⟨s, h1, _, h3⟩ := sortOuter_append a.length [] a rfl
  have h : sortByMemoryUsage a = s := by simpa [sortByMemoryUsage] using h1
  rw [h]
  exact h3

/-! ## The loops of `Execute` -/

theorem partition_foldl (cs : List Container) :
    ∀ acc : ℕ × ℕ × List Container,
      cs.foldl
        (fun acc c =>
          if c.State = str "running" then (acc.1 + 1, acc.2.1, acc.2.2 ++ [c])
          else (acc.1, acc.2.1 + 1, acc.2.2))
        acc =
      (acc.1 + (runningOf cs).length, acc.2.1 + (cs.length - (runningOf cs).length),
        acc.2.2 ++ runningOf cs) := by
  induction cs with
  | nil =>
    intro acc
    simp [runningOf]
  | cons c cs ih =>
    intro acc
    have hle : (runningOf cs).length ≤ cs.length := List.length_filter_le _ _
    rw [List.foldl_cons, ih]
    by_cases h : c.State = str "running"
    · have e : runningOf (c :: cs) = c :: runningOf cs := by simp [runningOf, h]
      rw [if_pos h, e]
      simp only [List.length_cons, List.append_assoc, List.singleton_append]
      refine Prod.ext ?_ (Prod.ext ?_ rfl)
      · simp only
        omega
      · simp only
        omega
    · have e : runningOf (c :: cs) = runningOf cs := by simp [runningOf, h]
      rw [if_neg h, e]
      simp only [List.length_cons]
      refine Prod.ext rfl (Prod.ext ?_ rfl)
      simp only
      omega

theorem partitionByState_eq (cs : List Container) :
    partitionByState cs =
      ((runningOf cs).length, cs.length - (runningOf cs).length, runningOf cs) := by
  unfold partitionByState
  rw [partition_foldl]
  simp

theorem foldl_u64add (l : List ℕ) :
    ∀ a : ℕ, a < 2 ^ 64 → l.foldl u64add a = (a + l.sum) % 2 ^ 64 := by
  induction l with
  | nil =>
    intro a ha
    rw [List.foldl_nil, List.sum_nil, Nat.add_zero, Nat.mod_eq_of_lt ha]
  | cons x l ih =>
    intro a _
    rw [List.foldl_cons, ih (u64add a x) (Nat.mod_lt _ (by norm_num))]
    unfold u64add
    rw [List.sum_cons, Nat.mod_add_mod, Nat.add_assoc]

theorem collect_foldl (rs : List result) :
    ∀ acc : Collected,
      rs.foldl collectStep acc =
        { totalCPU := (kept rs).foldl (fun s p => f64add s p.2.CPUPercentage) acc.totalCPU
          totalMem := ((kept rs).map (fun p => p.2.MemoryUsage)).foldl u64add acc.totalMem
          metricsWithMem := acc.metricsWithMem ++ kept rs
          containerMetrics := acc.containerMetrics ++ (kept rs).map metricsEntry } := by
  induction rs with
  | nil =>
    intro acc
    simp [kept]
  | cons r rs ih =>
    intro acc
    rw [List.foldl_cons, ih]
    rcases r with ⟨c, m, err⟩
    cases err with
    | some e => simp [collectStep, kept]
    | none =>
      cases m with
      | none => simp [collectStep, kept]
      | some m => simp [collectStep, kept]

theorem collect_eq (rs : List result) :
    collect rs =
      { totalCPU := (kept rs).foldl (fun s p => f64add s p.2.CPUPercentage) 0
        totalMem := ((kept rs).map (fun p => p.2.MemoryUsage)).sum % 2 ^ 64
        metricsWithMem := kept rs
        containerMetrics := (kept rs).map metricsEntry } := by
  unfold collect
  rw [collect_foldl, foldl_u64add _ 0 (by norm_num)]
  simp

theorem kept_launched (uc : GetSystemSummary) (running : List Container) :
    kept (running.map (fun c => (⟨c, (uc.stats c.ID).1, (uc.stats c.ID).2⟩ : result))) =
      running.filterMap (fun c => (snapshotOf uc c).map (fun m => (c, m))) := by
  unfold kept
  rw [List.filterMap_map]
  congr 1
  funext c
  simp only [Function.comp, snapshotOf]
  rcases h : uc.stats c.ID with ⟨m, err⟩
  cases err <;> cases m <;> simp

theorem Execute_eq (uc : GetSystemSummary) (sched : List result → List result)
    (cs : List Container) (imgs : List Image) (vols : List Volume)
    (hc : uc.containers true = (cs, none)) (hi : uc.images = (imgs, none))
    (hv : uc.volumes = (vols, none)) (hs : IsSchedule sched) :
    ∃ arrived : List (Container × ContainerMetrics),
      arrived.Perm (snapshotted uc cs) ∧
      uc.Execute sched =
        ⟨.ok
          { ContainersTotal := cs.length
            ContainersRunning := (runningOf cs).length
            ContainersStopped := cs.length - (runningOf cs).length
            CPUPercentTotal := arrived.foldl (fun s p => f64add s p.2.CPUPercentage) 0
            MemoryUsageBytes := (arrived.map (fun p => p.2.MemoryUsage)).sum % 2 ^ 64
            MemoryLimitBytes :=
              limitOf (memTotalOf uc) ((arrived.map (fun p => p.2.MemoryUsage)).sum % 2 ^ 64)
            ImagesCount := imgs.length
            VolumesCount := vols.length
            TopContainersByMemory :=
              topEntries
                (limitOf (memTotalOf uc) ((arrived.map (fun p => p.2.MemoryUsage)).sum % 2 ^ 64))
                (sortByMemoryUsage arrived)
            ContainerMetrics := arrived.map metricsEntry },
          (runningOf cs).map (fun c => c.ID)⟩ := by
  by_cases hrun : (runningOf cs).length = 0
  · refine ⟨[], ?_, ?_⟩
    · have : runningOf cs = [] := List.length_eq_zero.mp hrun
      simp [snapshotted, this]
    · have hnil : runningOf cs = [] := List.length_eq_zero.mp hrun
      unfold GetSystemSummary.Execute
      simp only [hc, hi, hv, partitionByState_eq, hrun, if_true]
      simp [hnil, limitOf, topEntries, sortByMemoryUsage, sortOuter]
  · refine ⟨kept (sched ((runningOf cs).map
        (fun c => (⟨c, (uc.stats c.ID).1, (uc.stats c.ID).2⟩ : result)))), ?_, ?_⟩
    · unfold snapshotted
      rw [← kept_launched]
      exact (hs _).filterMap _
    · unfold GetSystemSummary.Execute
      simp only [hc, hi, hv, partitionByState_eq, hrun, if_false, collect_eq]

/-! ## `round2` and the derived percentages -/

theorem f64round_of_eq {x : ℚ} (m k : ℤ) (hx : x = m * 2 ^ k) (hm : |m| < 2 ^ 53)
    (hk : -1074 ≤ k) : f64round x = x := by
  rw [hx]
  exact f64round_exact m k hm hk

theorem f64round_intCast {n : ℤ} (h : |n| < 2 ^ 53) : f64round (n : ℚ) = n :=
  f64round_of_eq n 0 (by simp) h (by norm_num)

theorem f64round_natCast {n : ℕ} (h : n < 2 ^ 53) : f64round (n : ℚ) = n := by
  have h1 : |(n : ℤ)| < 2 ^ 53 := by
    rw [abs_of_nonneg (Int.natCast_nonneg n)]
    exact_mod_cast h
  exact_mod_cast f64round_intCast h1

theorem f64round_le_natCast {q : ℚ} {n : ℕ} (h0 : 0 ≤ q) (hn : n < 2 ^ 53) (h : q ≤ n) :
    f64round q ≤ n := by
  have h1 : q ≤ ((n : ℤ) : ℚ) * 2 ^ (0 : ℤ) := by simpa using h
  have h2 := f64round_le_of_le h0 (by exact_mod_cast hn) (by norm_num) h1
  simpa using h2

theorem f64mulAdd_eq (t : GoTarget) {x y z : ℚ} (hp : f64round (x * y) = x * y)
    (hs : f64round (x * y + z) = x * y + z) : f64mulAdd t x y z = x * y + z := by
  unfold f64mulAdd f64add f64mul
  split_ifs
  · exact hs
  · rw [hp, hs]

theorem f64mulAdd_nonneg (t : GoTarget) {v : ℚ} (hv : 0 ≤ v) :
    0 ≤ f64mulAdd t v 100 (1 / 2) := by
  unfold f64mulAdd f64add f64mul
  split_ifs
  · exact f64round_nonneg (by positivity)
  · exact f64round_nonneg (add_nonneg (f64round_nonneg (by positivity)) (by norm_num))

theorem f64mulAdd_le (t : GoTarget) {v : ℚ} (hv : 0 ≤ v) (m k : ℤ) (hm : m + 1 < 2 ^ 53)
    (hk : -1 ≤ k) (h : v * 100 ≤ m * 2 ^ k) :
    f64mulAdd t v 100 (1 / 2) ≤ ((m + 1 : ℤ) : ℚ) * 2 ^ k := by
  have hu : (1 / 2 : ℚ) ≤ 2 ^ k := by
    have h1 : (2 : ℚ) ^ (-1 : ℤ) ≤ 2 ^ k := zpow_le_zpow_right₀ (by norm_num) hk
    have h2 : (2 : ℚ) ^ (-1 : ℤ) = 1 / 2 := by norm_num
    rw [← h2]
    exact h1
  have hv100 : 0 ≤ v * 100 := by positivity
  have hsum : ∀ w : ℚ, w ≤ m * 2 ^ k → w + 1 / 2 ≤ ((m + 1 : ℤ) : ℚ) * 2 ^ k := by
    intro w hw
    push_cast
    linarith
  unfold f64mulAdd f64add f64mul
  split_ifs
  · exact f64round_le_of_le (by positivity) hm (by omega) (hsum _ h)
  · have h1 : f64round (v * 100) ≤ m * 2 ^ k :=
      f64round_le_of_le hv100 (by omega) (by omega) h
    exact f64round_le_of_le (add_nonneg (f64round_nonneg hv100) (by norm_num)) hm (by omega)
      (hsum _ h1)

theorem truncate_of_nonneg {x : ℚ} (h : 0 ≤ x) : truncate x = ⌊x⌋ := by
  unfold truncate
  rw [if_pos h]

theorem round2_of_inRange (t : GoTarget) (v : ℚ) (h0 : 0 ≤ f64mulAdd t v 100 (1 / 2))
    (h1 : f64mulAdd t v 100 (1 / 2) < 2 ^ 63) :
    round2 t v = f64div (f64ofInt ⌊f64mulAdd t v 100 (1 / 2)⌋) 100 := by
  have hf0 : 0 ≤ ⌊f64mulAdd t v 100 (1 / 2)⌋ := Int.floor_nonneg.mpr h0
  have hf1 : ⌊f64mulAdd t v 100 (1 / 2)⌋ < 2 ^ 63 := by
    rw [Int.floor_lt]
    exact_mod_cast h1
  unfold round2 f64toInt
  rw [truncate_of_nonneg h0, if_pos ⟨by omega, hf1⟩]

theorem round2_nonneg (t : GoTarget) {v : ℚ} (hv : 0 ≤ v) (hb : v ≤ 25 * 2 ^ 51) :
    0 ≤ round2 t v := by
  have h0 := f64mulAdd_nonneg t hv
  have h1 : f64mulAdd t v 100 (1 / 2) ≤ ((625 + 1 : ℤ) : ℚ) * 2 ^ (53 : ℤ) := by
    apply f64mulAdd_le t hv 625 53 (by norm_num) (by norm_num)
    have : ((625 : ℤ) : ℚ) * 2 ^ (53 : ℤ) = 25 * 2 ^ 51 * 100 := by norm_num
    rw [this]
    linarith
  have h2 : f64mulAdd t v 100 (1 / 2) < 2 ^ 63 := by
    refine lt_of_le_of_lt h1 ?_
    norm_num
  rw [round2_of_inRange t v h0 h2]
  have hf0 : 0 ≤ ⌊f64mulAdd t v 100 (1 / 2)⌋ := Int.floor_nonneg.mpr h0
  unfold f64div f64ofInt
  apply f64round_nonneg
  apply div_nonneg _ (by norm_num)
  apply f64round_nonneg
  exact_mod_cast hf0

theorem round2_le_natCast (t : GoTarget) {v : ℚ} (n : ℕ) (hv : 0 ≤ v) (hn : n < 2 ^ 40)
    (h : v ≤ n) : round2 t v ≤ n := by
  have h0 := f64mulAdd_nonneg t hv
  have hn1 : (200 * n + 1 : ℤ) < 2 ^ 53 := by
    have : (n : ℤ) < 2 ^ 40 := by exact_mod_cast hn
    omega
  have h1 : f64mulAdd t v 100 (1 / 2) ≤ ((200 * n + 1 : ℤ) : ℚ) * 2 ^ (-1 : ℤ) := by
    apply f64mulAdd_le t hv (200 * n) (-1) hn1 (by norm_num)
    have e : (((200 * n : ℤ)) : ℚ) * 2 ^ (-1 : ℤ) = (n : ℚ) * 100 := by
      push_cast
      norm_num
      ring
    rw [e]
    linarith
  have e1 : ((200 * n + 1 : ℤ) : ℚ) * 2 ^ (-1 : ℤ) = (100 * n : ℤ) + 1 / 2 := by
    push_cast
    norm_num
    ring
  rw [e1] at h1
  have h2 : f64mulAdd t v 100 (1 / 2) < 2 ^ 63 := by
    have : ((100 * n : ℤ) : ℚ) + 1 / 2 < 2 ^ 63 := by
      have h3 : (n : ℚ) < 2 ^ 40 := by exact_mod_cast hn
      push_cast
      linarith
    linarith
  rw [round2_of_inRange t v h0 h2]
  have hf0 : 0 ≤ ⌊f64mulAdd t v 100 (1 / 2)⌋ := Int.floor_nonneg.mpr h0
  have hf1 : ⌊f64mulAdd t v 100 (1 / 2)⌋ ≤ 100 * n := by
    have : ⌊f64mulAdd t v 100 (1 / 2)⌋ < 100 * n + 1 := by
      rw [Int.floor_lt]
      push_cast
      push_cast at h1
      linarith
    omega
  have hf2 : |⌊f64mulAdd t v 100 (1 / 2)⌋| < 2 ^ 53 := by
    rw [abs_of_nonneg hf0]
    omega
  unfold f64div f64ofInt
  rw [f64round_intCast hf2]
  apply f64round_le_natCast (div_nonneg (by exact_mod_cast hf0) (by norm_num)) (by omega)
  rw [div_le_iff₀ (by norm_num)]
  have : ((⌊f64mulAdd t v 100 (1 / 2)⌋ : ℤ) : ℚ) ≤ ((100 * n : ℤ) : ℚ) := by
    exact_mod_cast hf1
  push_cast at this
  linarith

theorem round2_natCast (t : GoTarget) (n : ℕ) (hn : n < 2 ^ 40) : round2 t (n : ℚ) = n := by
  have hn1 : |(200 * n + 1 : ℤ)| < 2 ^ 53 := by
    have : (n : ℤ) < 2 ^ 40 := by exact_mod_cast hn
    rw [abs_of_nonneg (by omega)]
    omega
  have hn2 : |(100 * n : ℤ)| < 2 ^ 53 := by
    have : (n : ℤ) < 2 ^ 40 := by exact_mod_cast hn
    rw [abs_of_nonneg (by omega)]
    omega
  have hp : f64round ((n : ℚ) * 100) = (n : ℚ) * 100 :=
    f64round_of_eq (100 * n) 0 (by push_cast; ring) hn2 (by norm_num)
  have hs : f64round ((n : ℚ) * 100 + 1 / 2) = (n : ℚ) * 100 + 1 / 2 :=
    f64round_of_eq (200 * n + 1) (-1) (by push_cast; norm_num; ring) hn1 (by norm_num)
  have hs2 := f64mulAdd_eq t hp hs
  have h0 : (0 : ℚ) ≤ (n : ℚ) * 100 + 1 / 2 := by positivity
  have h2 : (n : ℚ) * 100 + 1 / 2 < 2 ^ 63 := by
    have h3 : (n : ℚ) < 2 ^ 40 := by exact_mod_cast hn
    linarith
  have hfl : ⌊(n : ℚ) * 100 + 1 / 2⌋ = 100 * n := by
    rw [Int.floor_eq_iff]
    push_cast
    constructor <;> linarith
  rw [round2_of_inRange t _ (by rw [hs2]; exact h0) (by rw [hs2]; exact h2), hs2, hfl]
  unfold f64div f64ofInt
  rw [f64round_intCast hn2]
  have e : (((100 * n : ℤ)) : ℚ) / 100 = n := by
    push_cast
    field_simp
  rw [e]
  exact f64round_natCast (lt_of_lt_of_le hn (by norm_num))

theorem f64round_two_pow_mul (q : ℚ) (j : ℕ) (hq : 1 ≤ |q|) :
    f64round (2 ^ j * q) = 2 ^ j * f64round q := by
  have hq0 : q ≠ 0 := by
    intro h
    rw [h, abs_zero] at hq
    norm_num at hq
  have h2 : (2 : ℚ) ≠ 0 := by norm_num
  have hlo : (2 : ℚ) ^ Int.log 2 |q| ≤ |q| := by
    have := Int.zpow_log_le_self (by norm_num : 1 < 2) (abs_pos.mpr hq0)
    simpa using this
  have hhi : |q| < (2 : ℚ) ^ (Int.log 2 |q| + 1) := by
    have := Int.lt_zpow_succ_log_self (by norm_num : 1 < 2) |q|
    simpa using this
  have he : 0 ≤ Int.log 2 |q| := le_log_of_le_abs hq0 (by simpa using hq)
  have hj : (0 : ℚ) < 2 ^ j := by positivity
  have e1 : ulpExp q = Int.log 2 |q| - 52 := ulpExp_eq (by omega) hlo hhi
  have e2 : ulpExp (2 ^ j * q) = Int.log 2 |q| + j - 52 := by
    apply ulpExp_eq (by omega)
    · rw [abs_mul, abs_of_pos hj, zpow_add₀ h2, zpow_natCast, mul_comm]
      exact mul_le_mul_of_nonneg_left hlo hj.le
    · rw [abs_mul, abs_of_pos hj]
      have e3 : (2 : ℚ) ^ (Int.log 2 |q| + j + 1) = 2 ^ j * 2 ^ (Int.log 2 |q| + 1) := by
        rw [← zpow_natCast, ← zpow_add₀ h2]
        congr 1
        omega
      rw [e3]
      exact mul_lt_mul_of_pos_left hhi hj
  have e4 : (2 : ℚ) ^ (Int.log 2 |q| + j - 52) = 2 ^ j * 2 ^ (Int.log 2 |q| - 52) := by
    rw [← zpow_natCast, ← zpow_add₀ h2]
    congr 1
    omega
  unfold f64round
  rw [e1, e2, e4]
  have e5 : 2 ^ j * q / (2 ^ j * 2 ^ (Int.log 2 |q| - 52)) = q / 2 ^ (Int.log 2 |q| - 52) := by
    rw [mul_div_mul_left _ _ hj.ne']
  rw [e5]
  ring

theorem one_le_f64ofInt_natCast {n : ℕ} (h : 0 < n) : 1 ≤ f64ofInt (n : ℤ) := by
  have h1 : (1 : ℚ) ≤ ((n : ℤ) : ℚ) := by exact_mod_cast h
  have h2 := f64round_mono (by norm_num) h1
  have h3 : f64round (1 : ℚ) = 1 := f64round_of_eq 1 0 (by norm_num) (by norm_num) (by norm_num)
  rw [h3] at h2
  exact h2

theorem f64ofInt_natCast_nonneg (n : ℕ) : 0 ≤ f64ofInt (n : ℤ) :=
  f64round_nonneg (by exact_mod_cast Nat.zero_le n)

theorem memPercent_nonneg (raw : StatsJSON) : 0 ≤ memPercent raw := by
  unfold memPercent
  split_ifs with h
  · unfold f64mul f64div
    apply f64round_nonneg
    apply mul_nonneg _ (by norm_num)
    apply f64round_nonneg
    exact div_nonneg (f64ofInt_natCast_nonneg _) (f64ofInt_natCast_nonneg _)
  · exact le_refl 0

theorem memPercent_le_of_bound (raw : StatsJSON) (j : ℕ) (hj : j ≤ 49)
    (h : raw.MemoryStats.Usage ≤ 2 ^ j * raw.MemoryStats.Limit) :
    memPercent raw ≤ 100 * 2 ^ j := by
  unfold memPercent
  split_ifs with hl
  · have hb := one_le_f64ofInt_natCast hl
    have hb0 : (0 : ℚ) < f64ofInt (raw.MemoryStats.Limit : ℤ) := by linarith
    have ha0 := f64ofInt_natCast_nonneg raw.MemoryStats.Usage
    have hab : f64ofInt (raw.MemoryStats.Usage : ℤ) ≤
        2 ^ j * f64ofInt (raw.MemoryStats.Limit : ℤ) := by
      unfold f64ofInt
      have h1 : ((raw.MemoryStats.Usage : ℤ) : ℚ) ≤
          2 ^ j * ((raw.MemoryStats.Limit : ℤ) : ℚ) := by
        exact_mod_cast h
      have h2 : (1 : ℚ) ≤ |((raw.MemoryStats.Limit : ℤ) : ℚ)| := by
        rw [abs_of_nonneg (by exact_mod_cast Nat.zero_le _)]
        exact_mod_cast hl
      rw [← f64round_two_pow_mul _ j h2]
      exact f64round_mono (by exact_mod_cast Nat.zero_le _) h1
    have hq : f64ofInt (raw.MemoryStats.Usage : ℤ) / f64ofInt (raw.MemoryStats.Limit : ℤ) ≤
        ((1 : ℤ) : ℚ) * 2 ^ (j : ℤ) := by
      rw [div_le_iff₀ hb0]
      simpa using hab
    have hr := f64round_le_of_le (div_nonneg ha0 hb0.le) (by norm_num) (by omega) hq
    have hr0 : 0 ≤
        f64round (f64ofInt (raw.MemoryStats.Usage : ℤ) / f64ofInt (raw.MemoryStats.Limit : ℤ)) :=
      f64round_nonneg (div_nonneg ha0 hb0.le)
    unfold f64mul f64div
    have hp :
        f64round (f64ofInt (raw.MemoryStats.Usage : ℤ) / f64ofInt (raw.MemoryStats.Limit : ℤ)) *
          100 ≤
        ((100 : ℤ) : ℚ) * 2 ^ (j : ℤ) := by
      push_cast at hr ⊢
      linarith
    have := f64round_le_of_le (mul_nonneg hr0 (by norm_num)) (by norm_num) (by omega) hp
    simpa using this
  · positivity

theorem Execute_ok_inv (uc : GetSystemSummary) (sched : List result → List result)
    (out : GetSystemSummaryOutput) (h : (uc.Execute sched).result = .ok out) :
    uc.containers true = ((uc.containers true).1, none) ∧ uc.images = (uc.images.1, none) ∧
      uc.volumes = (uc.volumes.1, none) := by
  unfold GetSystemSummary.Execute at h
  rcases hc : uc.containers true with ⟨cs, _ | e⟩
  · rcases hi : uc.images with ⟨imgs, _ | e⟩
    · rcases hv : uc.volumes with ⟨vols, _ | e⟩
      · exact ⟨rfl, rfl, rfl⟩
      · simp [hc, hi, hv] at h
    · simp [hc, hi] at h
  · simp [hc] at h

theorem Execute_succeeds (uc : GetSystemSummary) (sched : List result → List result)
    (cs : List Container) (imgs : List Image) (vols : List Volume)
    (hc : uc.containers true = (cs, none)) (hi : uc.images = (imgs, none))
    (hv : uc.volumes = (vols, none)) :
    ∃ out : GetSystemSummaryOutput, (uc.Execute sched).result = .ok out := by
  unfold GetSystemSummary.Execute
  simp only [hc, hi, hv]
  split_ifs
  · exact ⟨_, rfl⟩
  · exact ⟨_, rfl⟩

theorem isSchedule_id : IsSchedule id := fun l => List.Perm.refl l

theorem Execute_eq_of_ok (uc : GetSystemSummary) (sched : List result → List result)
    (out : GetSystemSummaryOutput) (h : (uc.Execute sched).result = .ok out)
    (hs : IsSchedule sched) :
    ∃ arrived : List (Container × ContainerMetrics),
      arrived.Perm (snapshotted uc (uc.containers true).1) ∧
      out.MemoryUsageBytes = (arrived.map (fun p => p.2.MemoryUsage)).sum % 2 ^ 64 ∧
      out.MemoryLimitBytes = limitOf (memTotalOf uc) out.MemoryUsageBytes ∧
      out.TopContainersByMemory =
        topEntries out.MemoryLimitBytes (sortByMemoryUsage arrived) := by
  obtain ⟨hc, hi, hv⟩ := Execute_ok_inv uc sched out h
  obtain ⟨arrived, hperm, heq⟩ := Execute_eq uc sched _ _ _ hc hi hv hs
  rw [heq] at h
  have ho : out = _ := (Except.ok.inj h).symm
  refine ⟨arrived, hperm, ?_, ?_, ?_⟩ <;> rw [ho]

theorem length_filterMap_add (uc : GetSystemSummary) (l : List Container) :
    (l.filterMap (fun c => (snapshotOf uc c).map (fun m => (c, m)))).length +
      (l.filter (fun c => snapshotOf uc c = none)).length = l.length := by
  induction l with
  | nil => simp
  | cons c l ih =>
    cases h : snapshotOf uc c with
    | none =>
      simp [List.filterMap_cons, h]
      omega
    | some m =>
      simp [List.filterMap_cons, h]
      omega

theorem sum_usage_perm {a b : List (Container × ContainerMetrics)} (h : a.Perm b) :
    (a.map (fun p => p.2.MemoryUsage)).sum = (b.map (fun p => p.2.MemoryUsage)).sum :=
  (h.map _).sum_eq

/-! ## Derived CPU and memory percentages -/

theorem f64ofInt_wrapped_500 : f64ofInt ((u64sub 500 1000 : ℕ) : ℤ) = 2 ^ 64 := by
  have e : ((u64sub 500 1000 : ℕ) : ℤ) = 18446744073709551116 := by decide
  rw [e]
  unfold f64ofInt
  have hk : ulpExp ((18446744073709551116 : ℤ) : ℚ) = 11 := by
    have := @ulpExp_eq ((18446744073709551116 : ℤ) : ℚ) 63 (by norm_num)
      (by norm_num [abs_of_pos]) (by norm_num [abs_of_pos])
    rw [this]
    norm_num
  rw [f64round_eq_of_near (2 ^ 53) 11 hk (by norm_num) (by norm_num)]
  norm_num

theorem f64ofInt_wrapped_100 : f64ofInt ((u64sub 100 200 : ℕ) : ℤ) = 2 ^ 64 := by
  have e : ((u64sub 100 200 : ℕ) : ℤ) = 18446744073709551516 := by decide
  rw [e]
  unfold f64ofInt
  have hk : ulpExp ((18446744073709551516 : ℤ) : ℚ) = 11 := by
    have := @ulpExp_eq ((18446744073709551516 : ℤ) : ℚ) 63 (by norm_num)
      (by norm_num [abs_of_pos]) (by norm_num [abs_of_pos])
    rw [this]
    norm_num
  rw [f64round_eq_of_near (2 ^ 53) 11 hk (by norm_num) (by norm_num)]
  norm_num

theorem u64sub_self (a : ℕ) : u64sub a a = 0 := by
  unfold u64sub
  have h : a % 2 ^ 64 < 2 ^ 64 := Nat.mod_lt _ (by norm_num)
  have e : a % 2 ^ 64 + (2 ^ 64 - a % 2 ^ 64) = 2 ^ 64 := by omega
  rw [e, Nat.mod_self]

/-- With the two host counters equal the CPU percentage is 0. -/
theorem statsToMetrics_cpu_of_equal_counters (t : GoTarget) (raw : StatsJSON)
    (h : raw.CPUStats.SystemUsage = raw.PreCPUStats.SystemUsage) :
    (statsToMetrics t raw).CPUPercentage = 0 := by
  show round2 t (cpuPercent raw) = 0
  unfold cpuPercent
  simp only [h, u64sub_self, f64ofInt, Nat.cast_zero, Int.cast_zero, f64round_zero, gt_iff_lt,
    lt_self_iff_false, if_false]
  exact_mod_cast round2_natCast t 0 (by norm_num)

theorem u64sub_of_le {a b : ℕ} (h : b ≤ a) (ha : a < 2 ^ 64) : u64sub a b = a - b := by
  unfold u64sub
  have hb : b < 2 ^ 64 := lt_of_le_of_lt h ha
  rw [Nat.mod_eq_of_lt ha, Nat.mod_eq_of_lt hb]
  have e : a + (2 ^ 64 - b) = (a - b) + 2 ^ 64 := by omega
  rw [e, Nat.add_mod_right, Nat.mod_eq_of_lt (by omega)]

theorem f64ofInt_natCast_pos_iff (n : ℕ) : 0 < f64ofInt (n : ℤ) ↔ 0 < n := by
  constructor
  · intro h
    rcases Nat.eq_zero_or_pos n with h0 | h0
    · rw [h0] at h
      simp [f64ofInt, f64round_zero] at h
    · exact h0
  · intro h
    exact lt_of_lt_of_le one_pos (one_le_f64ofInt_natCast h)

/-- While neither counter decreases, `statsToMetrics` computes the CPU percentage of the
specification from the two counter differences. -/
theorem statsToMetrics_cpu_of_advancing_counters (t : GoTarget) (raw : StatsJSON)
    (hs : raw.PreCPUStats.SystemUsage ≤ raw.CPUStats.SystemUsage)
    (hc : raw.PreCPUStats.CPUUsage.TotalUsage ≤ raw.CPUStats.CPUUsage.TotalUsage)
    (hsb : raw.CPUStats.SystemUsage < 2 ^ 64) (hcb : raw.CPUStats.CPUUsage.TotalUsage < 2 ^ 64) :
    (statsToMetrics t raw).CPUPercentage =
      specCPUPercentage t
        ((raw.CPUStats.CPUUsage.TotalUsage : ℤ) - raw.PreCPUStats.CPUUsage.TotalUsage)
        ((raw.CPUStats.SystemUsage : ℤ) - raw.PreCPUStats.SystemUsage)
        raw.CPUStats.OnlineCPUs := by
  have e1 : ((raw.CPUStats.SystemUsage : ℤ) - raw.PreCPUStats.SystemUsage) =
      ((raw.CPUStats.SystemUsage - raw.PreCPUStats.SystemUsage : ℕ) : ℤ) := by
    rw [Nat.cast_sub hs]
  have e2 : ((raw.CPUStats.CPUUsage.TotalUsage : ℤ) - raw.PreCPUStats.CPUUsage.TotalUsage) =
      ((raw.CPUStats.CPUUsage.TotalUsage - raw.PreCPUStats.CPUUsage.TotalUsage : ℕ) : ℤ) := by
    rw [Nat.cast_sub hc]
  show round2 t (cpuPercent raw) = _
  unfold cpuPercent specCPUPercentage
  rw [e1, e2, u64sub_of_le hs hsb, u64sub_of_le hc hcb]
  simp only [gt_iff_lt, f64ofInt_natCast_pos_iff, Int.natCast_pos]
  by_cases h0 : 0 < raw.CPUStats.SystemUsage - raw.PreCPUStats.SystemUsage
  · rw [if_pos h0, if_pos h0]
    by_cases h1 : 0 < raw.CPUStats.OnlineCPUs
    · rw [if_pos h1, if_pos h1]
    · rw [if_neg h1, if_neg h1]
  · rw [if_neg h0, if_neg h0]
    exact_mod_cast round2_natCast t 0 (by norm_num)

theorem cpuPercent_hostResetSample : cpuPercent hostResetSample = ((100 : ℕ) : ℚ) := by
  have h1 : f64round (100 : ℚ) = 100 :=
    f64round_of_eq 100 0 (by norm_num) (by norm_num) (by norm_num)
  have h2 : f64round (1 : ℚ) = 1 :=
    f64round_of_eq 1 0 (by norm_num) (by norm_num) (by norm_num)
  unfold cpuPercent
  simp only [hostResetSample, f64ofInt_wrapped_500, f64ofInt_wrapped_100]
  norm_num [f64div, f64mul, f64ofInt, h1, h2]

/-- C1: a sample taken after a counter reset (host counter 1000 then 500, container counter
200 then 100, one CPU) has a host difference below zero, yet `statsToMetrics` reports a
CPU percentage of 100: the uint64 subtraction wraps to a positive value before the
`systemDelta > 0` guard is evaluated. -/
theorem statsToMetrics_cpu_after_counter_reset (t : GoTarget) :
    (hostResetSample.CPUStats.SystemUsage : ℤ) - hostResetSample.PreCPUStats.SystemUsage ≤ 0 ∧
      (statsToMetrics t hostResetSample).CPUPercentage = 100 := by
  refine ⟨by decide, ?_⟩
  show round2 t (cpuPercent hostResetSample) = 100
  rw [cpuPercent_hostResetSample, round2_natCast t 100 (by norm_num)]
  norm_num

theorem cpuPercent_containerResetSample :
    cpuPercent containerResetSample = ((429496729600 : ℕ) : ℚ) := by
  have e : ((u64sub 1073741824 0 : ℕ) : ℤ) = 1073741824 := by decide
  have h0 : f64round (1073741824 : ℚ) = 1073741824 :=
    f64round_of_eq 1073741824 0 (by norm_num) (by norm_num) (by norm_num)
  have h1 : f64round (17179869184 : ℚ) = 17179869184 :=
    f64round_of_eq 17179869184 0 (by norm_num) (by norm_num) (by norm_num)
  have h2 : f64round (1717986918400 : ℚ) = 1717986918400 :=
    f64round_of_eq 1717986918400 0 (by norm_num) (by norm_num) (by norm_num)
  have h3 : f64round (4 : ℚ) = 4 :=
    f64round_of_eq 4 0 (by norm_num) (by norm_num) (by norm_num)
  have h4 : f64round (429496729600 : ℚ) = 429496729600 :=
    f64round_of_eq 429496729600 0 (by norm_num) (by norm_num) (by norm_num)
  unfold cpuPercent
  simp only [containerResetSample, f64ofInt_wrapped_100, e]
  norm_num [f64div, f64mul, f64ofInt, h0, h1, h2, h3, h4]

theorem specCPUPercentage_container_reset (t : GoTarget) :
    specCPUPercentage t (100 - 200) (1073741824 - 0) 4 = 0 := by
  have h0 : f64round (1073741824 : ℚ) = 1073741824 :=
    f64round_of_eq 1073741824 0 (by norm_num) (by norm_num) (by norm_num)
  have h1 : f64round (-100 : ℚ) = -100 :=
    f64round_of_eq (-100) 0 (by norm_num) (by norm_num) (by norm_num)
  have h2 : f64round (-(25 / 268435456) : ℚ) = -(25 / 268435456) :=
    f64round_of_eq (-25) (-28) (by norm_num) (by norm_num) (by norm_num)
  have h3 : f64round (-(625 / 67108864) : ℚ) = -(625 / 67108864) :=
    f64round_of_eq (-625) (-26) (by norm_num) (by norm_num) (by norm_num)
  have h4 : f64round (4 : ℚ) = 4 :=
    f64round_of_eq 4 0 (by norm_num) (by norm_num) (by norm_num)
  have h5 : f64round (-(625 / 268435456) : ℚ) = -(625 / 268435456) :=
    f64round_of_eq (-625) (-28) (by norm_num) (by norm_num) (by norm_num)
  have hv : f64div (f64mul (f64div (f64ofInt (100 - 200)) (f64ofInt (1073741824 - 0))) 100)
      (f64ofInt ((4 : ℕ) : ℤ)) = -(625 / 268435456) := by
    norm_num [f64div, f64mul, f64ofInt, h0, h1, h2, h3, h4, h5]
  have hp : f64round ((-(625 / 268435456) : ℚ) * 100) = (-(625 / 268435456) : ℚ) * 100 :=
    f64round_of_eq (-15625) (-26) (by norm_num) (by norm_num) (by norm_num)
  have hs : f64round ((-(625 / 268435456) : ℚ) * 100 + 1 / 2) =
      (-(625 / 268435456) : ℚ) * 100 + 1 / 2 :=
    f64round_of_eq 33538807 (-26) (by norm_num) (by norm_num) (by norm_num)
  have hma := f64mulAdd_eq t hp hs
  have hfl : ⌊(-(625 / 268435456) : ℚ) * 100 + 1 / 2⌋ = 0 := by
    rw [Int.floor_eq_iff]
    constructor <;> norm_num
  unfold specCPUPercentage
  rw [if_pos (by norm_num), if_pos (by norm_num), hv,
    round2_of_inRange t _ (by rw [hma]; norm_num) (by rw [hma]; norm_num), hma, hfl]
  norm_num [f64div, f64ofInt, f64round_zero]

/-- C2: with the host counter advancing from 0 to 2^30 and the container counter going
from 200 back to 100 on 4 CPUs, the host difference is positive and `statsToMetrics`
reports 429496729600 percent, where the formula on the mathematical differences
(-100 and 2^30) gives 0. -/
theorem statsToMetrics_cpu_after_container_reset (t : GoTarget) :
    (statsToMetrics t containerResetSample).CPUPercentage = 429496729600 ∧
      specCPUPercentage t
        ((containerResetSample.CPUStats.CPUUsage.TotalUsage : ℤ) -
          containerResetSample.PreCPUStats.CPUUsage.TotalUsage)
        ((containerResetSample.CPUStats.SystemUsage : ℤ) -
          containerResetSample.PreCPUStats.SystemUsage)
        containerResetSample.CPUStats.OnlineCPUs = 0 := by
  refine ⟨?_, specCPUPercentage_container_reset t⟩
  show round2 t (cpuPercent containerResetSample) = 429496729600
  rw [cpuPercent_containerResetSample, round2_natCast t 429496729600 (by norm_num)]
  norm_num

theorem memPercent_huge_ratio :
    memPercent (memorySample 1152921504606846976 1) = 115292150460684697600 := by
  have h0 : f64round (1152921504606846976 : ℚ) = 1152921504606846976 :=
    f64round_of_eq 1 60 (by norm_num) (by norm_num) (by norm_num)
  have h1 : f64round (1 : ℚ) = 1 :=
    f64round_of_eq 1 0 (by norm_num) (by norm_num) (by norm_num)
  have h2 : f64round (115292150460684697600 : ℚ) = 115292150460684697600 :=
    f64round_of_eq 25 62 (by norm_num) (by norm_num) (by norm_num)
  unfold memPercent
  simp only [memorySample]
  norm_num [f64div, f64mul, f64ofInt, h0, h1, h2]

/-- C3, counterexample: on amd64 a sample with memory usage 2^60 and limit 1 gets the
memory percentage -92233720368547760, which is negative. -/
theorem memoryPercent_negative_on_amd64 :
    (statsToMetrics amd64 (memorySample 1152921504606846976 1)).MemoryPercent =
      -92233720368547760 ∧
    ¬ (0 ≤ (statsToMetrics amd64 (memorySample 1152921504606846976 1)).MemoryPercent) := by
  have hval : (statsToMetrics amd64 (memorySample 1152921504606846976 1)).MemoryPercent =
      -92233720368547760 := by
    show round2 amd64 (memPercent _) = -92233720368547760
    rw [memPercent_huge_ratio]
    have h1 : f64round ((115292150460684697600 : ℚ) * 100) = 11529215046068469760000 :=
      f64round_of_eq 625 64 (by norm_num) (by norm_num) (by norm_num) |>.trans (by norm_num)
    have hk : ulpExp ((11529215046068469760000 : ℚ) + 1 / 2) = 21 := by
      have := @ulpExp_eq ((11529215046068469760000 : ℚ) + 1 / 2) 73 (by norm_num)
        (by norm_num [abs_of_pos]) (by norm_num [abs_of_pos])
      rw [this]
      norm_num
    have h2 : f64round ((11529215046068469760000 : ℚ) + 1 / 2) = 11529215046068469760000 := by
      rw [f64round_eq_of_near (625 * 2 ^ 43) 21 hk (by norm_num) (by norm_num)]
      norm_num
    have h3 : f64mulAdd amd64 115292150460684697600 100 (1 / 2) = 11529215046068469760000 := by
      unfold f64mulAdd f64add f64mul
      simp only [amd64, Bool.false_eq_true, if_false]
      rw [h1, h2]
    have h4 : truncate (11529215046068469760000 : ℚ) = 11529215046068469760000 := by
      rw [truncate_of_nonneg (by norm_num)]
      exact_mod_cast Int.floor_intCast (11529215046068469760000 : ℤ)
    have h5 : f64round (-9223372036854775808 : ℚ) = -9223372036854775808 :=
      f64round_of_eq (-1) 63 (by norm_num) (by norm_num) (by norm_num)
    have hk6 : ulpExp ((-9223372036854775808 : ℚ) / 100) = 4 := by
      have := @ulpExp_eq ((-9223372036854775808 : ℚ) / 100) 56 (by norm_num)
        (by norm_num [abs_of_neg]) (by norm_num [abs_of_neg])
      rw [this]
      norm_num
    have h6 : f64round ((-9223372036854775808 : ℚ) / 100) = -92233720368547760 := by
      rw [f64round_eq_of_near (-5764607523034235) 4 hk6 (by norm_num) (by norm_num)]
      norm_num
    unfold round2 f64toInt
    rw [h3, h4, if_neg (by norm_num)]
    unfold f64div f64ofInt
    simp only [amd64]
    have e : (((-2 ^ 63 : ℤ)) : ℚ) = -9223372036854775808 := by norm_num
    rw [e, h5, h6]
  refine ⟨hval, ?_⟩
  rw [hval]
  norm_num

/-- C3, as amended: the memory percentage is 0 for a zero limit and round2 of
(usage / limit) * 100 for a positive one; it is at least 0 whenever the usage is at most
2^49 times the limit (beyond that the conversion to int inside round2 may leave the int
range), and it exceeds 100 only if the usage exceeds the limit: with usage at most the
limit it is at most 100. -/
theorem statsToMetrics_memoryPercent (t : GoTarget) (raw : StatsJSON) :
    (raw.MemoryStats.Limit = 0 → (statsToMetrics t raw).MemoryPercent = 0) ∧
    (0 < raw.MemoryStats.Limit →
      (statsToMetrics t raw).MemoryPercent =
        round2 t
          (f64mul (f64div (f64ofInt raw.MemoryStats.Usage) (f64ofInt raw.MemoryStats.Limit))
            100)) ∧
    (raw.MemoryStats.Usage ≤ 2 ^ 49 * raw.MemoryStats.Limit →
      0 ≤ (statsToMetrics t raw).MemoryPercent) ∧
    (raw.MemoryStats.Usage ≤ raw.MemoryStats.Limit →
      (statsToMetrics t raw).MemoryPercent ≤ 100) := by
  refine ⟨?_, ?_, ?_, ?_⟩
  · intro h
    show round2 t (memPercent raw) = 0
    unfold memPercent
    rw [if_neg (by omega)]
    exact_mod_cast round2_natCast t 0 (by norm_num)
  · intro h
    show round2 t (memPercent raw) = _
    unfold memPercent
    rw [if_pos h]
  · intro h
    show 0 ≤ round2 t (memPercent raw)
    apply round2_nonneg t (memPercent_nonneg raw)
    have := memPercent_le_of_bound raw 49 (le_refl _) h
    have e : (25 : ℚ) * 2 ^ 51 = 100 * 2 ^ 49 := by norm_num
    rw [e]
    exact this
  · intro h
    have h1 : raw.MemoryStats.Usage ≤ 2 ^ 0 * raw.MemoryStats.Limit := by omega
    have h2 := memPercent_le_of_bound raw 0 (by norm_num) h1
    have h3 : round2 t (memPercent raw) ≤ ((100 : ℕ) : ℚ) :=
      round2_le_natCast t 100 (memPercent_nonneg raw) (by norm_num) (by simpa using h2)
    show round2 t (memPercent raw) ≤ 100
    exact_mod_cast h3

/-- C3, witness: a zero limit gives 0; a usage of 100 against a limit of 2048 gives the
rounded share, which lies between 0 and 100. -/
theorem statsToMetrics_memoryPercent_witness :
    (statsToMetrics amd64 (memorySample 100 0)).MemoryPercent = 0 ∧
    (statsToMetrics amd64 (memorySample 100 2048)).MemoryPercent =
      round2 amd64
        (f64mul (f64div (f64ofInt ((100 : ℕ) : ℤ)) (f64ofInt ((2048 : ℕ) : ℤ))) 100) ∧
    0 ≤ (statsToMetrics amd64 (memorySample 100 2048)).MemoryPercent ∧
    (statsToMetrics amd64 (memorySample 100 2048)).MemoryPercent ≤ 100 :=
  ⟨(statsToMetrics_memoryPercent amd64 (memorySample 100 0)).1 rfl,
    (statsToMetrics_memoryPercent amd64 (memorySample 100 2048)).2.1 (by decide),
    (statsToMetrics_memoryPercent amd64 (memorySample 100 2048)).2.2.1 (by decide),
    (statsToMetrics_memoryPercent amd64 (memorySample 100 2048)).2.2.2 (by decide)⟩

theorem f64round_1005 : f64round (1005 / 1000) = 4526117625507348 / 4503599627370496 := by
  have hk : ulpExp ((1005 : ℚ) / 1000) = -52 := by
    have := @ulpExp_eq ((1005 : ℚ) / 1000) 0 (by norm_num)
      (by norm_num [abs_of_pos]) (by norm_num [abs_of_pos])
    rw [this]
    norm_num
  rw [f64round_eq_of_near 4526117625507348 (-52) hk (by norm_num) (by norm_num)]
  norm_num

theorem f64mulAdd_1005 (t : GoTarget) :
    f64mulAdd t (4526117625507348 / 4503599627370496) 100 (1 / 2) =
      7107243161944063 / 70368744177664 := by
  unfold f64mulAdd f64add f64mul
  split_ifs
  · have hk : ulpExp ((4526117625507348 : ℚ) / 4503599627370496 * 100 + 1 / 2) = -46 := by
      have := @ulpExp_eq ((4526117625507348 : ℚ) / 4503599627370496 * 100 + 1 / 2) 6
        (by norm_num) (by norm_num [abs_of_pos]) (by norm_num [abs_of_pos])
      rw [this]
      norm_num
    rw [f64round_eq_of_near 7107243161944063 (-46) hk (by norm_num) (by norm_num)]
    norm_num
  · have hk : ulpExp ((4526117625507348 : ℚ) / 4503599627370496 * 100) = -46 := by
      have := @ulpExp_eq ((4526117625507348 : ℚ) / 4503599627370496 * 100) 6
        (by norm_num) (by norm_num [abs_of_pos]) (by norm_num [abs_of_pos])
      rw [this]
      norm_num
    rw [f64round_eq_of_near 7072058789855231 (-46) hk (by norm_num) (by norm_num)]
    have h2 : ((7072058789855231 : ℤ) : ℚ) * 2 ^ (-46 : ℤ) + 1 / 2 =
        7107243161944063 / 70368744177664 := by norm_num
    rw [h2]
    exact f64round_of_eq 7107243161944063 (-46) (by norm_num) (by norm_num) (by norm_num)

theorem round2_f64_1005 (t : GoTarget) : round2 t (f64round (1005 / 1000)) = 1 := by
  have hfl : ⌊(7107243161944063 : ℚ) / 70368744177664⌋ = 100 := by
    rw [Int.floor_eq_iff]
    constructor <;> norm_num
  have h100 : f64round (100 : ℚ) = 100 :=
    f64round_of_eq 100 0 (by norm_num) (by norm_num) (by norm_num)
  have h1 : f64round (1 : ℚ) = 1 :=
    f64round_of_eq 1 0 (by norm_num) (by norm_num) (by norm_num)
  rw [f64round_1005, round2_of_inRange t _ (by rw [f64mulAdd_1005]; norm_num)
    (by rw [f64mulAdd_1005]; norm_num), f64mulAdd_1005, hfl]
  norm_num [f64div, f64ofInt, h100, h1]

theorem roundHalfEven_tie_of_even (m : ℤ) (hm : m % 2 = 0) :
    roundHalfEven ((m : ℚ) + 1 / 2) = m := by
  have hf : ⌊(m : ℚ) + 1 / 2⌋ = m := by
    rw [Int.floor_eq_iff]
    constructor <;> linarith
  unfold roundHalfEven
  rw [hf]
  rw [if_neg (by norm_num), if_neg (by norm_num), if_pos hm]

theorem f64round_tie_2_pow_52 :
    f64round ((4503599627370512 : ℚ) + 1 / 2) = 4503599627370512 := by
  have hk : ulpExp ((4503599627370512 : ℚ) + 1 / 2) = 0 := by
    have := @ulpExp_eq ((4503599627370512 : ℚ) + 1 / 2) 52 (by norm_num)
      (by norm_num [abs_of_pos]) (by norm_num [abs_of_pos])
    rw [this]
    norm_num
  unfold f64round
  rw [hk]
  have h := roundHalfEven_tie_of_even 4503599627370512 (by norm_num)
  simp only [zpow_zero, div_one, mul_one]
  exact_mod_cast h

theorem round2_halfway_beyond (t : GoTarget) (ht : t.fusesMulAdd = false) :
    round2 t (360287970189641 / 8) = f64round (4503599627370512 / 100) ∧
      f64round ((4503599627370512 : ℚ) / 100) = 5764607523034255 / 128 := by
  have hm : f64mulAdd t (360287970189641 / 8) 100 (1 / 2) = 4503599627370512 := by
    unfold f64mulAdd f64add f64mul
    rw [ht]
    simp only [Bool.false_eq_true, if_false]
    have e : (360287970189641 : ℚ) / 8 * 100 = 4503599627370512 + 1 / 2 := by norm_num
    rw [e, f64round_tie_2_pow_52, f64round_tie_2_pow_52]
  have hfl : ⌊(4503599627370512 : ℚ)⌋ = 4503599627370512 := by
    exact_mod_cast Int.floor_intCast (4503599627370512 : ℤ)
  rw [round2_of_inRange t _ (by rw [hm]; norm_num) (by rw [hm]; norm_num), hm, hfl]
  unfold f64div f64ofInt
  have h1 : f64round (((4503599627370512 : ℤ) : ℚ)) = 4503599627370512 := by
    exact_mod_cast f64round_intCast (n := 4503599627370512) (by norm_num)
  rw [h1]
  refine ⟨rfl, ?_⟩
  have hk : ulpExp ((4503599627370512 : ℚ) / 100) = -7 := by
    have := @ulpExp_eq ((4503599627370512 : ℚ) / 100) 45 (by norm_num)
      (by norm_num [abs_of_pos]) (by norm_num [abs_of_pos])
    rw [this]
    norm_num
  rw [f64round_eq_of_near 5764607523034255 (-7) hk (by norm_num) (by norm_num)]
  norm_num

theorem f64round_upper_hundredth :
    f64round ((4503599627370513 : ℚ) / 100) = 5764607523034257 / 128 := by
  have hk : ulpExp ((4503599627370513 : ℚ) / 100) = -7 := by
    have := @ulpExp_eq ((4503599627370513 : ℚ) / 100) 45 (by norm_num)
      (by norm_num [abs_of_pos]) (by norm_num [abs_of_pos])
    rw [this]
    norm_num
  rw [f64round_eq_of_near 5764607523034257 (-7) hk (by norm_num) (by norm_num)]
  norm_num

/-- C4, counterexample: the float64 written 1.005 is rounded by `round2` to 1, on a
target with and on one without fused multiply-add, and 1 is not the float64 1.01. -/
theorem round2_of_1005_is_1 :
    round2 amd64 (f64round (1005 / 1000)) = 1 ∧ round2 arm64 (f64round (1005 / 1000)) = 1 ∧
      f64round (101 / 100) ≠ 1 := by
  refine ⟨round2_f64_1005 amd64, round2_f64_1005 arm64, ?_⟩
  have hk : ulpExp ((101 : ℚ) / 100) = -52 := by
    have := @ulpExp_eq ((101 : ℚ) / 100) 0 (by norm_num)
      (by norm_num [abs_of_pos]) (by norm_num [abs_of_pos])
    rw [this]
    norm_num
  rw [f64round_eq_of_near 4548635623644201 (-52) hk (by norm_num) (by norm_num)]
  norm_num

/-- C4, as amended: for a non-negative value in range `round2` is
float64(floor(v*100 + 0.5)) / 100 in float64 arithmetic. A float64 value exactly halfway
between the hundredths (n-1)/100 and n/100, which is an odd multiple j/8 of 0.125, goes to
the float64 nearest the upper one, n/100, as long as 25 * j < 2^53, that is while v*100 is
below 2^52 and exact in float64. The bound is needed: for the first odd j beyond it,
360287970189641, with n = 4503599627370513, a target that does not fuse the multiplication
and the addition gives the float64 nearest the lower hundredth, which is another float64
than the one nearest the upper hundredth. -/
theorem round2_half_up (t : GoTarget) :
    (∀ v : ℚ, 0 ≤ v → f64mulAdd t v 100 (1 / 2) < 2 ^ 63 →
      round2 t v = f64div (f64ofInt ⌊f64mulAdd t v 100 (1 / 2)⌋) 100) ∧
    (∀ j n : ℕ, 25 * j + 1 = 2 * n → 25 * j < 2 ^ 53 →
      (j : ℚ) / 8 = ((n : ℚ) - 1 / 2) / 100 ∧
        round2 t ((j : ℚ) / 8) = f64round ((n : ℚ) / 100)) ∧
    (t.fusesMulAdd = false →
      25 * 360287970189641 + 1 = 2 * 4503599627370513 ∧
        2 ^ 53 < 25 * 360287970189641 ∧
        round2 t (360287970189641 / 8) = f64round (4503599627370512 / 100) ∧
        f64round ((4503599627370512 : ℚ) / 100) = 5764607523034255 / 128 ∧
        f64round ((4503599627370513 : ℚ) / 100) = 5764607523034257 / 128) := by
  refine ⟨fun v hv h => round2_of_inRange t v (f64mulAdd_nonneg t hv) h, ?_,
    fun ht => ⟨by norm_num, by norm_num, (round2_halfway_beyond t ht).1,
      (round2_halfway_beyond t ht).2, f64round_upper_hundredth⟩⟩
  intro j n hjn hj
  have hq : (25 * j + 1 : ℚ) = 2 * n := by exact_mod_cast hjn
  have e0 : (j : ℚ) / 8 = ((n : ℚ) - 1 / 2) / 100 := by
    field_simp
    linarith
  refine ⟨e0, ?_⟩
  have hjz : (25 * j : ℤ) < 2 ^ 53 := by exact_mod_cast hj
  have hnz : (2 * n : ℤ) = 25 * j + 1 := by exact_mod_cast hjn.symm
  have hp : f64round ((j : ℚ) / 8 * 100) = (j : ℚ) / 8 * 100 :=
    f64round_of_eq (25 * j) (-1) (by push_cast; norm_num; ring)
      (by rw [abs_of_nonneg (by omega)]; exact hjz) (by norm_num)
  have hsum : (j : ℚ) / 8 * 100 + 1 / 2 = n := by linarith
  have hs : f64round ((j : ℚ) / 8 * 100 + 1 / 2) = (j : ℚ) / 8 * 100 + 1 / 2 := by
    rw [hsum]
    exact f64round_natCast (by omega)
  have hma := f64mulAdd_eq t hp hs
  rw [hsum] at hma
  have hn63 : (n : ℚ) < 2 ^ 63 := by
    have : n < 2 ^ 63 := by omega
    exact_mod_cast this
  rw [round2_of_inRange t _ (by rw [hma]; positivity) (by rw [hma]; exact hn63), hma]
  unfold f64div f64ofInt
  rw [Int.floor_natCast]
  have : f64round (((n : ℤ) : ℚ)) = n := by
    exact_mod_cast f64round_natCast (n := n) (by omega)
  rw [this]

/-- C4, witness: 0.125 lies halfway between 0.12 and 0.13 and is rounded to the float64
nearest 0.13. -/
theorem round2_half_up_witness :
    round2 amd64 (1 / 8) = f64div (f64ofInt ⌊f64mulAdd amd64 (1 / 8) 100 (1 / 2)⌋) 100 ∧
    (((1 : ℕ) : ℚ) / 8 = (((13 : ℕ) : ℚ) - 1 / 2) / 100 ∧
      round2 amd64 (((1 : ℕ) : ℚ) / 8) = f64round (((13 : ℕ) : ℚ) / 100)) :=
  ⟨(round2_half_up amd64).1 (1 / 8) (by norm_num)
      (lt_of_le_of_lt
        (f64mulAdd_le amd64 (by norm_num) 25 (-1) (by norm_num) (by norm_num) (by norm_num))
        (by norm_num)),
    (round2_half_up amd64).2.1 1 13 (by norm_num) (by norm_num)⟩

/-! ## The fleet summary -/

/-- C5, as amended: with the three list calls succeeding, `ContainersRunning` is the
number N of running containers, `ContainerMetrics` holds one entry per successfully
snapshotted container (N minus the K failures), in arrival order; `CPUPercentTotal` is
their float64 sum in that order and `MemoryUsageBytes` their summed usage modulo 2^64. -/
theorem Execute_failed_snapshots (uc : GetSystemSummary) (sched : List result → List result)
    (cs : List Container) (imgs : List Image) (vols : List Volume)
    (hc : uc.containers true = (cs, none)) (hi : uc.images = (imgs, none))
    (hv : uc.volumes = (vols, none)) (hs : IsSchedule sched) :
    ∃ (out : GetSystemSummaryOutput) (arrived : List (Container × ContainerMetrics)),
      (uc.Execute sched).result = .ok out ∧ arrived.Perm (snapshotted uc cs) ∧
      out.ContainersRunning = (runningOf cs).length ∧
      out.ContainerMetrics = arrived.map metricsEntry ∧
      out.ContainerMetrics.length =
        (runningOf cs).length -
          ((runningOf cs).filter (fun c => snapshotOf uc c = none)).length ∧
      out.CPUPercentTotal = arrived.foldl (fun s p => f64add s p.2.CPUPercentage) 0 ∧
      out.MemoryUsageBytes =
        ((snapshotted uc cs).map (fun p => p.2.MemoryUsage)).sum % 2 ^ 64 := by
  obtain ⟨arrived, hperm, heq⟩ := Execute_eq uc sched cs imgs vols hc hi hv hs
  refine ⟨_, arrived, by rw [heq], hperm, rfl, rfl, ?_, rfl, ?_⟩
  · have h1 := length_filterMap_add uc (runningOf cs)
    have h2 : arrived.length = (snapshotted uc cs).length := hperm.length_eq
    simp only [List.length_map]
    unfold snapshotted at h2
    omega
  · show (arrived.map (fun p => p.2.MemoryUsage)).sum % 2 ^ 64 = _
    rw [sum_usage_perm hperm]

/-- C5, counterexample: two running containers using 2^63 and 2^63 + 5 bytes, both
snapshots succeeding: the summed usage is 2^64 + 5 and `MemoryUsageBytes` is 5. -/
theorem memoryUsage_sum_wraps :
    (wrappingFleet.Execute id).result.toOption.map (fun o => o.MemoryUsageBytes) = some 5 ∧
      ((snapshotted wrappingFleet (wrappingFleet.containers true).1).map
        (fun p => p.2.MemoryUsage)).sum = 2 ^ 64 + 5 := by
  constructor <;> decide

/-- C5, witness: three running containers, one snapshot failing. -/
theorem Execute_failed_snapshots_witness :
    ∃ (out : GetSystemSummaryOutput) (arrived : List (Container × ContainerMetrics)),
      (mixedFleet.Execute id).result = .ok out ∧
      arrived.Perm (snapshotted mixedFleet (mixedFleet.containers true).1) ∧
      out.ContainersRunning = (runningOf (mixedFleet.containers true).1).length ∧
      out.ContainerMetrics = arrived.map metricsEntry ∧
      out.ContainerMetrics.length =
        (runningOf (mixedFleet.containers true).1).length -
          ((runningOf (mixedFleet.containers true).1).filter
            (fun c => snapshotOf mixedFleet c = none)).length ∧
      out.CPUPercentTotal = arrived.foldl (fun s p => f64add s p.2.CPUPercentage) 0 ∧
      out.MemoryUsageBytes =
        ((snapshotted mixedFleet (mixedFleet.containers true).1).map
          (fun p => p.2.MemoryUsage)).sum % 2 ^ 64 :=
  Execute_failed_snapshots mixedFleet id _ _ _ rfl rfl rfl isSchedule_id

/-- C6: the top list of a successful run is the ranking of the successfully snapshotted
running containers by memory usage cut to 10: `ranked` is a reordering of them, the list
holds the entries of its first 10, so min(10, n) entries whose usages are the first 10 of
the usages sorted in descending order, each with the id and usage of a snapshotted
container, and the containers left out use no more memory than any entry. -/
theorem Execute_top_ranking (uc : GetSystemSummary) (sched : List result → List result)
    (out : GetSystemSummaryOutput) (h : (uc.Execute sched).result = .ok out)
    (hs : IsSchedule sched) :
    ∃ ranked : List (Container × ContainerMetrics),
      ranked.Perm (snapshotted uc (uc.containers true).1) ∧
      out.TopContainersByMemory = (ranked.take 10).map (memoryEntry out.MemoryLimitBytes) ∧
      out.TopContainersByMemory.length =
        min 10 (snapshotted uc (uc.containers true).1).length ∧
      out.TopContainersByMemory.map (fun e => e.MemoryUsage) =
        (((snapshotted uc (uc.containers true).1).map
          (fun p => p.2.MemoryUsage)).insertionSort (· ≥ ·)).take 10 ∧
      (∀ e ∈ out.TopContainersByMemory, ∃ p ∈ snapshotted uc (uc.containers true).1,
        e.ID = p.1.ID ∧ e.MemoryUsage = p.2.MemoryUsage) ∧
      (∀ p ∈ ranked.drop 10, ∀ e ∈ out.TopContainersByMemory,
        p.2.MemoryUsage ≤ e.MemoryUsage) := by
  obtain ⟨arrived, hperm, _, _, htop⟩ := Execute_eq_of_ok uc sched out h hs
  have hrp : (sortByMemoryUsage arrived).Perm (snapshotted uc (uc.containers true).1) :=
    (sortByMemoryUsage_perm arrived).trans hperm
  have hsorted := sortByMemoryUsage_sorted arrived
  have htop2 : out.TopContainersByMemory =
      ((sortByMemoryUsage arrived).take 10).map (memoryEntry out.MemoryLimitBytes) := by
    rw [htop]
    rfl
  refine ⟨sortByMemoryUsage arrived, hrp, htop2, ?_, ?_, ?_, ?_⟩
  · rw [htop2, List.length_map, List.length_take, hrp.length_eq]
  · have e1 : out.TopContainersByMemory.map (fun e => e.MemoryUsage) =
        ((sortByMemoryUsage arrived).map (fun p => p.2.MemoryUsage)).take 10 := by
      rw [htop2, List.map_map, ← List.map_take]
      rfl
    rw [e1]
    congr 1
    apply List.eq_of_perm_of_sorted (r := (· ≥ ·))
    · exact (hrp.map _).trans (List.perm_insertionSort _ _).symm
    · exact List.pairwise_map.mpr hsorted
    · exact List.sorted_insertionSort _ _
  · intro e he
    rw [htop2] at he
    obtain ⟨p, hp, rfl⟩ := List.mem_map.mp he
    exact ⟨p, hrp.subset (List.mem_of_mem_take hp), rfl, rfl⟩
  · intro p hp e he
    rw [htop2] at he
    obtain ⟨q, hq, rfl⟩ := List.mem_map.mp he
    have hsplit := hsorted
    rw [← List.take_append_drop 10 (sortByMemoryUsage arrived)] at hsplit
    exact (List.pairwise_append.mp hsplit).2.2 q hq p hp

/-- C6, witness: the fleet with three running containers, one of whose snapshots fails. -/
theorem Execute_top_ranking_witness :
    ∃ (out : GetSystemSummaryOutput) (ranked : List (Container × ContainerMetrics)),
      (mixedFleet.Execute id).result = .ok out ∧
      ranked.Perm (snapshotted mixedFleet (mixedFleet.containers true).1) ∧
      out.TopContainersByMemory = (ranked.take 10).map (memoryEntry out.MemoryLimitBytes) ∧
      out.TopContainersByMemory.length =
        min 10 (snapshotted mixedFleet (mixedFleet.containers true).1).length ∧
      out.TopContainersByMemory.map (fun e => e.MemoryUsage) =
        (((snapshotted mixedFleet (mixedFleet.containers true).1).map
          (fun p => p.2.MemoryUsage)).insertionSort (· ≥ ·)).take 10 ∧
      (∀ e ∈ out.TopContainersByMemory,
        ∃ p ∈ snapshotted mixedFleet (mixedFleet.containers true).1,
          e.ID = p.1.ID ∧ e.MemoryUsage = p.2.MemoryUsage) ∧
      (∀ p ∈ ranked.drop 10, ∀ e ∈ out.TopContainersByMemory,
        p.2.MemoryUsage ≤ e.MemoryUsage) := by
  obtain ⟨out, h⟩ := Execute_succeeds mixedFleet id _ _ _ rfl rfl rfl
  obtain ⟨ranked, hr⟩ := Execute_top_ranking mixedFleet id out h isSchedule_id
  exact ⟨out, ranked, h, hr⟩

/-- C7, counterexample: two running containers that both use 100 bytes give a top list
with the usages 100 and 100, which is not strictly descending. -/
theorem top_tie_not_strict :
    (tiedFleet.Execute id).result.toOption.map
        (fun o => o.TopContainersByMemory.map (fun e => e.MemoryUsage)) = some [100, 100] ∧
      ¬ ((100 : ℕ) > 100) := by
  constructor <;> decide

/-- C7, as amended: the top list of a successful run is descending by memory usage, ties
allowed: every entry uses at least as much memory as every later one. -/
theorem Execute_top_descending (uc : GetSystemSummary) (sched : List result → List result)
    (out : GetSystemSummaryOutput) (h : (uc.Execute sched).result = .ok out)
    (hs : IsSchedule sched) :
    out.TopContainersByMemory.Pairwise (fun a b => b.MemoryUsage ≤ a.MemoryUsage) := by
  obtain ⟨arrived, _, _, _, htop⟩ := Execute_eq_of_ok uc sched out h hs
  rw [htop]
  unfold topEntries
  rw [List.pairwise_map]
  exact (sortByMemoryUsage_sorted arrived).sublist (List.take_sublist _ _)

/-- C7, witness: the fleet with three running containers. -/
theorem Execute_top_descending_witness :
    ∃ out : GetSystemSummaryOutput, (mixedFleet.Execute id).result = .ok out ∧
      out.TopContainersByMemory.Pairwise (fun a b => b.MemoryUsage ≤ a.MemoryUsage) := by
  obtain ⟨out, h⟩ := Execute_succeeds mixedFleet id _ _ _ rfl rfl rfl
  exact ⟨out, h, Execute_top_descending mixedFleet id out h isSchedule_id⟩

/-- C8, counterexample: the host-memory call fails and two running containers use 2^63 and
2^63 + 5 bytes: the summed usage is 2^64 + 5 and `MemoryLimitBytes` is 5. -/
theorem memoryLimit_sum_wraps :
    (wrappingFleet.Execute id).result.toOption.map (fun o => o.MemoryLimitBytes) = some 5 ∧
      wrappingFleet.sysInfo.2 ≠ none ∧
      ((snapshotted wrappingFleet (wrappingFleet.containers true).1).map
        (fun p => p.2.MemoryUsage)).sum = 2 ^ 64 + 5 := by
  refine ⟨?_, ?_, ?_⟩ <;> decide

/-- C8, as amended: in a successful run `MemoryLimitBytes` is the host total memory when
the host-memory call succeeds with a non-zero value, and otherwise the summed memory usage
of the successfully snapshotted running containers modulo 2^64. -/
theorem Execute_memoryLimit (uc : GetSystemSummary) (sched : List result → List result)
    (out : GetSystemSummaryOutput) (h : (uc.Execute sched).result = .ok out)
    (hs : IsSchedule sched) :
    (uc.sysInfo.2 = none → uc.sysInfo.1 ≠ 0 → out.MemoryLimitBytes = uc.sysInfo.1) ∧
    (uc.sysInfo.2 ≠ none ∨ uc.sysInfo.1 = 0 →
      out.MemoryLimitBytes =
        ((snapshotted uc (uc.containers true).1).map (fun p => p.2.MemoryUsage)).sum %
          2 ^ 64) := by
  obtain ⟨arrived, hperm, husage, hlimit, _⟩ := Execute_eq_of_ok uc sched out h hs
  rw [sum_usage_perm hperm] at husage
  rw [hlimit, ← husage]
  rcases hsi : uc.sysInfo with ⟨n, _ | e⟩
  · constructor
    · intro _ hn
      have hn0 : n ≠ 0 := hn
      simp [limitOf, memTotalOf, hsi, hn0]
    · intro hor
      have hn0 : n = 0 := by
        rcases hor with h1 | h1
        · exact absurd rfl h1
        · exact h1
      simp only [limitOf, memTotalOf, hsi, hn0]
      split_ifs with h2
      · rfl
      · simp at h2
        omega
  · constructor
    · intro h1
      exact absurd h1 (by simp)
    · intro _
      simp only [limitOf, memTotalOf, hsi]
      split_ifs with h2
      · rfl
      · simp at h2
        omega

/-- C8, witness: a host total of 4096 is the limit; with nothing running and a host total
of 1 GiB the limit is 1 GiB; with the host-memory call failing the limit is the summed
usage modulo 2^64. -/
theorem Execute_memoryLimit_witness :
    (∃ out : GetSystemSummaryOutput, (mixedFleet.Execute id).result = .ok out ∧
      out.MemoryLimitBytes = 4096) ∧
    (∃ out : GetSystemSummaryOutput, (idleFleet.Execute id).result = .ok out ∧
      out.MemoryLimitBytes = 1073741824) ∧
    (∃ out : GetSystemSummaryOutput, (wrappingFleet.Execute id).result = .ok out ∧
      out.MemoryLimitBytes =
        ((snapshotted wrappingFleet (wrappingFleet.containers true).1).map
          (fun p => p.2.MemoryUsage)).sum % 2 ^ 64) := by
  obtain ⟨o1, h1⟩ := Execute_succeeds mixedFleet id _ _ _ rfl rfl rfl
  obtain ⟨o2, h2⟩ := Execute_succeeds idleFleet id _ _ _ rfl rfl rfl
  obtain ⟨o3, h3⟩ := Execute_succeeds wrappingFleet id _ _ _ rfl rfl rfl
  exact ⟨⟨o1, h1, (Execute_memoryLimit mixedFleet id o1 h1 isSchedule_id).1 rfl (by decide)⟩,
    ⟨o2, h2, (Execute_memoryLimit idleFleet id o2 h2 isSchedule_id).1 rfl (by decide)⟩,
    ⟨o3, h3, (Execute_memoryLimit wrappingFleet id o3 h3 isSchedule_id).2
      (Or.inl (by decide))⟩⟩

theorem snapshotted_countsFleet :
    snapshotted countsFleet (countsFleet.containers true).1 =
      [(⟨str "1", [str "/a"], str "running"⟩, ⟨3 / 2, 100, 2048, 0, 0⟩)] := by
  rfl

theorem memoryPercent_100_of_2048 :
    f64mul (f64div (f64ofInt ((100 : ℕ) : ℤ)) (f64ofInt ((2048 : ℕ) : ℤ))) 100 =
      625 / 128 := by
  have h1 : f64round (100 : ℚ) = 100 :=
    f64round_of_eq 100 0 (by norm_num) (by norm_num) (by norm_num)
  have h2 : f64round (2048 : ℚ) = 2048 :=
    f64round_of_eq 2048 0 (by norm_num) (by norm_num) (by norm_num)
  have h3 : f64round (25 / 512 : ℚ) = 25 / 512 :=
    f64round_of_eq 25 (-9) (by norm_num) (by norm_num) (by norm_num)
  have h4 : f64round (625 / 128 : ℚ) = 625 / 128 :=
    f64round_of_eq 625 (-7) (by norm_num) (by norm_num) (by norm_num)
  norm_num [f64mul, f64div, f64ofInt, h1, h2, h3, h4]

theorem countsFleet_Execute (sched : List result → List result) (hs : IsSchedule sched) :
    (countsFleet.Execute sched).result =
      .ok
        { ContainersTotal := 2
          ContainersRunning := 1
          ContainersStopped := 1
          CPUPercentTotal := 3 / 2
          MemoryUsageBytes := 100
          MemoryLimitBytes := 2048
          ImagesCount := 1
          VolumesCount := 1
          TopContainersByMemory := [⟨str "1", str "a", 100, 625 / 128⟩]
          ContainerMetrics := [⟨str "1", str "a", 3 / 2, 100, 2048, 0⟩] } := by
  obtain ⟨arrived, hperm, heq⟩ := Execute_eq countsFleet sched _ _ _ rfl rfl rfl hs
  change arrived.Perm (snapshotted countsFleet (countsFleet.containers true).1) at hperm
  rw [snapshotted_countsFleet] at hperm
  have harr := List.perm_singleton.mp hperm
  rw [harr] at heq
  rw [heq]
  have hcpu : f64add 0 (3 / 2) = 3 / 2 := by
    unfold f64add
    rw [zero_add]
    exact f64round_of_eq 3 (-1) (by norm_num) (by norm_num) (by norm_num)
  have hlim : limitOf (memTotalOf countsFleet) (100 % 2 ^ 64) = 2048 := by decide
  have hname : containerDisplayName ⟨str "1", [str "/a"], str "running"⟩ = str "a" := by decide
  have hrun : (runningOf [(⟨str "1", [str "/a"], str "running"⟩ : Container),
      ⟨str "2", [str "/b"], str "exited"⟩]).length = 1 := by decide
  simp only [List.map_cons, List.map_nil, List.sum_cons, List.sum_nil, List.foldl_cons,
    List.foldl_nil, add_zero, hcpu, hlim, List.length_cons, List.length_nil, hrun,
    sortByMemoryUsage, sortOuter, sortInner, topEntries, List.take, topContainersByMemoryN,
    memoryEntry, metricsEntry, hname, memoryPercent_100_of_2048]
  rfl

/-- C9, counterexample: for the example input the top entry's memory percent is
4.8828125, the unrounded share of 100 in 2048, and neither 4.88 nor the float64 nearest
to it. -/
theorem counts_memoryPercent_unrounded :
    (countsFleet.Execute id).result.toOption.map
        (fun o => o.TopContainersByMemory.map (fun e => e.MemoryPercent)) = some [625 / 128] ∧
      (625 / 128 : ℚ) ≠ 488 / 100 ∧ (625 / 128 : ℚ) ≠ f64round (488 / 100) := by
  refine ⟨?_, by norm_num, ?_⟩
  · rw [countsFleet_Execute id isSchedule_id]
    rfl
  · have hk : ulpExp ((488 : ℚ) / 100) = -50 := by
      have := @ulpExp_eq ((488 : ℚ) / 100) 2 (by norm_num)
        (by norm_num [abs_of_pos]) (by norm_num [abs_of_pos])
      rw [this]
      norm_num
    rw [f64round_eq_of_near 5494391545392005 (-50) hk (by norm_num) (by norm_num)]
    norm_num

theorem Execute_top_form (uc : GetSystemSummary) (sched : List result → List result)
    (out : GetSystemSummaryOutput) (h : (uc.Execute sched).result = .ok out) :
    ∃ ranked : List (Container × ContainerMetrics),
      out.TopContainersByMemory = ranked.map (memoryEntry out.MemoryLimitBytes) := by
  obtain ⟨hc, hi, hv⟩ := Execute_ok_inv uc sched out h
  unfold GetSystemSummary.Execute at h
  rw [hc, hi, hv] at h
  simp only at h
  split_ifs at h
  · have ho := (Except.ok.inj h).symm
    exact ⟨[], by rw [ho]; rfl⟩
  · have ho := (Except.ok.inj h).symm
    exact ⟨_, by rw [ho]; rfl⟩

/-- C9, as amended: for the example input `Execute` returns the summary of the example
except that the top entry's memory percent is 4.8828125; in general a top entry's memory
percent is its usage as a percentage of the summary's memory limit, computed in float64
and not rounded, and 0 when the limit is 0. -/
theorem Execute_counts_example :
    (∀ sched : List result → List result, IsSchedule sched →
      (countsFleet.Execute sched).result =
        .ok
          { ContainersTotal := 2
            ContainersRunning := 1
            ContainersStopped := 1
            CPUPercentTotal := 3 / 2
            MemoryUsageBytes := 100
            MemoryLimitBytes := 2048
            ImagesCount := 1
            VolumesCount := 1
            TopContainersByMemory := [⟨str "1", str "a", 100, 625 / 128⟩]
            ContainerMetrics := [⟨str "1", str "a", 3 / 2, 100, 2048, 0⟩] }) ∧
    (∀ (uc : GetSystemSummary) (sched : List result → List result)
      (out : GetSystemSummaryOutput), (uc.Execute sched).result = .ok out →
      ∀ e ∈ out.TopContainersByMemory,
        e.MemoryPercent =
          if out.MemoryLimitBytes > 0 then
            f64mul (f64div (f64ofInt e.MemoryUsage) (f64ofInt out.MemoryLimitBytes)) 100
          else 0) := by
  refine ⟨countsFleet_Execute, ?_⟩
  intro uc sched out h e he
  obtain ⟨ranked, hr⟩ := Execute_top_form uc sched out h
  rw [hr] at he
  obtain ⟨p, _, rfl⟩ := List.mem_map.mp he
  rfl

/-- C9, witness: the example input under the scheduler that keeps the launch order. -/
theorem Execute_counts_example_witness :
    (countsFleet.Execute id).result =
      .ok
        { ContainersTotal := 2
          ContainersRunning := 1
          ContainersStopped := 1
          CPUPercentTotal := 3 / 2
          MemoryUsageBytes := 100
          MemoryLimitBytes := 2048
          ImagesCount := 1
          VolumesCount := 1
          TopContainersByMemory := [⟨str "1", str "a", 100, 625 / 128⟩]
          ContainerMetrics := [⟨str "1", str "a", 3 / 2, 100, 2048, 0⟩] } ∧
    ∃ out : GetSystemSummaryOutput, (mixedFleet.Execute id).result = .ok out ∧
      ∀ e ∈ out.TopContainersByMemory,
        e.MemoryPercent =
          if out.MemoryLimitBytes > 0 then
            f64mul (f64div (f64ofInt e.MemoryUsage) (f64ofInt out.MemoryLimitBytes)) 100
          else 0 := by
  obtain ⟨out, h⟩ := Execute_succeeds mixedFleet id _ _ _ rfl rfl rfl
  exact ⟨Execute_counts_example.1 id isSchedule_id, out, h,
    Execute_counts_example.2 mixedFleet id out h⟩

/-- C10: when no container of the list is running and the three list calls succeed,
`Execute` returns a summary with empty top and metrics lists and zero CPU and memory
totals, and calls `Snapshot` for no container. -/
theorem Execute_no_running (uc : GetSystemSummary) (sched : List result → List result)
    (cs : List Container) (imgs : List Image) (vols : List Volume)
    (hc : uc.containers true = (cs, none)) (hi : uc.images = (imgs, none))
    (hv : uc.volumes = (vols, none)) (hno : ∀ c ∈ cs, c.State ≠ str "running") :
    ∃ out : GetSystemSummaryOutput,
      uc.Execute sched = ⟨.ok out, []⟩ ∧ out.TopContainersByMemory = [] ∧
      out.ContainerMetrics = [] ∧ out.CPUPercentTotal = 0 ∧ out.MemoryUsageBytes = 0 := by
  have hrun : runningOf cs = [] := by
    unfold runningOf
    rw [List.filter_eq_nil_iff]
    intro c hcm
    simpa using hno c hcm
  unfold GetSystemSummary.Execute
  simp only [hc, hi, hv, partitionByState_eq, hrun, List.length_nil, if_true]
  exact ⟨_, rfl, rfl, rfl, rfl, rfl⟩

/-- C10, witness: a fleet whose only container has exited. -/
theorem Execute_no_running_witness :
    ∃ out : GetSystemSummaryOutput,
      idleFleet.Execute id = ⟨.ok out, []⟩ ∧ out.TopContainersByMemory = [] ∧
      out.ContainerMetrics = [] ∧ out.CPUPercentTotal = 0 ∧ out.MemoryUsageBytes = 0 :=
  Execute_no_running idleFleet id _ _ _ rfl rfl rfl (by decide)

/-! ## Counts and the mandatory list calls -/

theorem Execute_counts_of_ok (uc : GetSystemSummary) (sched : List result → List result)
    (out : GetSystemSummaryOutput) (h : (uc.Execute sched).result = .ok out) :
    out.ContainersTotal = (uc.containers true).1.length ∧
      out.ContainersRunning = (runningOf (uc.containers true).1).length ∧
      out.ContainersStopped =
        (uc.containers true).1.length - (runningOf (uc.containers true).1).length ∧
      out.ImagesCount = uc.images.1.length ∧ out.VolumesCount = uc.volumes.1.length := by
  obtain ⟨hc, hi, hv⟩ := Execute_ok_inv uc sched out h
  unfold GetSystemSummary.Execute at h
  rw [hc, hi, hv] at h
  simp only [partitionByState_eq] at h
  split_ifs at h
  · have ho := (Except.ok.inj h).symm
    rw [ho]
    exact ⟨rfl, rfl, rfl, rfl, rfl⟩
  · have ho := (Except.ok.inj h).symm
    rw [ho]
    exact ⟨rfl, rfl, rfl, rfl, rfl⟩

theorem length_filter_add_filter_not (cs : List Container) :
    (cs.filter (fun c => c.State = str "running")).length +
      (cs.filter (fun c => c.State ≠ str "running")).length = cs.length := by
  induction cs with
  | nil => rfl
  | cons c cs ih =>
    by_cases h : c.State = str "running"
    · rw [List.filter_cons_of_pos (by simpa using h), List.filter_cons_of_neg (by simpa using h)]
      simp only [List.length_cons]
      omega
    · rw [List.filter_cons_of_neg (by simpa using h), List.filter_cons_of_pos (by simpa using h)]
      simp only [List.length_cons]
      omega

/-- C11: in a successful run over the container list L, `ContainersRunning` is the number
of containers of L whose state is exactly "running", `ContainersStopped` the number of all
other containers of L, `ContainersTotal` their sum and the length of L; `ImagesCount` and
`VolumesCount` are the lengths of the image and volume lists. -/
theorem Execute_counts (uc : GetSystemSummary) (sched : List result → List result)
    (out : GetSystemSummaryOutput) (h : (uc.Execute sched).result = .ok out) :
    out.ContainersRunning =
        ((uc.containers true).1.filter (fun c => c.State = str "running")).length ∧
      out.ContainersStopped =
        ((uc.containers true).1.filter (fun c => c.State ≠ str "running")).length ∧
      out.ContainersTotal = out.ContainersRunning + out.ContainersStopped ∧
      out.ContainersTotal = (uc.containers true).1.length ∧
      out.ImagesCount = uc.images.1.length ∧ out.VolumesCount = uc.volumes.1.length := by
  obtain ⟨h1, h2, h3, h4, h5⟩ := Execute_counts_of_ok uc sched out h
  have h6 := length_filter_add_filter_not (uc.containers true).1
  unfold runningOf at h2 h3
  refine ⟨h2, ?_, ?_, h1, h4, h5⟩
  · rw [h3]
    omega
  · rw [h1, h2, h3]
    omega

/-- C11, witness: of six containers in the states running, exited, paused, created, the
empty state and "Running", one counts as running and five as stopped. -/
theorem Execute_counts_witness :
    ∃ out : GetSystemSummaryOutput, (statesFleet.Execute id).result = .ok out ∧
      out.ContainersRunning = 1 ∧ out.ContainersStopped = 5 ∧ out.ContainersTotal = 6 ∧
      out.ImagesCount = 2 ∧ out.VolumesCount = 1 := by
  obtain ⟨out, h⟩ := Execute_succeeds statesFleet id _ _ _ rfl rfl rfl
  obtain ⟨h1, h2, h3, h4, h5, h6⟩ := Execute_counts statesFleet id out h
  refine ⟨out, h, ?_, ?_, ?_, ?_, ?_⟩
  · rw [h1]
    decide
  · rw [h2]
    decide
  · rw [h4]
    decide
  · rw [h5]
    decide
  · rw [h6]
    decide

/-- C12: when the container, image and volume list calls succeed, `Execute` returns a
summary and no error, whatever the host-memory call and the snapshot calls return and in
whatever order the snapshot results arrive. -/
theorem Execute_absorbs_failures (uc : GetSystemSummary) (sched : List result → List result)
    (cs : List Container) (imgs : List Image) (vols : List Volume)
    (hc : uc.containers true = (cs, none)) (hi : uc.images = (imgs, none))
    (hv : uc.volumes = (vols, none)) :
    ∃ out : GetSystemSummaryOutput, (uc.Execute sched).result = .ok out :=
  Execute_succeeds uc sched cs imgs vols hc hi hv

/-- C12, witness: every snapshot and the host-memory call fail, and a summary is
returned. -/
theorem Execute_absorbs_failures_witness :
    (∀ id : GoString, (statesFleet.stats id).2 ≠ none) ∧ statesFleet.sysInfo.2 ≠ none ∧
      ∃ out : GetSystemSummaryOutput, (statesFleet.Execute id).result = .ok out :=
  ⟨fun _ => Option.some_ne_none _, by decide,
    Execute_absorbs_failures statesFleet id _ _ _ rfl rfl rfl⟩

/-- C13: when the container list call fails with `e`, `Execute` returns `e` and no
summary; when it succeeds and the image list call fails with `e`, likewise; when both
succeed and the volume list call fails with `e`, likewise. No snapshot is requested. -/
theorem Execute_list_error (uc : GetSystemSummary) (sched : List result → List result)
    (e : GoError) :
    ((uc.containers true).2 = some e → uc.Execute sched = ⟨.error e, []⟩) ∧
    ((uc.containers true).2 = none → uc.images.2 = some e →
      uc.Execute sched = ⟨.error e, []⟩) ∧
    ((uc.containers true).2 = none → uc.images.2 = none → uc.volumes.2 = some e →
      uc.Execute sched = ⟨.error e, []⟩) := by
  unfold GetSystemSummary.Execute
  rcases hc : uc.containers true with ⟨cs, _ | ec⟩ <;>
    rcases hi : uc.images with ⟨imgs, _ | ei⟩ <;>
    rcases hv : uc.volumes with ⟨vols, _ | ev⟩ <;> simp

/-- C13, witness: the failing container repository of the test, a failing image
repository (the volume repository failing after it), and a failing volume repository. -/
theorem Execute_list_error_witness :
    deadlineFleet.Execute id = ⟨.error "context deadline exceeded", []⟩ ∧
    imageErrorFleet.Execute id = ⟨.error "images unavailable", []⟩ ∧
    volumeErrorFleet.Execute id = ⟨.error "volumes unavailable", []⟩ :=
  ⟨(Execute_list_error deadlineFleet id "context deadline exceeded").1 rfl,
    (Execute_list_error imageErrorFleet id "images unavailable").2.1 rfl rfl,
    (Execute_list_error volumeErrorFleet id "volumes unavailable").2.2 rfl rfl rfl⟩

/-! ## Runs of the stream -/

theorem run_invariant (env : StreamEnv) (Q : Action → Prop) (P : StreamState → Prop)
    (hstep : ∀ a s s1, Q a → P s → step env a s = some s1 → P s1) :
    ∀ (sched : List Action) (s s1 : StreamState), (∀ a ∈ sched, Q a) → P s →
      run env sched s = some s1 → P s1 := by
  intro sched
  induction sched with
  | nil =>
    intro s s1 _ hP h
    simp only [run, Option.some.injEq] at h
    rw [← h]
    exact hP
  | cons a rest ih =>
    intro s s1 hQ hP h
    simp only [run] at h
    cases hs : step env a s with
    | none => simp [hs] at h
    | some s2 =>
      rw [hs] at h
      exact ih s2 s1 (fun b hb => hQ b (List.mem_cons_of_mem a hb))
        (hstep a s s2 (hQ a (List.mem_cons_self a rest)) hP hs) h

theorem run_append (env : StreamEnv) (a b : List Action) (s : StreamState) :
    run env (a ++ b) s = (run env a s).bind (run env b) := by
  induction a generalizing s with
  | nil => rfl
  | cons x a ih =>
    simp only [List.cons_append, run]
    cases step env x s with
    | none => rfl
    | some s1 => exact ih s1

theorem sinkInv_step (env : StreamEnv) (a : Action) (s s1 : StreamState)
    (hP : SinkInv env s) (h : step env a s = some s1) : SinkInv env s1 := by
  have hkeep : s1.written = s.written → (s1.consumer = s.consumer ∨
      ∀ r, s.consumer ≠ .returned r) → SinkInv env s1 := by
    intro hw hc i e hi hs
    rw [hw] at hi hs
    obtain ⟨h1, h2⟩ := hP i e hi hs
    rcases hc with hc | hc
    · exact ⟨by rw [hw]; exact h1, by rw [hc]; exact h2⟩
    · exact absurd h2 (hc _)
  cases a with
  | cancel =>
    simp only [step] at h
    split_ifs at h
    cases h
    exact hkeep rfl (Or.inl rfl)
  | producer =>
    simp only [step, producerStep] at h
    split at h
    · split at h <;> cases h <;> exact hkeep rfl (Or.inl rfl)
    · cases h
      exact hkeep rfl (Or.inl rfl)
    · split at h <;> cases h <;> exact hkeep rfl (Or.inl rfl)
    · split_ifs at h
      cases h
      exact hkeep rfl (Or.inl rfl)
    · cases h
      exact hkeep rfl (Or.inl rfl)
    · cases h
      exact hkeep rfl (Or.inl rfl)
    · cases h
  | producerCtx =>
    simp only [step] at h
    split at h
    · split_ifs at h
      cases h
      exact hkeep rfl (Or.inl rfl)
    · cases h
  | consumerCtx =>
    simp only [step] at h
    split at h
    · rename_i l hc
      split_ifs at h
      cases h
      exact hkeep rfl (Or.inr (by intro r hr; rw [hc] at hr; cases hr))
    · cases h
  | consumerErr =>
    simp only [step] at h
    split at h
    · rename_i hc
      split at h
      · cases h
        exact hkeep rfl (Or.inr (by intro r hr; rw [hc] at hr; cases hr))
      · split_ifs at h
        cases h
        exact hkeep rfl (Or.inr (by intro r hr; rw [hc] at hr; cases hr))
    · cases h
  | consumerMetrics =>
    simp only [step] at h
    split at h
    · rename_i l hc
      split at h
      · cases h
        exact hkeep rfl (Or.inr (by intro r hr; rw [hc] at hr; cases hr))
      · split_ifs at h
        cases h
        exact hkeep rfl (Or.inr (by intro r hr; rw [hc] at hr; cases hr))
    · cases h
  | consumerWrite =>
    simp only [step] at h
    split at h
    · rename_i l m late hc
      have hold : ∀ (i : ℕ) (e : GoError), i < s.written.length →
          env.sink ((s.written.take (i + 1)).map Delivery.m) ≠ some e := by
        intro i e hi hs
        have := (hP i e hi hs).2
        rw [hc] at this
        cases this
      have hnew : ∀ (w : List Delivery) (c : ConsumerPC),
          w = s.written ++ [Delivery.mk m late] →
          (∀ e, env.sink (w.map Delivery.m) = some e → c = .returned (some e)) →
          ∀ (i : ℕ) (e : GoError), i < w.length →
            env.sink ((w.take (i + 1)).map Delivery.m) = some e →
              i + 1 = w.length ∧ c = .returned (some e) := by
        intro w c hw hc2 i e hi hs
        rw [hw, List.length_append, List.length_singleton] at hi
        rcases Nat.lt_or_ge i s.written.length with hlt | hge
        · exfalso
          have ht : w.take (i + 1) = s.written.take (i + 1) := by
            rw [hw, List.take_append_of_le_length (by omega)]
          rw [ht] at hs
          exact hold i e hlt hs
        · have hi2 : i + 1 = w.length := by
            rw [hw, List.length_append, List.length_singleton]
            omega
          have ht : w.take (i + 1) = w := by
            rw [hi2, List.take_length]
          rw [ht] at hs
          exact ⟨hi2, hc2 e hs⟩
      split at h
      · rename_i e0 he0
        cases h
        exact hnew _ _ rfl (by
          intro e he
          rw [he0] at he
          cases he
          rfl)
      · rename_i he0
        cases h
        exact hnew _ _ rfl (by
          intro e he
          rw [he0] at he
          cases he)
    · cases h

theorem step_pipeline (env : StreamEnv) (a : Action) (s s1 : StreamState)
    (h : step env a s = some s1) :
    (pipeline s1 = pipeline s ∧ s1.decoded = s.decoded ∧
      (producerAlive s1 = true → producerAlive s = true)) ∨
    (∃ raw, env.feed s.decoded = .sample raw ∧ producerAlive s = true ∧
      pipeline s1 = pipeline s ++ [statsToMetrics env.target raw] ∧
      s1.decoded = s.decoded + 1) ∨
    (∃ m, pipeline s = pipeline s1 ++ [m] ∧ s1.decoded = s.decoded ∧
      producerAlive s1 = false) := by
  cases a with
  | cancel =>
    simp only [step] at h
    split_ifs at h
    cases h
    exact Or.inl ⟨rfl, rfl, fun h => h⟩
  | producer =>
    simp only [step, producerStep] at h
    split at h
    · rename_i hp
      split at h <;> cases h <;>
        exact Or.inl ⟨by simp [pipeline, hp], rfl, by simp [producerAlive, hp]⟩
    · rename_i hp
      cases h
      refine Or.inl ⟨?_, rfl, by simp [producerAlive, hp]⟩
      simp only [pipeline, hp]
      split_ifs <;> rfl
    · rename_i hp
      split at h
      · rename_i raw hf
        cases h
        exact Or.inr (Or.inl
          ⟨raw, hf, by simp [producerAlive, hp], by simp [pipeline, hp], rfl⟩)
      · cases h
        exact Or.inl ⟨by simp [pipeline, hp], rfl, by simp [producerAlive, hp]⟩
      · cases h
        exact Or.inl ⟨by simp [pipeline, hp], rfl, by simp [producerAlive, hp]⟩
    · rename_i m hp
      split_ifs at h
      cases h
      exact Or.inl ⟨by simp [pipeline, hp], rfl, by simp [producerAlive, hp]⟩
    · rename_i hp
      cases h
      exact Or.inl ⟨by simp [pipeline, hp], rfl, by simp [producerAlive]⟩
    · rename_i hp
      cases h
      exact Or.inl ⟨by simp [pipeline, hp], rfl, by simp [producerAlive]⟩
    · cases h
  | producerCtx =>
    simp only [step] at h
    split at h
    · rename_i m hp
      split_ifs at h
      cases h
      exact Or.inr (Or.inr ⟨m, by simp [pipeline, hp], rfl, by simp [producerAlive]⟩)
    · cases h
  | consumerCtx =>
    simp only [step] at h
    split at h
    · rename_i l hc
      split_ifs at h
      cases h
      exact Or.inl ⟨by simp [pipeline, hc], rfl, fun h => h⟩
    · cases h
  | consumerErr =>
    simp only [step] at h
    split at h
    · rename_i hc
      split at h
      · cases h
        exact Or.inl ⟨by simp [pipeline, hc], rfl, fun h => h⟩
      · split_ifs at h
        cases h
        exact Or.inl ⟨by simp [pipeline, hc], rfl, fun h => h⟩
    · cases h
  | consumerMetrics =>
    simp only [step] at h
    split at h
    · rename_i l hc
      split at h
      · rename_i m rest hb
        cases h
        exact Or.inl ⟨by simp [pipeline, hc, hb], rfl, fun h => h⟩
      · rename_i hb
        split_ifs at h
        cases h
        exact Or.inl ⟨by simp [pipeline, hc], rfl, fun h => h⟩
    · cases h
  | consumerWrite =>
    simp only [step] at h
    split at h
    · rename_i l m late hc
      split at h <;> cases h <;>
        exact Or.inl ⟨by simp [pipeline, hc], rfl, fun h => h⟩
    · cases h

theorem prefixInv_step (env : StreamEnv) (rs : List StatsJSON)
    (hfeed : ∀ k raw, env.feed k = .sample raw → rs[k]? = some raw)
    (a : Action) (s s1 : StreamState) (hP : PrefixInv env rs s)
    (h : step env a s = some s1) : PrefixInv env rs s1 := by
  obtain ⟨hpre, heq⟩ := hP
  rcases step_pipeline env a s s1 h with
    ⟨h1, h2, h3⟩ | ⟨raw, hf, hal, h1, h2⟩ | ⟨m, h1, h2, h3⟩
  · refine ⟨by rw [h1, h2]; exact hpre, ?_⟩
    intro hal
    rw [h1, h2]
    exact heq (h3 hal)
  · have hget := hfeed _ _ hf
    have e : (rs.take s1.decoded).map (statsToMetrics env.target) =
        pipeline s ++ [statsToMetrics env.target raw] := by
      rw [h2, List.take_succ, hget, heq hal]
      simp
    unfold PrefixInv
    rw [h1, e]
    exact ⟨List.prefix_refl _, fun _ => rfl⟩
  · refine ⟨?_, ?_⟩
    · rw [h2]
      exact (List.prefix_append _ _).trans (h1 ▸ hpre)
    · intro hal
      rw [h3] at hal
      cases hal

theorem prefixInv_init (env : StreamEnv) (rs : List StatsJSON) :
    PrefixInv env rs StreamState.init :=
  ⟨by simp [pipeline, StreamState.init], fun _ => by simp [pipeline, StreamState.init]⟩

theorem written_prefix_of_prefixInv (env : StreamEnv) (rs : List StatsJSON) (s : StreamState)
    (h : PrefixInv env rs s) :
    s.written.map Delivery.m <+: rs.map (statsToMetrics env.target) := by
  have h1 : s.written.map Delivery.m <+: pipeline s := by
    unfold pipeline
    rw [List.append_assoc, List.append_assoc]
    exact List.prefix_append _ _
  have h2 : (rs.take s.decoded).map (statsToMetrics env.target) <+:
      rs.map (statsToMetrics env.target) := by
    rw [List.map_take]
    exact List.take_prefix _ _
  exact (h1.trans h.1).trans h2

theorem goodInv_init (env : StreamEnv) (rs : List StatsJSON) :
    GoodInv env rs StreamState.init := by
  refine ⟨rfl, rfl, ?_, Nat.zero_le _, ?_, ?_, ?_⟩
  · simp [pipeline, StreamState.init]
  · simp [producerAlive, StreamState.init]
  · simp [StreamState.init]
  · simp [StreamState.init]

theorem pipeline_length_of_goodInv (env : StreamEnv) (rs : List StatsJSON) (s : StreamState)
    (h : GoodInv env rs s) : (pipeline s).length = s.decoded := by
  obtain ⟨_, _, hp, hd, _⟩ := h
  rw [hp, List.length_map, List.length_take]
  omega

theorem goodInv_step (env : StreamEnv) (rs : List StatsJSON)
    (hopen : env.openErr = none)
    (hfeed : ∀ k raw, rs[k]? = some raw → env.feed k = .sample raw)
    (heof : env.feed rs.length = .eof) (hsink : ∀ l, env.sink l = none)
    (a : Action) (s s1 : StreamState) (ha : a ≠ .cancel) (hP : GoodInv env rs s)
    (h : step env a s = some s1) :
    GoodInv env rs s1 ∧
      producerRank rs.length s1 + consumerRank rs.length s1 + 1 ≤
        producerRank rs.length s + consumerRank rs.length s := by
  have hlen := pipeline_length_of_goodInv env rs s hP
  obtain ⟨hcan, herr, hpipe, hdec, halive, hclosed, hret⟩ := hP
  cases a with
  | cancel => exact absurd rfl ha
  | producer =>
    simp only [step, producerStep] at h
    split at h
    · rename_i hp
      rw [hopen] at h
      cases h
      refine ⟨⟨hcan, herr, ?_, hdec, ?_, ?_, hret⟩, ?_⟩
      · simpa [pipeline, hp] using hpipe
      · simp [producerAlive]
      · simpa [hp] using hclosed
      · simp only [producerRank, consumerRank, hp]
        omega
    · rename_i hp
      split_ifs at h with hc
      · rw [hcan] at hc
        cases hc
      cases h
      refine ⟨⟨hcan, herr, ?_, hdec, ?_, ?_, hret⟩, ?_⟩
      · simpa [pipeline, hp] using hpipe
      · simp [producerAlive]
      · simpa [hp] using hclosed
      · simp only [producerRank, consumerRank, hp]
        omega
    · rename_i hp
      rcases Nat.lt_or_ge s.decoded rs.length with hlt | hge
      · have hget : rs[s.decoded]? = some (rs.get ⟨s.decoded, hlt⟩) := by
          simp [List.getElem?_eq_getElem hlt]
        rw [hfeed _ _ hget] at h
        cases h
        refine ⟨⟨hcan, herr, ?_, hlt, ?_, ?_, hret⟩, ?_⟩
        · simp only [pipeline] at hpipe ⊢
          rw [hp] at hpipe
          simp only [List.append_nil] at hpipe
          rw [List.take_succ, hget, List.map_append, ← hpipe]
          simp
        · simp [producerAlive]
        · simpa [hp] using hclosed
        · simp only [producerRank, consumerRank, hp]
          omega
      · have hd : s.decoded = rs.length := le_antisymm hdec hge
        have hf : env.feed s.decoded = .eof := by
          rw [hd]
          exact heof
        rw [hf] at h
        cases h
        refine ⟨⟨hcan, herr, ?_, hdec, fun _ => hd, ?_, hret⟩, ?_⟩
        · simpa [pipeline, hp] using hpipe
        · simpa [hp] using hclosed
        · simp only [producerRank, consumerRank, hp]
          omega
    · rename_i m hp
      split_ifs at h
      cases h
      refine ⟨⟨hcan, herr, ?_, hdec, ?_, ?_, ?_⟩, ?_⟩
      · simpa [pipeline, hp] using hpipe
      · simp [producerAlive]
      · simpa [hp] using hclosed
      · intro r hr
        have := hret r hr
        rw [hclosed, hp] at this
        exact absurd this.2.1 (by simp)
      · simp only [producerRank, consumerRank, hp]
        omega
    · rename_i hp
      cases h
      refine ⟨⟨hcan, herr, ?_, hdec, ?_, ?_, hret⟩, ?_⟩
      · simpa [pipeline, hp] using hpipe
      · intro _
        exact halive (by simp [producerAlive, hp])
      · simpa [hp] using hclosed
      · simp only [producerRank, consumerRank, hp]
        omega
    · rename_i hp
      cases h
      refine ⟨⟨hcan, herr, ?_, hdec, ?_, ?_, ?_⟩, ?_⟩
      · simpa [pipeline, hp] using hpipe
      · intro _
        exact halive (by simp [producerAlive, hp])
      · simp
      · intro r hr
        have := hret r hr
        rw [hclosed, hp] at this
        exact absurd this.2.1 (by simp)
      · simp only [producerRank, consumerRank, hp]
        omega
    · cases h
  | producerCtx =>
    simp only [step] at h
    split at h
    · rw [hcan] at h
      simp at h
    · cases h
  | consumerCtx =>
    simp only [step] at h
    split at h
    · rw [hcan] at h
      simp at h
    · cases h
  | consumerErr =>
    simp only [step] at h
    split at h
    · rename_i hc
      split at h
      · rename_i e he
        rw [herr] at he
        cases he
      split_ifs at h
      cases h
      refine ⟨⟨hcan, herr, ?_, hdec, halive, hclosed, ?_⟩, ?_⟩
      · simpa [pipeline, hc] using hpipe
      · intro r hr
        cases hr
      · simp only [producerRank, consumerRank, hc]
        simp only [if_true, Bool.false_eq_true, if_false]
        omega
    · cases h
  | consumerMetrics =>
    simp only [step] at h
    split at h
    · rename_i l hc
      split at h
      · rename_i m rest hb
        cases h
        refine ⟨⟨hcan, herr, ?_, hdec, halive, hclosed, ?_⟩, ?_⟩
        · simpa [pipeline, hc, hb] using hpipe
        · intro r hr
          cases hr
        · simp only [producerRank, consumerRank, hc]
          omega
      · rename_i hb
        split_ifs at h with hoc
        cases h
        refine ⟨⟨hcan, herr, ?_, hdec, halive, hclosed, ?_⟩, ?_⟩
        · simpa [pipeline, hc] using hpipe
        · intro r hr
          cases hr
          exact ⟨rfl, hoc, hb⟩
        · simp only [producerRank, consumerRank, hc]
          omega
    · cases h
  | consumerWrite =>
    simp only [step] at h
    split at h
    · rename_i l m late hc
      rw [hsink] at h
      cases h
      have hw : s.written.length + 1 ≤ s.decoded := by
        rw [← hlen]
        simp [pipeline, hc]
      refine ⟨⟨hcan, herr, ?_, hdec, halive, hclosed, ?_⟩, ?_⟩
      · simpa [pipeline, hc] using hpipe
      · intro r hr
        cases hr
      · simp only [producerRank, consumerRank, hc, List.length_append, List.length_singleton]
        omega
    · cases h

theorem finiteFeed_sample (rs : List StatsJSON) (k : ℕ) (raw : StatsJSON) :
    finiteFeed rs k = .sample raw ↔ rs[k]? = some raw := by
  unfold finiteFeed
  cases rs[k]? with
  | none => simp
  | some r => simp

theorem finiteFeed_eof (rs : List StatsJSON) : finiteFeed rs rs.length = .eof := by
  simp [finiteFeed]

theorem goodInv_run (env : StreamEnv) (rs : List StatsJSON)
    (hopen : env.openErr = none)
    (hfeed : ∀ k raw, rs[k]? = some raw → env.feed k = .sample raw)
    (heof : env.feed rs.length = .eof) (hsink : ∀ l, env.sink l = none) :
    ∀ (sched : List Action) (s s1 : StreamState), (∀ a ∈ sched, a ≠ .cancel) →
      GoodInv env rs s → run env sched s = some s1 →
      GoodInv env rs s1 ∧
        producerRank rs.length s1 + consumerRank rs.length s1 + sched.length ≤
          producerRank rs.length s + consumerRank rs.length s := by
  intro sched
  induction sched with
  | nil =>
    intro s s1 _ hP h
    simp only [run, Option.some.injEq] at h
    subst h
    exact ⟨hP, le_of_eq rfl⟩
  | cons a rest ih =>
    intro s s1 hQ hP h
    simp only [run] at h
    cases hs : step env a s with
    | none => simp [hs] at h
    | some s2 =>
      rw [hs] at h
      have h1 := goodInv_step env rs hopen hfeed heof hsink a s s2
        (hQ a (List.mem_cons_self _ _)) hP hs
      have h2 := ih s2 s1 (fun b hb => hQ b (List.mem_cons_of_mem _ hb)) h1.1 h
      refine ⟨h2.1, ?_⟩
      have := h1.2
      have := h2.2
      simp only [List.length_cons]
      omega

theorem goodInv_progress (env : StreamEnv) (rs : List StatsJSON) (s : StreamState)
    (hP : GoodInv env rs s) (hstuck : ∀ a, a ≠ Action.cancel → step env a s = none) :
    s.consumer = .returned none := by
  obtain ⟨hcan, herr, hpipe, hdec, halive, hclosed, hret⟩ := hP
  cases hc : s.consumer with
  | returned r =>
    rw [(hret r hc).1]
  | writing l m late =>
    have h := hstuck .consumerWrite (by decide)
    simp only [step, hc] at h
    split at h <;> cases h
  | selecting l =>
    have h := hstuck .consumerMetrics (by decide)
    simp only [step, hc] at h
    split at h
    · cases h
    · rename_i hb
      split_ifs at h with hoc
      have hnd : s.producer ≠ .done := fun hd => hoc (hclosed.2 hd)
      have hp := hstuck .producer (by decide)
      simp only [step, producerStep] at hp
      split at hp
      · split at hp <;> cases hp
      · cases hp
      · split at hp <;> cases hp
      · rw [hb] at hp
        simp at hp
      · cases hp
      · cases hp
      · rename_i hd
        exact absurd hd hnd

theorem goodInv_result (env : StreamEnv) (rs : List StatsJSON) (s : StreamState)
    (hP : GoodInv env rs s) (r : Option GoError) (hr : s.consumer = .returned r) :
    r = none ∧ s.written.map Delivery.m = rs.map (statsToMetrics env.target) := by
  obtain ⟨hcan, herr, hpipe, hdec, halive, hclosed, hret⟩ := hP
  obtain ⟨h1, h2, h3⟩ := hret r hr
  refine ⟨h1, ?_⟩
  have hd : s.producer = .done := hclosed.1 h2
  have hn : s.decoded = rs.length := halive (by simp [producerAlive, hd])
  simp only [pipeline, hr, h3, hd, List.append_nil] at hpipe
  rw [hpipe, hn, List.take_length]

/-- C14: the error of a failed open, or of a failed decode, can be lost. The goroutine of
`StreamStats` puts the error in `errCh` and, on its way out, closes `errCh` and then
`outCh`; if `Execute` comes to its `select` only then, both channels are ready, and when the
`select` takes the `metricsCh` case it sees the channel closed and returns nil. The context is
never cancelled in these executions. -/
theorem Execute_open_error_lost :
    brokenFeed.openErr = some "no such container" ∧
      (run brokenFeed [.producer, .producer, .producer, .consumerMetrics] .init).map
          (fun s => (s.consumer, s.cancelled, s.written)) =
        some (.returned none, false, []) ∧
      corruptFeed.feed 0 = .fail "unexpected end of JSON input" ∧
      (run corruptFeed
            [.producer, .producer, .producer, .producer, .producer, .consumerMetrics] .init).map
          (fun s => (s.consumer, s.cancelled, s.written)) =
        some (.returned none, false, []) := by
  refine ⟨rfl, ?_, rfl, ?_⟩ <;> decide

/-- C15: cancellation can go unnoticed by `Execute`. With two samples waiting in `outCh` when
the context is cancelled, each `select` of `Execute` may take the `metricsCh` case although
`ctx.Done()` is ready too: both samples are written to the sink after the cancellation, and
when the goroutine has seen the cancellation and closed the channels, the `select` may again
take `metricsCh` and return nil instead of `ctx.Err()`. -/
theorem Execute_cancel_unnoticed :
    (run endlessFeed
        [.producer, .producer, .producer, .producer, .producer, .producer, .producer,
          .cancel, .consumerMetrics, .consumerWrite, .consumerMetrics, .consumerWrite,
          .producer, .producer, .producer, .consumerMetrics] .init).map
      (fun s => (s.cancelled, s.consumer, s.written.map Delivery.late)) =
        some (true, .returned none, [true, true]) := by
  decide

/-- C16: on a feed of the samples `rs` followed by a clean end of stream, with the sink never
failing, every run without cancellation takes at most `5 * rs.length + 7` steps, a run that
can take no further step has returned nil, and whenever `Execute` has returned it returned
nil with the sink having received exactly `statsToMetrics` of each sample of `rs`, in order.
In every run whatsoever (cancelled, failing sink, failing open, a feed that breaks off with
a decode error) over a feed that yields only samples of `rs` at their positions, what the
sink has received is an initial segment of that sequence. -/
theorem Execute_stream_complete (env : StreamEnv) (rs : List StatsJSON)
    (hopen : env.openErr = none) (hfeed : env.feed = finiteFeed rs)
    (hsink : ∀ l, env.sink l = none) :
    (∀ (sched : List Action) (s : StreamState), (∀ a ∈ sched, a ≠ Action.cancel) →
      run env sched .init = some s →
        sched.length ≤ 5 * rs.length + 7 ∧
        ((∀ a, a ≠ Action.cancel → step env a s = none) → s.consumer = .returned none) ∧
        (∀ r, s.consumer = .returned r →
          r = none ∧ s.written.map Delivery.m = rs.map (statsToMetrics env.target))) ∧
    (∀ (other : StreamEnv) (sched : List Action) (s : StreamState),
      other.target = env.target →
      (∀ k raw, other.feed k = .sample raw → rs[k]? = some raw) →
      run other sched .init = some s →
        s.written.map Delivery.m <+: rs.map (statsToMetrics env.target)) := by
  constructor
  · intro sched s hQ hrun
    have hf1 : ∀ k raw, rs[k]? = some raw → env.feed k = .sample raw := by
      intro k raw h
      rw [hfeed]
      exact (finiteFeed_sample rs k raw).2 h
    have hf2 : env.feed rs.length = .eof := by
      rw [hfeed]
      exact finiteFeed_eof rs
    have h := goodInv_run env rs hopen hf1 hf2 hsink sched .init s hQ (goodInv_init env rs) hrun
    refine ⟨?_, goodInv_progress env rs s h.1, goodInv_result env rs s h.1⟩
    have h2 := h.2
    have h0 : producerRank rs.length StreamState.init +
        consumerRank rs.length StreamState.init = 5 * rs.length + 7 := by
      simp only [producerRank, consumerRank, StreamState.init, List.length_nil]
      simp only [Bool.false_eq_true, if_false]
      omega
    omega
  · intro other sched s ht hf hrun
    rw [← ht]
    apply written_prefix_of_prefixInv
    exact run_invariant other (fun _ => True) (PrefixInv other rs)
      (fun a s s1 _ hP h => prefixInv_step other rs hf a s s1 hP h)
      sched .init s (fun _ _ => trivial) (prefixInv_init other rs) hrun

/-- The run of `twoSamples` in which the goroutine and `Execute` alternate: `Execute` has
returned nil and the sink holds the metrics of both samples, in order. -/
theorem Execute_stream_complete_witness :
    ∃ s, run twoSamples
        [.producer, .producer, .producer, .producer, .consumerMetrics, .consumerWrite,
          .producer, .producer, .producer, .consumerMetrics, .consumerWrite,
          .producer, .producer, .producer, .producer, .consumerErr, .consumerMetrics]
        .init = some s ∧
      s.consumer = .returned none ∧
      s.written.map Delivery.m =
        [statsToMetrics amd64 (memorySample 100 1000),
          statsToMetrics amd64 (memorySample 200 1000)] := by
  have hsome : (run twoSamples
        [.producer, .producer, .producer, .producer, .consumerMetrics, .consumerWrite,
          .producer, .producer, .producer, .consumerMetrics, .consumerWrite,
          .producer, .producer, .producer, .producer, .consumerErr, .consumerMetrics]
        .init).map (fun s => s.consumer) = some (.returned none) := by
    decide
  obtain ⟨s, hs, hc⟩ := Option.map_eq_some'.1 hsome
  refine ⟨s, hs, hc, ?_⟩
  exact (((Execute_stream_complete twoSamples
    [memorySample 100 1000, memorySample 200 1000] rfl rfl (fun _ => rfl)).1 _ s
    (by decide) hs).2.2 none hc).2

/-- C17: in every run of `Execute`, if a call of the sink fails with `e` then that call is
the last one and `Execute` has returned `e`: the deliveries made up to and including a
failing call are all the deliveries there are. -/
theorem Execute_stops_at_sink_failure (env : StreamEnv) (sched : List Action)
    (s : StreamState) (hrun : run env sched .init = some s) (i : ℕ) (e : GoError)
    (hi : i < s.written.length)
    (hfail : env.sink ((s.written.take (i + 1)).map Delivery.m) = some e) :
    i + 1 = s.written.length ∧ s.consumer = .returned (some e) := by
  have hinv : SinkInv env s :=
    run_invariant env (fun _ => True) (SinkInv env)
      (fun a s s1 _ hP h => sinkInv_step env a s s1 hP h)
      sched .init s (fun _ _ => trivial)
      (by
        intro i e hi
        simp [StreamState.init] at hi) hrun
  exact hinv i e hi hfail

/-- On `flakySink` the second write fails with "broken pipe": `Execute` has returned that
error and the sink was called twice. -/
theorem Execute_stops_at_sink_failure_witness :
    ∃ s, run flakySink
        [.producer, .producer, .producer, .producer, .producer, .producer, .producer,
          .consumerMetrics, .consumerWrite, .consumerMetrics, .consumerWrite]
        .init = some s ∧
      s.written.length = 2 ∧ s.consumer = .returned (some "broken pipe") := by
  have hsome : (run flakySink
        [.producer, .producer, .producer, .producer, .producer, .producer, .producer,
          .consumerMetrics, .consumerWrite, .consumerMetrics, .consumerWrite]
        .init).map (fun s => s.written.length) = some 2 := by
    decide
  obtain ⟨s, hs, hc⟩ := Option.map_eq_some'.1 hsome
  have h := Execute_stops_at_sink_failure flakySink _ s hs 1 "broken pipe" (by omega)
    (by simp [flakySink, hc])
  exact ⟨s, hs, hc, h.2⟩

/-! ## Display names and container actions -/

theorem mem_snapshotted (uc : GetSystemSummary) (cs : List Container)
    (p : Container × ContainerMetrics) (h : p ∈ snapshotted uc cs) :
    p.1 ∈ cs ∧ p.1.State = str "running" ∧ snapshotOf uc p.1 = some p.2 := by
  unfold snapshotted runningOf at h
  rw [List.mem_filterMap] at h
  obtain ⟨c, hc, hp⟩ := h
  rw [List.mem_filter] at hc
  cases hs : snapshotOf uc c with
  | none => simp [hs] at hp
  | some m =>
    simp only [hs, Option.map_some', Option.some.injEq] at hp
    subst hp
    exact ⟨hc.1, by simpa using hc.2, hs⟩

theorem Execute_entries_of_ok (uc : GetSystemSummary) (sched : List result → List result)
    (out : GetSystemSummaryOutput) (h : (uc.Execute sched).result = .ok out)
    (hs : IsSchedule sched) :
    ∃ arrived : List (Container × ContainerMetrics),
      arrived.Perm (snapshotted uc (uc.containers true).1) ∧
      out.TopContainersByMemory =
        topEntries out.MemoryLimitBytes (sortByMemoryUsage arrived) ∧
      out.ContainerMetrics = arrived.map metricsEntry := by
  obtain ⟨hc, hi, hv⟩ := Execute_ok_inv uc sched out h
  obtain ⟨arrived, hperm, heq⟩ := Execute_eq uc sched _ _ _ hc hi hv hs
  rw [heq] at h
  have ho : out = _ := (Except.ok.inj h).symm
  refine ⟨arrived, hperm, ?_, ?_⟩ <;> rw [ho]

/-- C18, the claim refuted: only one leading slash is stripped, so the display name taken
from the name "//web" is "/web", which still begins with the separator. -/
theorem containerDisplayName_double_slash :
    containerDisplayName ⟨str "0123456789abcdef", [str "//web"], str "running"⟩ =
      str "/web" := by
  decide

/-- C18, as amended: when the first name is non-empty the display name is that name
without its first byte if that byte is a slash, and the name itself otherwise, so it begins
with a slash only if the name begins with two; when there is no name or the first name is
empty it is the first 12 bytes of the ID, the whole ID when that is shorter. In a summary
every top-by-memory entry and every container_metrics entry is built from a listed
container whose snapshot succeeded and carries that container's ID and display name, and
every top-by-memory entry has a container_metrics entry built from the same container and
snapshot; so when the listed containers have distinct IDs, every entry of either list
that has the ID of a listed container is named by that container's display name. -/
theorem containerDisplayName_spec (c : Container) :
    (∀ name more, c.Names = name :: more → name ≠ [] →
      containerDisplayName c = (if name.head? = some 47 then name.drop 1 else name) ∧
      ((containerDisplayName c).head? = some 47 → (name.take 2 = [47, 47]))) ∧
    (c.Names.head? = none ∨ c.Names.head? = some [] → containerDisplayName c = c.ID.take 12) ∧
    (c.ID.length < 12 → c.ID.take 12 = c.ID) ∧
    (∀ (uc : GetSystemSummary) (sched : List result → List result)
      (out : GetSystemSummaryOutput), IsSchedule sched →
      (uc.Execute sched).result = .ok out →
      (∀ e ∈ out.TopContainersByMemory, ∃ d ∈ (uc.containers true).1, ∃ m,
        snapshotOf uc d = some m ∧ e = memoryEntry out.MemoryLimitBytes (d, m) ∧
          e.ID = d.ID ∧ e.Name = containerDisplayName d ∧
          ∃ e1 ∈ out.ContainerMetrics, e1 = metricsEntry (d, m) ∧ e1.ID = d.ID ∧
            e1.Name = containerDisplayName d) ∧
      (∀ e1 ∈ out.ContainerMetrics, ∃ d ∈ (uc.containers true).1, ∃ m,
        snapshotOf uc d = some m ∧ e1 = metricsEntry (d, m) ∧ e1.ID = d.ID ∧
          e1.Name = containerDisplayName d) ∧
      (((uc.containers true).1.map (fun d => d.ID)).Nodup →
        ∀ d ∈ (uc.containers true).1,
          (∀ e ∈ out.TopContainersByMemory, e.ID = d.ID →
            e.Name = containerDisplayName d) ∧
          (∀ e1 ∈ out.ContainerMetrics, e1.ID = d.ID →
            e1.Name = containerDisplayName d))) := by
  refine ⟨?_, ?_, ?_, ?_⟩
  · intro name more hn hne
    cases name with
    | nil => exact absurd rfl hne
    | cons b rest =>
      simp only [containerDisplayName, hn, List.head?_cons, Option.some.injEq, List.drop_one,
        List.tail_cons]
      refine ⟨trivial, ?_⟩
      · intro h
        split_ifs at h with hb
        · cases rest with
          | nil => simp at h
          | cons b1 r =>
            simp only [List.head?_cons, Option.some.injEq] at h
            simp [hb, h]
        · simp only [List.head?_cons, Option.some.injEq] at h
          exact absurd h hb
  · intro h
    have hd : containerDisplayName c = if 12 ≤ c.ID.length then c.ID.take 12 else c.ID := by
      unfold containerDisplayName
      cases hN : c.Names with
      | nil => rfl
      | cons n more =>
        cases n with
        | nil => rfl
        | cons b rest => simp [hN] at h
    rw [hd]
    split_ifs with h12
    · rfl
    · exact (List.take_of_length_le (by omega)).symm
  · intro h
    exact List.take_of_length_le (by omega)
  · intro uc sched out hs hok
    obtain ⟨arrived, hperm, htop, hmet⟩ := Execute_entries_of_ok uc sched out hok hs
    have htopE : ∀ e ∈ out.TopContainersByMemory, ∃ d ∈ (uc.containers true).1, ∃ m,
        snapshotOf uc d = some m ∧ e = memoryEntry out.MemoryLimitBytes (d, m) ∧
          e.ID = d.ID ∧ e.Name = containerDisplayName d ∧
          ∃ e1 ∈ out.ContainerMetrics, e1 = metricsEntry (d, m) ∧ e1.ID = d.ID ∧
            e1.Name = containerDisplayName d := by
      intro e he
      rw [htop, topEntries, List.mem_map] at he
      obtain ⟨p, hp, rfl⟩ := he
      have hp1 : p ∈ arrived :=
        (sortByMemoryUsage_perm arrived).mem_iff.1 (List.mem_of_mem_take hp)
      obtain ⟨h1, _, h3⟩ := mem_snapshotted uc _ p (hperm.mem_iff.1 hp1)
      refine ⟨p.1, h1, p.2, h3, rfl, rfl, rfl, metricsEntry p, ?_, rfl, rfl, rfl⟩
      rw [hmet]
      exact List.mem_map_of_mem _ hp1
    have hmetE : ∀ e1 ∈ out.ContainerMetrics, ∃ d ∈ (uc.containers true).1, ∃ m,
        snapshotOf uc d = some m ∧ e1 = metricsEntry (d, m) ∧ e1.ID = d.ID ∧
          e1.Name = containerDisplayName d := by
      intro e1 he1
      rw [hmet, List.mem_map] at he1
      obtain ⟨p, hp, rfl⟩ := he1
      obtain ⟨h1, _, h3⟩ := mem_snapshotted uc _ p (hperm.mem_iff.1 hp)
      exact ⟨p.1, h1, p.2, h3, rfl, rfl, rfl⟩
    refine ⟨htopE, hmetE, ?_⟩
    intro hnd d hd
    have huniq : ∀ d1 ∈ (uc.containers true).1, d1.ID = d.ID → d1 = d :=
      fun d1 hd1 hid => List.inj_on_of_nodup_map hnd hd1 hd hid
    constructor
    · intro e he hid
      obtain ⟨d1, hd1, m, _, _, hid1, hname, _⟩ := htopE e he
      rw [hname, huniq d1 hd1 (hid1.symm.trans hid)]
    · intro e1 he1 hid
      obtain ⟨d1, hd1, m, _, _, hid1, hname⟩ := hmetE e1 he1
      rw [hname, huniq d1 hd1 (hid1.symm.trans hid)]

/-- The name "/web" is shown as "web", and a container without a name by the first twelve
bytes of its ID; in the summary of the fleet with three running containers, whose IDs are
distinct, the entries of the container "a" are named "web" in both lists. -/
theorem containerDisplayName_spec_witness :
    containerDisplayName ⟨str "0123456789abcdef", [str "/web"], str "running"⟩ = str "web" ∧
      containerDisplayName ⟨str "0123456789abcdef", [], str "running"⟩ =
        str "0123456789ab" ∧
      ∃ out, (mixedFleet.Execute id).result = .ok out ∧
        out.TopContainersByMemory.map (fun e => (e.ID, e.Name)) =
          [(str "c", str "c"), (str "a", str "web")] ∧
        (∀ e ∈ out.TopContainersByMemory, e.ID = str "a" → e.Name = str "web") ∧
        (∀ e1 ∈ out.ContainerMetrics, e1.ID = str "a" → e1.Name = str "web") := by
  refine ⟨((containerDisplayName_spec ⟨str "0123456789abcdef", [str "/web"],
      str "running"⟩).1 (str "/web") [] rfl (by decide)).1.trans (by decide),
    ((containerDisplayName_spec ⟨str "0123456789abcdef", [], str "running"⟩).2.1
      (Or.inl rfl)).trans (by decide), ?_⟩
  have hsome : (mixedFleet.Execute id).result.toOption.map
      (fun o => o.TopContainersByMemory.map (fun e => (e.ID, e.Name))) =
        some [(str "c", str "c"), (str "a", str "web")] := by
    decide
  obtain ⟨out, h⟩ := Execute_succeeds mixedFleet id _ _ _ rfl rfl rfl
  have hmap : out.TopContainersByMemory.map (fun e => (e.ID, e.Name)) =
      [(str "c", str "c"), (str "a", str "web")] := by
    rw [h] at hsome
    simpa [Except.toOption] using hsome
  have hu := ((containerDisplayName_spec ⟨str "a", [str "/web"], str "running"⟩).2.2.2
    mixedFleet id out isSchedule_id h).2.2 (by decide)
    ⟨str "a", [str "/web"], str "running"⟩ (by decide)
  exact ⟨out, h, hmap, hu.1, hu.2⟩

theorem allowedActions_iff (a : GoString) :
    allowedActions a = true ↔
      a ∈ [ActionStart, ActionStop, ActionRestart, ActionPause, ActionUnpause] := by
  simp [allowedActions, or_assoc]

/-- C19: with an empty container ID `Execute` returns "missing container id", whatever the
action; with a non-empty ID and an action that is none of start, stop, restart, pause,
unpause it returns the invalid-action error; in both cases no call reaches the
controller. -/
theorem Execute_rejects_bad_input (uc : ExecuteContainerAction)
    (input : ExecuteContainerActionInput) :
    (input.ContainerID = str "" →
      uc.Execute input = ⟨some "missing container id", []⟩) ∧
    (input.ContainerID ≠ str "" →
      input.Action ∉ [str "start", str "stop", str "restart", str "pause", str "unpause"] →
      uc.Execute input =
        ⟨some "invalid action: must be one of start, stop, restart, pause, unpause", []⟩) := by
  constructor
  · intro h
    simp [ExecuteContainerAction.Execute, h]
  · intro hid hact
    have hna : allowedActions input.Action = false := by
      rw [← Bool.not_eq_true, allowedActions_iff]
      exact hact
    simp [ExecuteContainerAction.Execute, hid, hna]

/-- The two rejections of `TestExecuteContainerAction_Validation`, and an empty ID together
with an invalid action. -/
theorem Execute_rejects_bad_input_witness :
    mockController.Execute ⟨str "", str "start"⟩ = ⟨some "missing container id", []⟩ ∧
      mockController.Execute ⟨str "", str "invalid"⟩ = ⟨some "missing container id", []⟩ ∧
      mockController.Execute ⟨str "abc123", str "invalid"⟩ =
        ⟨some "invalid action: must be one of start, stop, restart, pause, unpause", []⟩ :=
  ⟨(Execute_rejects_bad_input mockController ⟨str "", str "start"⟩).1 rfl,
    (Execute_rejects_bad_input mockController ⟨str "", str "invalid"⟩).1 rfl,
    (Execute_rejects_bad_input mockController ⟨str "abc123", str "invalid"⟩).2
      (by decide) (by decide)⟩

/-- C20: for a non-empty container ID and one of the five actions, `Execute` makes exactly
one call to the controller, with that ID and that action, and returns what the call
returned: nil, or the controller's error itself. -/
theorem Execute_calls_controller (uc : ExecuteContainerAction)
    (input : ExecuteContainerActionInput) (hid : input.ContainerID ≠ str "")
    (hact : input.Action ∈
      [str "start", str "stop", str "restart", str "pause", str "unpause"]) :
    uc.Execute input =
      ⟨uc.ctrl input.ContainerID input.Action, [(input.ContainerID, input.Action)]⟩ := by
  have ha : allowedActions input.Action = true := (allowedActions_iff _).2 hact
  unfold ExecuteContainerAction.Execute
  rw [if_neg hid, ha]
  cases uc.ctrl input.ContainerID input.Action <;> rfl

/-- The controller failing with "docker error" on ("cid", "start"): one call, and that
error returned; and the succeeding controller on ("cid", "unpause"). -/
theorem Execute_calls_controller_witness :
    failingController.Execute ⟨str "cid", str "start"⟩ =
        ⟨some "docker error", [(str "cid", str "start")]⟩ ∧
      mockController.Execute ⟨str "cid", str "unpause"⟩ =
        ⟨none, [(str "cid", str "unpause")]⟩ :=
  ⟨Execute_calls_controller failingController ⟨str "cid", str "start"⟩ (by decide)
      (by decide),
    Execute_calls_controller mockController ⟨str "cid", str "unpause"⟩ (by decide)
      (by decide)⟩

/-! ## The container list use case -/

theorem listOutcome_eq (o : ListOutcome) (l : Option (List Container)) (e : Option GoError)
    (c : List Bool) (h1 : o.list = l) (h2 : o.err = e) (h3 : o.calls = c) : o = ⟨l, e, c⟩ := by
  cases o
  simp_all

/-- C21: `ListContainers.Execute` makes one call of `ListActive`, with the input's `All`
flag; when the repository returns no error it returns the repository's slice itself and
no error, and when the repository returns an error it returns the nil slice and that
error. -/
theorem ListContainers_Execute_passes_through (uc : ListContainers)
    (input : ListContainersInput) :
    (uc.Execute input).calls = [input.All] ∧
      ((uc.repo input.All).2 = none →
        (uc.Execute input).list = (uc.repo input.All).1 ∧ (uc.Execute input).err = none) ∧
      (∀ e, (uc.repo input.All).2 = some e →
        (uc.Execute input).list = none ∧ (uc.Execute input).err = some e) := by
  unfold ListContainers.Execute
  rcases h : uc.repo input.All with ⟨list, _ | e⟩ <;> simp

/-- The two cases of `TestListContainers_Execute`, and a repository that returns a slice
together with its error. -/
theorem ListContainers_Execute_passes_through_witness :
    listingRepository.Execute ⟨true⟩ =
        ⟨some [⟨str "a", [], str "running"⟩, ⟨str "b", [], str "exited"⟩], none, [true]⟩ ∧
      failingRepository.Execute ⟨false⟩ = ⟨none, some "repo failed", [false]⟩ ∧
      flagRepository.Execute ⟨false⟩ = ⟨none, some "daemon unreachable", [false]⟩ := by
  refine ⟨?_, ?_, ?_⟩
  · have h := ListContainers_Execute_passes_through listingRepository ⟨true⟩
    exact listOutcome_eq _ _ _ _ (h.2.1 rfl).1 (h.2.1 rfl).2 h.1
  · have h := ListContainers_Execute_passes_through failingRepository ⟨false⟩
    exact listOutcome_eq _ _ _ _ (h.2.2 "repo failed" rfl).1
      (h.2.2 "repo failed" rfl).2 h.1
  · have h := ListContainers_Execute_passes_through flagRepository ⟨false⟩
    exact listOutcome_eq _ _ _ _ (h.2.2 "daemon unreachable" rfl).1
      (h.2.2 "daemon unreachable" rfl).2 h.1

/-! ## The action sets of the use case and of the controller -/

theorem ExecuteAction_of_allowed (c : ContainerController) (containerID a : GoString)
    (h : allowedActions a = true) :
    ∃ call, c.ExecuteAction containerID a =
      ⟨c.cli call containerID, [(call, containerID)]⟩ := by
  rw [allowedActions_iff] at h
  simp only [List.mem_cons, List.mem_singleton, List.not_mem_nil, or_false] at h
  rcases h with h | h | h | h | h <;> subst h
  · exact ⟨.ContainerStart, rfl⟩
  · exact ⟨.ContainerStop 10, rfl⟩
  · exact ⟨.ContainerRestart 10, rfl⟩
  · exact ⟨.ContainerPause, rfl⟩
  · exact ⟨.ContainerUnpause, rfl⟩

theorem ExecuteAction_of_not_allowed (c : ContainerController) (containerID a : GoString)
    (h : allowedActions a = false) :
    c.ExecuteAction containerID a = ⟨some "invalid action", []⟩ := by
  have h1 : ¬ allowedActions a = true := by simp [h]
  rw [allowedActions_iff] at h1
  simp only [List.mem_cons, List.mem_singleton, List.not_mem_nil, or_false, not_or] at h1
  obtain ⟨h1, h2, h3, h4, h5⟩ := h1
  simp [ContainerController.ExecuteAction, h1, h2, h3, h4, h5]

/-- C23: for every action string the validation of `ExecuteContainerAction` accepts it
exactly when `ContainerController.ExecuteAction` dispatches it to one call of the docker
client and returns what that call returns, and rejects it exactly when `ExecuteAction`
takes its `default` branch, returning "invalid action" without a call; so every call that
`ExecuteContainerAction.Execute` makes to the controller is dispatched to the docker client,
never to the `default` branch. -/
theorem actions_accepted_iff_dispatched (c : ContainerController) :
    (∀ a containerID : GoString, allowedActions a = true ↔
      ∃ call, c.ExecuteAction containerID a =
        ⟨c.cli call containerID, [(call, containerID)]⟩) ∧
    (∀ a containerID : GoString, allowedActions a = false ↔
      c.ExecuteAction containerID a = ⟨some "invalid action", []⟩) ∧
    (∀ input : ExecuteContainerActionInput,
      ∀ p ∈ ((NewExecuteContainerAction c).Execute input).calls,
        ∃ call, c.ExecuteAction p.1 p.2 = ⟨c.cli call p.1, [(call, p.1)]⟩) := by
  refine ⟨?_, ?_, ?_⟩
  · intro a containerID
    constructor
    · exact ExecuteAction_of_allowed c containerID a
    · rintro ⟨call, h⟩
      by_contra hn
      rw [Bool.not_eq_true] at hn
      rw [ExecuteAction_of_not_allowed c containerID a hn] at h
      simp at h
  · intro a containerID
    constructor
    · exact ExecuteAction_of_not_allowed c containerID a
    · intro h
      by_contra hn
      rw [Bool.not_eq_false] at hn
      obtain ⟨call, h1⟩ := ExecuteAction_of_allowed c containerID a hn
      rw [h] at h1
      simp at h1
  · intro input p hp
    unfold ExecuteContainerAction.Execute at hp
    split_ifs at hp with h1 h2
    · simp at hp
    · simp at hp
    · have ha : allowedActions input.Action = true := by simpa using h2
      have hp1 : p = (input.ContainerID, input.Action) := by
        split at hp <;> simpa using hp
      rw [hp1]
      exact ExecuteAction_of_allowed c _ _ ha

/-- On a docker client on which only pausing fails: "restart" is accepted and becomes one
restart call with the 10 second timeout, "pause" returns the client's error, "kill" is
rejected and would take the `default` branch, and `Execute` on "kill" makes no call. -/
theorem actions_accepted_iff_dispatched_witness :
    (∃ call, pauseFailingController.ExecuteAction (str "cid") (str "restart") =
        ⟨pauseFailingController.cli call (str "cid"), [(call, str "cid")]⟩) ∧
      pauseFailingController.ExecuteAction (str "cid") (str "kill") =
        ⟨some "invalid action", []⟩ ∧
      (NewExecuteContainerAction pauseFailingController).Execute ⟨str "cid", str "pause"⟩ =
        ⟨some "cannot pause", [(str "cid", str "pause")]⟩ ∧
      ((NewExecuteContainerAction pauseFailingController).Execute
        ⟨str "cid", str "kill"⟩).calls = [] :=
  ⟨((actions_accepted_iff_dispatched pauseFailingController).1 (str "restart")
      (str "cid")).1 (by decide),
    ((actions_accepted_iff_dispatched pauseFailingController).2.1 (str "kill")
      (str "cid")).1 (by decide),
    by decide, by decide⟩

/-! ## Arrival order of the snapshots -/

theorem Execute_form_of_ok (uc : GetSystemSummary) (sched : List result → List result)
    (out : GetSystemSummaryOutput) (h : (uc.Execute sched).result = .ok out)
    (hs : IsSchedule sched) :
    ∃ arrived : List (Container × ContainerMetrics),
      arrived.Perm (snapshotted uc (uc.containers true).1) ∧
      out.MemoryUsageBytes = (arrived.map (fun p => p.2.MemoryUsage)).sum % 2 ^ 64 ∧
      out.MemoryLimitBytes = limitOf (memTotalOf uc) out.MemoryUsageBytes ∧
      out.TopContainersByMemory =
        topEntries out.MemoryLimitBytes (sortByMemoryUsage arrived) ∧
      out.ContainerMetrics = arrived.map metricsEntry := by
  obtain ⟨hc, hi, hv⟩ := Execute_ok_inv uc sched out h
  obtain ⟨arrived, hperm, heq⟩ := Execute_eq uc sched _ _ _ hc hi hv hs
  rw [heq] at h
  have ho : out = _ := (Except.ok.inj h).symm
  refine ⟨arrived, hperm, ?_, ?_, ?_, ?_⟩ <;> rw [ho]

theorem sorted_usages_eq_of_perm (a b : List (Container × ContainerMetrics))
    (h : a.Perm b) :
    (sortByMemoryUsage a).map (fun p => p.2.MemoryUsage) =
      (sortByMemoryUsage b).map (fun p => p.2.MemoryUsage) := by
  have hp : (sortByMemoryUsage a).Perm (sortByMemoryUsage b) :=
    ((sortByMemoryUsage_perm a).trans h).trans (sortByMemoryUsage_perm b).symm
  have ha : ((sortByMemoryUsage a).map (fun p => p.2.MemoryUsage)).Sorted (· ≥ ·) :=
    List.pairwise_map.2 (sortByMemoryUsage_sorted a)
  have hb : ((sortByMemoryUsage b).map (fun p => p.2.MemoryUsage)).Sorted (· ≥ ·) :=
    List.pairwise_map.2 (sortByMemoryUsage_sorted b)
  exact List.eq_of_perm_of_sorted (hp.map _) ha hb

theorem sorted_eq_of_perm_of_nodup (a b : List (Container × ContainerMetrics))
    (h : a.Perm b) (hn : (a.map (fun p => p.2.MemoryUsage)).Nodup) :
    sortByMemoryUsage a = sortByMemoryUsage b := by
  have hp : (sortByMemoryUsage a).Perm (sortByMemoryUsage b) :=
    ((sortByMemoryUsage_perm a).trans h).trans (sortByMemoryUsage_perm b).symm
  have strict : ∀ l : List (Container × ContainerMetrics), l.Perm a →
      l.Pairwise (fun p q => q.2.MemoryUsage ≤ p.2.MemoryUsage) →
      l.Pairwise (fun p q => q.2.MemoryUsage < p.2.MemoryUsage) := by
    intro l hl hs
    have hnd : (l.map (fun p => p.2.MemoryUsage)).Nodup := ((hl.map _).nodup_iff).2 hn
    have hne : l.Pairwise (fun p q => p.2.MemoryUsage ≠ q.2.MemoryUsage) :=
      List.pairwise_map.1 hnd
    exact (hs.and hne).imp (fun h => lt_of_le_of_ne h.1 (Ne.symm h.2))
  haveI : IsAntisymm (Container × ContainerMetrics)
      (fun p q => q.2.MemoryUsage < p.2.MemoryUsage) :=
    ⟨fun _ _ h1 h2 => absurd (lt_trans h1 h2) (lt_irrefl _)⟩
  exact List.eq_of_perm_of_sorted hp
    (strict _ (sortByMemoryUsage_perm a) (sortByMemoryUsage_sorted a))
    (strict _ ((sortByMemoryUsage_perm b).trans h.symm) (sortByMemoryUsage_sorted b))

/-- C22: two runs of `Execute` over the same collaborators that differ only in the order
in which the snapshot results arrive give the same sequence of memory usages in
`TopContainersByMemory`, the same `MemoryUsageBytes` and `MemoryLimitBytes`, and
`ContainerMetrics` lists that are permutations of each other; when no two snapshotted
containers use the same amount of memory the whole `TopContainersByMemory` lists are
equal. -/
theorem Execute_arrival_order (uc : GetSystemSummary)
    (sched1 sched2 : List result → List result)
    (hs1 : IsSchedule sched1) (hs2 : IsSchedule sched2)
    (out1 out2 : GetSystemSummaryOutput)
    (h1 : (uc.Execute sched1).result = .ok out1)
    (h2 : (uc.Execute sched2).result = .ok out2) :
    out1.TopContainersByMemory.map (fun e => e.MemoryUsage) =
        out2.TopContainersByMemory.map (fun e => e.MemoryUsage) ∧
      out1.MemoryUsageBytes = out2.MemoryUsageBytes ∧
      out1.MemoryLimitBytes = out2.MemoryLimitBytes ∧
      out1.ContainerMetrics.Perm out2.ContainerMetrics ∧
      (((snapshotted uc (uc.containers true).1).map (fun p => p.2.MemoryUsage)).Nodup →
        out1.TopContainersByMemory = out2.TopContainersByMemory) := by
  obtain ⟨a1, hp1, hu1, hl1, ht1, hm1⟩ := Execute_form_of_ok uc sched1 out1 h1 hs1
  obtain ⟨a2, hp2, hu2, hl2, ht2, hm2⟩ := Execute_form_of_ok uc sched2 out2 h2 hs2
  have hp : a1.Perm a2 := hp1.trans hp2.symm
  have hu : out1.MemoryUsageBytes = out2.MemoryUsageBytes := by
    rw [hu1, hu2, sum_usage_perm hp]
  have hl : out1.MemoryLimitBytes = out2.MemoryLimitBytes := by
    rw [hl1, hl2, hu]
  refine ⟨?_, hu, hl, ?_, ?_⟩
  · rw [ht1, ht2]
    simp only [topEntries, List.map_map]
    have e : ((fun e : ContainerMemoryEntry => e.MemoryUsage) ∘
        memoryEntry out1.MemoryLimitBytes) = (fun p => p.2.MemoryUsage) := rfl
    have e2 : ((fun e : ContainerMemoryEntry => e.MemoryUsage) ∘
        memoryEntry out2.MemoryLimitBytes) = (fun p => p.2.MemoryUsage) := rfl
    rw [e, e2, List.map_take, List.map_take, sorted_usages_eq_of_perm a1 a2 hp]
  · rw [hm1, hm2]
    exact hp.map _
  · intro hn
    have hn1 : (a1.map (fun p => p.2.MemoryUsage)).Nodup := ((hp1.map _).nodup_iff).2 hn
    rw [ht1, ht2, hl, sorted_eq_of_perm_of_nodup a1 a2 hp hn1]

/-- The fleet with three running containers, its snapshots arriving in list order and in
the reverse order. -/
theorem Execute_arrival_order_witness :
    ∃ out1 out2 : GetSystemSummaryOutput,
      (mixedFleet.Execute id).result = .ok out1 ∧
      (mixedFleet.Execute List.reverse).result = .ok out2 ∧
      out1.TopContainersByMemory.map (fun e => e.MemoryUsage) =
        out2.TopContainersByMemory.map (fun e => e.MemoryUsage) ∧
      out1.MemoryUsageBytes = out2.MemoryUsageBytes ∧
      out1.MemoryLimitBytes = out2.MemoryLimitBytes ∧
      out1.ContainerMetrics.Perm out2.ContainerMetrics ∧
      out1.TopContainersByMemory = out2.TopContainersByMemory := by
  obtain ⟨out1, h1⟩ := Execute_succeeds mixedFleet id _ _ _ rfl rfl rfl
  obtain ⟨out2, h2⟩ := Execute_succeeds mixedFleet List.reverse _ _ _ rfl rfl rfl
  have h := Execute_arrival_order mixedFleet id List.reverse isSchedule_id
    (fun l => List.reverse_perm l) out1 out2 h1 h2
  exact ⟨out1, out2, h1, h2, h.1, h.2.1, h.2.2.1, h.2.2.2.1, h.2.2.2.2 (by decide)⟩

/-- With two containers that use the same amount of memory the order of the top list
follows the arrival order: "a" before "b" in list order, "b" before "a" in the reverse
order, and the `ContainerMetrics` lists are in arrival order too. -/
theorem tied_order_follows_arrival :
    (tiedFleet.Execute id).result.toOption.map
        (fun o => (o.TopContainersByMemory.map (fun e => e.ID),
          o.ContainerMetrics.map (fun e => e.ID))) =
        some ([str "a", str "b"], [str "a", str "b"]) ∧
      (tiedFleet.Execute List.reverse).result.toOption.map
        (fun o => (o.TopContainersByMemory.map (fun e => e.ID),
          o.ContainerMetrics.map (fun e => e.ID))) =
        some ([str "b", str "a"], [str "b", str "a"]) := by
  constructor <;> decide

end DockScope
